import Mathlib

/-! Urchinfs client: locator parsing, request building, response processing.

A shallow embedding of `src/urchin/urchinfs.go` and `src/dfstore/dfstore.go`,
together with the parts of the Go standard library these files call
(`net/url`, `net/netip`, `path`, `strings`, `strconv`, `encoding/json`,
`net/http` request construction).

A Go string is a sequence of bytes.  It is modelled as a list of characters,
one character per byte; ASCII text is represented exactly, and a character
above `0x7f` stands for a non-ASCII byte.
-/

namespace Urchin

deriving instance DecidableEq for Except

/-- A Go string: one character of the list per byte. -/
abbrev GoString := List Char

/-- Go error values, kept apart by their dynamic type. -/
inductive GoError where
  /-- An error made by `errors.New` or `fmt.Errorf`: its message. -/
  | New (msg : GoString)
  /-- A `*url.Error`: operation, URL and the message of the wrapped error. -/
  | URL (op url msg : GoString)
  /-- A `*strconv.NumError`: function, input and the message of the wrapped error. -/
  | Num (fn num msg : GoString)
  /-- An error of `encoding/json`. -/
  | JSON (msg : GoString)
  /-- An error of the transport or of reading a body. -/
  | Transport (msg : GoString)
  deriving DecidableEq, Repr

/-! ## package strings -/

namespace strings

/-- `strings.HasPrefix`. -/
def HasPrefix (s pre : GoString) : Bool := pre.isPrefixOf s

/-- `strings.HasSuffix`. -/
def HasSuffix (s suf : GoString) : Bool := suf.reverse.isPrefixOf s.reverse

/-- `strings.Contains` for a one-byte separator. -/
def Contains (s : GoString) (sep : Char) : Bool := s.elem sep

/-- `strings.Count` for a one-byte separator. -/
def Count (s : GoString) (sep : Char) : Nat := s.count sep

/-- `strings.Index` for a one-byte separator: `-1` when it is absent. -/
def Index : GoString → Char → Int
  | [], _ => -1
  | c :: cs, sep =>
    if c = sep then 0
    else
      let i := Index cs sep
      if i < 0 then -1 else i + 1

/-- `strings.Index` for any separator: `-1` when it is absent. -/
def IndexStr : GoString → GoString → Int
  | [], sep => if sep = [] then 0 else -1
  | c :: cs, sep =>
    if sep.isPrefixOf (c :: cs) then 0
    else
      let i := IndexStr cs sep
      if i < 0 then -1 else i + 1

/-- `strings.LastIndex` for a one-byte separator: `-1` when it is absent. -/
def LastIndex : GoString → Char → Int
  | [], _ => -1
  | c :: cs, sep =>
    let i := LastIndex cs sep
    if 0 ≤ i then i + 1
    else if c = sep then 0
    else -1

/-- `strings.Cut` for a one-byte separator: the text before and after its
first occurrence, or `(s, "", false)` when it does not occur. -/
def Cut : GoString → Char → GoString × GoString × Bool
  | [], _ => ([], [], false)
  | c :: cs, sep =>
    if c = sep then ([], cs, true)
    else
      match Cut cs sep with
      | (before, after, true) => (c :: before, after, true)
      | (_, _, false) => (c :: cs, [], false)

/-- `strings.Trim`: `s` without its leading and trailing bytes that are in `cutset`. -/
def Trim (s cutset : GoString) : GoString :=
  ((s.dropWhile (fun c => cutset.elem c)).reverse.dropWhile (fun c => cutset.elem c)).reverse

/-- `strings.TrimSuffix`. -/
def TrimSuffix (s suf : GoString) : GoString :=
  if HasSuffix s suf then s.take (s.length - suf.length) else s

/-- `strings.ToLower` on ASCII letters (the only letters a URL scheme has). -/
def ToLower (s : GoString) : GoString :=
  s.map (fun c => if 'A'.toNat ≤ c.toNat ∧ c.toNat ≤ 'Z'.toNat then Char.ofNat (c.toNat + 32) else c)

/-- The worker of `ReplaceAll`; `fuel` bounds the number of steps. -/
def replaceLoop (old new : GoString) : Nat → GoString → GoString
  | 0, s => s
  | _, [] => []
  | fuel + 1, c :: cs =>
    if old.isPrefixOf (c :: cs) then new ++ replaceLoop old new fuel ((c :: cs).drop old.length)
    else c :: replaceLoop old new fuel cs

/-- `strings.ReplaceAll` for a non-empty `old`: the non-overlapping occurrences
of `old`, found from the left, are replaced by `new`.  (Go gives an empty `old`
a meaning of its own; the program never passes one, and the model returns `s`.) -/
def ReplaceAll (s old new : GoString) : GoString :=
  if old = [] then s else replaceLoop old new s.length s

end strings

/-! ## package net/netip -/

namespace netip

/-- `Addr`: the bytes of the address, 4 for IPv4 and 16 for IPv6, and the zone. -/
structure Addr where
  ip : List Nat
  zone : GoString
  deriving DecidableEq, Repr

/-- `Addr.Is4`. -/
def Addr.Is4 (a : Addr) : Bool := decide (a.ip.length = 4)

/-- The loop of `parseIPv4Fields` over the text `s`: `first` tells that the
byte is the first one, `prev` is the byte before it; `val`, `pos` and `digLen`
are the variables of the loop, `fields` the octets stored so far.  The error
is the `msg` of the `parseAddrError`. -/
def parseIPv4FieldsLoop : GoString → Bool → Option Char → Nat → Nat → Nat → List Nat →
    Except GoString (Nat × Nat × List Nat)
  | [], _, _, val, pos, _, fields => .ok (val, pos, fields)
  | c :: rest, first, prev, val, pos, digLen, fields =>
    if '0'.toNat ≤ c.toNat ∧ c.toNat ≤ '9'.toNat then
      if digLen = 1 ∧ val = 0 then .error "IPv4 field has octet with leading zero".toList
      else if val * 10 + (c.toNat - '0'.toNat) > 255 then
        .error "IPv4 field has value >255".toList
      else
        parseIPv4FieldsLoop rest false (some c) (val * 10 + (c.toNat - '0'.toNat)) pos
          (digLen + 1) fields
    else if c = '.' then
      if first ∨ rest = [] ∨ prev = some '.' then
        .error "IPv4 field must have at least one digit".toList
      else if pos = 3 then .error "IPv4 address too long".toList
      else parseIPv4FieldsLoop rest false (some c) 0 (pos + 1) 0 (fields ++ [val])
    else .error "unexpected character".toList

/-- `parseIPv4Fields` on the text `in[off:end]`: the four octets. -/
def parseIPv4Fields (s : GoString) : Except GoString (List Nat) :=
  match parseIPv4FieldsLoop s true none 0 0 0 [] with
  | .error msg => .error msg
  | .ok (val, pos, fields) =>
    if pos < 3 then .error "IPv4 address too short".toList else .ok (fields ++ [val])

/-- `parseIPv4`. -/
def parseIPv4 (s : GoString) : Except GoString Addr :=
  match parseIPv4Fields s with
  | .error msg => .error msg
  | .ok fields => .ok { ip := fields, zone := [] }

/-- Is `c` a hexadecimal digit. -/
def isHexDigit (c : Char) : Bool :=
  decide ('0'.toNat ≤ c.toNat ∧ c.toNat ≤ '9'.toNat) ||
    decide ('a'.toNat ≤ c.toNat ∧ c.toNat ≤ 'f'.toNat) ||
    decide ('A'.toNat ≤ c.toNat ∧ c.toNat ≤ 'F'.toNat)

/-- The value of the hexadecimal digit `c`. -/
def hexValue (c : Char) : Nat :=
  if '0'.toNat ≤ c.toNat ∧ c.toNat ≤ '9'.toNat then c.toNat - '0'.toNat
  else if 'a'.toNat ≤ c.toNat ∧ c.toNat ≤ 'f'.toNat then c.toNat - 'a'.toNat + 10
  else c.toNat - 'A'.toNat + 10

/-- The inner loop of `parseIPv6`, reading one group of hexadecimal digits:
returns `off`, `acc` and the text from `s[off]` on. -/
def hexGroup : Nat → Nat → GoString → Except GoString (Nat × Nat × GoString)
  | off, acc, [] => .ok (off, acc, [])
  | off, acc, c :: rest =>
    if isHexDigit c then
      if off > 3 then .error "each group must have 4 or less digits".toList
      else if acc * 16 + hexValue c > 0xffff then .error "IPv6 field has value >=2^16".toList
      else hexGroup (off + 1) (acc * 16 + hexValue c) rest
    else .ok (off, acc, c :: rest)

/-- The outer loop of `parseIPv6` (`for i < 16`); `fuel` bounds the number of
rounds, of which there are at most eight.  Returns `i`, `ellipsis`, the bytes
stored so far and the unread text. -/
def parseIPv6Loop : Nat → Nat → Option Nat → List Nat → GoString →
    Except GoString (Nat × Option Nat × List Nat × GoString)
  | 0, i, ellipsis, ip, s => .ok (i, ellipsis, ip, s)
  | fuel + 1, i, ellipsis, ip, s =>
    if ¬ i < 16 then .ok (i, ellipsis, ip, s)
    else
      match hexGroup 0 0 s with
      | .error msg => .error msg
      | .ok (off, acc, rest) =>
        if off = 0 then
          .error "each colon-separated field must have at least one digit".toList
        else if rest.head? = some '.' then
          if ellipsis = none ∧ i ≠ 12 then
            .error "embedded IPv4 address must replace the final 2 fields of the address".toList
          else if i + 4 > 16 then
            .error
              "too many hex fields to fit an embedded IPv4 at the end of the address".toList
          else
            match parseIPv4Fields s with
            | .error msg => .error msg
            | .ok fields => .ok (i + 4, ellipsis, ip ++ fields, [])
        else if rest = [] then .ok (i + 2, ellipsis, ip ++ [acc / 256, acc % 256], [])
        else if rest.head? ≠ some ':' then .error "unexpected character, want colon".toList
        else if rest.length = 1 then .error "colon must be followed by more characters".toList
        else if rest.tail.head? = some ':' then
          if ellipsis.isSome then .error "multiple :: in address".toList
          else if rest.tail.tail = [] then
            .ok (i + 2, some (i + 2), ip ++ [acc / 256, acc % 256], [])
          else
            parseIPv6Loop fuel (i + 2) (some (i + 2)) (ip ++ [acc / 256, acc % 256])
              rest.tail.tail
        else parseIPv6Loop fuel (i + 2) ellipsis (ip ++ [acc / 256, acc % 256]) rest.tail

/-- `parseIPv6`. -/
def parseIPv6 (text : GoString) : Except GoString Addr :=
  let i := strings.Index text '%'
  let s := if i ≠ -1 then text.take i.toNat else text
  let zone := if i ≠ -1 then text.drop (i.toNat + 1) else []
  if i ≠ -1 ∧ zone = [] then .error "zone must be a non-empty string".toList
  else
    let leading := decide (s.length ≥ 2) && s.head? = some ':' && s.tail.head? = some ':'
    if leading ∧ s.drop 2 = [] then .ok { ip := List.replicate 16 0, zone := zone }
    else
      match parseIPv6Loop 9 0 (if leading then some 0 else none) []
          (if leading then s.drop 2 else s) with
      | .error msg => .error msg
      | .ok (i, ellipsis, ip, s) =>
        if s ≠ [] then .error "trailing garbage after address".toList
        else if i < 16 then
          match ellipsis with
          | none => .error "address string too short".toList
          | some e => .ok { ip := ip.take e ++ List.replicate (16 - i) 0 ++ ip.drop e, zone := zone }
        else if ellipsis.isSome then
          .error "the :: must expand to at least one field of zeros".toList
        else .ok { ip := ip, zone := zone }

/-- `ParseAddr`: the first `.`, `:` or `%` of the text decides between IPv4
and IPv6.  The error is the `msg` of the `parseAddrError`. -/
def ParseAddr (s : GoString) : Except GoString Addr :=
  match s.find? (fun c => c = '.' || c = ':' || c = '%') with
  | some '.' => parseIPv4 s
  | some ':' => parseIPv6 s
  | some _ => .error "missing IPv6 address".toList
  | none => .error "unable to parse IP".toList

end netip

/-! ## package net/url -/

namespace url

/-- `url.Userinfo`. -/
structure Userinfo where
  username : GoString
  password : GoString
  passwordSet : Bool
  deriving DecidableEq, Repr

/-- `url.URL`. -/
structure URL where
  Scheme : GoString := []
  Opaque : GoString := []
  User : Option Userinfo := none
  Host : GoString := []
  Path : GoString := []
  RawPath : GoString := []
  OmitHost : Bool := false
  ForceQuery : Bool := false
  RawQuery : GoString := []
  Fragment : GoString := []
  RawFragment : GoString := []
  deriving DecidableEq, Repr

/-- The `encoding` modes of `net/url`. -/
inductive encoding where
  | encodePath
  | encodePathSegment
  | encodeHost
  | encodeZone
  | encodeUserPassword
  | encodeQueryComponent
  | encodeFragment
  deriving DecidableEq, Repr

open encoding

/-- Is `lo ≤ c ≤ hi` as bytes. -/
def inRange (lo hi c : Char) : Bool := decide (lo.toNat ≤ c.toNat) && decide (c.toNat ≤ hi.toNat)

/-- `ishex`. -/
def ishex (c : Char) : Bool := inRange '0' '9' c || inRange 'a' 'f' c || inRange 'A' 'F' c

/-- `unhex`. -/
def unhex (c : Char) : Nat :=
  if inRange '0' '9' c then c.toNat - '0'.toNat
  else if inRange 'a' 'f' c then c.toNat - 'a'.toNat + 10
  else if inRange 'A' 'F' c then c.toNat - 'A'.toNat + 10
  else 0

/-- `shouldEscape`: must byte `c` be escaped in the given part of a URL. -/
def shouldEscape (c : Char) (mode : encoding) : Bool :=
  if inRange 'a' 'z' c || inRange 'A' 'Z' c || inRange '0' '9' c then false
  else if (mode = encodeHost || mode = encodeZone) &&
      "!$&\x27()*+,;=:[]<>\"".toList.elem c then false
  else if "-_.~".toList.elem c then false
  else if "$&+,/:;=?@".toList.elem c &&
      (mode = encodePath || mode = encodePathSegment || mode = encodeUserPassword ||
        mode = encodeQueryComponent || mode = encodeFragment) then
    match mode with
    | encodePath => c = '?'
    | encodePathSegment => c = '/' || c = ';' || c = ',' || c = '?'
    | encodeUserPassword => c = '@' || c = '/' || c = '?' || c = ':'
    | encodeQueryComponent => true
    | _ => false
  else if mode = encodeFragment && "!()*".toList.elem c then false
  else true

/-- The first loop of `unescape`: every `%` must start a well-formed escape
and, for a host or zone, every byte must be allowed.  Returns the offending
text on failure. -/
def unescapeCheck (mode : encoding) : GoString → Except GoError Unit
  | [] => .ok ()
  | '%' :: rest =>
    match rest with
    | h1 :: h2 :: rest2 =>
      if !ishex h1 || !ishex h2 then
        .error (.New ("invalid URL escape ".toList ++ ('%' :: rest).take 3))
      else if mode = encodeHost && unhex h1 < 8 && ['%', h1, h2] ≠ "%25".toList then
        .error (.New ("invalid URL escape ".toList ++ ['%', h1, h2]))
      else if mode = encodeZone && ['%', h1, h2] ≠ "%25".toList &&
          Char.ofNat (unhex h1 * 16 + unhex h2) ≠ ' ' &&
          shouldEscape (Char.ofNat (unhex h1 * 16 + unhex h2)) encodeHost then
        .error (.New ("invalid URL escape ".toList ++ ['%', h1, h2]))
      else unescapeCheck mode rest2
    | _ => .error (.New ("invalid URL escape ".toList ++ ('%' :: rest).take 3))
  | c :: rest =>
    if (mode = encodeHost || mode = encodeZone) && c.toNat < 0x80 && shouldEscape c encodeHost then
      .error (.New ("invalid character ".toList ++ [c] ++ " in host name".toList))
    else unescapeCheck mode rest

/-- The second loop of `unescape`: decode `%XX`, and `+` in a query component. -/
def unescapeDecode (mode : encoding) : GoString → GoString
  | [] => []
  | '%' :: h1 :: h2 :: rest => Char.ofNat (unhex h1 * 16 + unhex h2) :: unescapeDecode mode rest
  | '+' :: rest => (if mode = encodeQueryComponent then ' ' else '+') :: unescapeDecode mode rest
  | c :: rest => c :: unescapeDecode mode rest

/-- `unescape`. -/
def unescape (s : GoString) (mode : encoding) : Except GoError GoString :=
  match unescapeCheck mode s with
  | .error e => .error e
  | .ok () => .ok (unescapeDecode mode s)

/-- The upper-case hexadecimal digit of a nibble. -/
def upperhex (n : Nat) : Char := "0123456789ABCDEF".toList.getD n '0'

/-- `escape`. -/
def escape : GoString → encoding → GoString
  | [], _ => []
  | c :: rest, mode =>
    if shouldEscape c mode then
      if c = ' ' ∧ mode = encodeQueryComponent then '+' :: escape rest mode
      else '%' :: upperhex (c.toNat / 16 % 16) :: upperhex (c.toNat % 16) :: escape rest mode
    else c :: escape rest mode

/-- `stringContainsCTLByte`. -/
def stringContainsCTLByte (s : GoString) : Bool :=
  s.any (fun b => decide (b.toNat < ' '.toNat) || decide (b.toNat = 0x7f))

/-- The loop of `getScheme`; `i` is the index of the first byte of `rest` in `rawURL`. -/
def getSchemeLoop (rawURL : GoString) : Nat → GoString → Except GoError (GoString × GoString)
  | _, [] => .ok ([], rawURL)
  | i, c :: rest =>
    if inRange 'a' 'z' c || inRange 'A' 'Z' c then getSchemeLoop rawURL (i + 1) rest
    else if inRange '0' '9' c || c = '+' || c = '-' || c = '.' then
      if i = 0 then .ok ([], rawURL) else getSchemeLoop rawURL (i + 1) rest
    else if c = ':' then
      if i = 0 then .error (.New "missing protocol scheme".toList)
      else .ok (rawURL.take i, rawURL.drop (i + 1))
    else .ok ([], rawURL)

/-- `getScheme`: the text before the first `:` when it is a scheme, and the rest. -/
def getScheme (rawURL : GoString) : Except GoError (GoString × GoString) :=
  getSchemeLoop rawURL 0 rawURL

/-- `validOptionalPort`. -/
def validOptionalPort : GoString → Bool
  | [] => true
  | c :: digits => c = ':' && digits.all (fun b => !(decide (b.toNat < '0'.toNat) || decide (b.toNat > '9'.toNat)))

/-- `validUserinfo`. -/
def validUserinfo (s : GoString) : Bool :=
  s.all (fun r => inRange 'A' 'Z' r || inRange 'a' 'z' r || inRange '0' '9' r ||
    "-._:~!$&\x27()*+,;=%@".toList.elem r)

/-- `parseHost`, as `net/url` has it since it checks bracketed hosts: a `[`
anywhere but at the start is refused; a host that starts with `[` must be
`[address]` or `[address]:port` with an IPv6 address that `netip.ParseAddr`
accepts; in any other host the text from the first `:` on must be a port.
(The error of `netip.ParseAddr` is shown without the position it names.) -/
def parseHost (host : GoString) : Except GoError GoString :=
  let openBracketIdx := strings.LastIndex host '['
  if openBracketIdx > 0 then .error (.New "invalid IP-literal".toList)
  else if openBracketIdx = 0 then
    let closeBracketIdx := strings.LastIndex host ']'
    if closeBracketIdx < 0 then .error (.New "missing \x27]\x27 in host".toList)
    else
      let colonPort := host.drop (closeBracketIdx.toNat + 1)
      if !validOptionalPort colonPort then
        .error (.New ("invalid port \"".toList ++ colonPort ++ "\" after host".toList))
      else
        match unescape colonPort encodeHost with
        | .error e => .error e
        | .ok unescapedColonPort =>
          let hostname := (host.take closeBracketIdx.toNat).drop 1
          let zoneIdx := strings.IndexStr hostname "%25".toList
          let unescaped : Except GoError GoString :=
            if 0 ≤ zoneIdx then
              match unescape (hostname.take zoneIdx.toNat) encodeHost with
              | .error e => .error e
              | .ok hostPart =>
                match unescape (hostname.drop zoneIdx.toNat) encodeZone with
                | .error e => .error e
                | .ok zonePart => .ok (hostPart ++ zonePart)
            else unescape hostname encodeHost
          match unescaped with
          | .error e => .error e
          | .ok unescapedHostname =>
            match netip.ParseAddr unescapedHostname with
            | .error msg =>
              .error (.New ("invalid host: ParseAddr(\"".toList ++ unescapedHostname ++
                "\"): ".toList ++ msg))
            | .ok addr =>
              if addr.Is4 then .error (.New "invalid IP-literal".toList)
              else .ok ('[' :: unescapedHostname ++ ']' :: unescapedColonPort)
  else
    let i := strings.Index host ':'
    if i ≠ -1 ∧ !validOptionalPort (host.drop i.toNat) then
      .error (.New ("invalid port \"".toList ++ host.drop i.toNat ++ "\" after host".toList))
    else unescape host encodeHost

/-- `parseAuthority`. -/
def parseAuthority (authority : GoString) : Except GoError (Option Userinfo × GoString) :=
  let i := strings.LastIndex authority '@'
  match (if i < 0 then parseHost authority else parseHost (authority.drop (i.toNat + 1))) with
  | .error e => .error e
  | .ok host =>
    if i < 0 then .ok (none, host)
    else
      let userinfo := authority.take i.toNat
      if !validUserinfo userinfo then .error (.New "net/url: invalid userinfo".toList)
      else if !strings.Contains userinfo ':' then
        match unescape userinfo encodeUserPassword with
        | .error e => .error e
        | .ok u => .ok (some ⟨u, [], false⟩, host)
      else
        match strings.Cut userinfo ':' with
        | (username, password, _) =>
          match unescape username encodeUserPassword with
          | .error e => .error e
          | .ok username =>
            match unescape password encodeUserPassword with
            | .error e => .error e
            | .ok password => .ok (some ⟨username, password, true⟩, host)

/-- `(*URL).setPath`. -/
def setPath (u : URL) (p : GoString) : Except GoError URL :=
  match unescape p encodePath with
  | .error e => .error e
  | .ok path =>
    if p = escape path encodePath then .ok { u with Path := path, RawPath := [] }
    else .ok { u with Path := path, RawPath := p }

/-- `(*URL).setFragment`. -/
def setFragment (u : URL) (f : GoString) : Except GoError URL :=
  match unescape f encodeFragment with
  | .error e => .error e
  | .ok frag =>
    if f = escape frag encodeFragment then .ok { u with Fragment := frag, RawFragment := [] }
    else .ok { u with Fragment := frag, RawFragment := f }

/-- The step of `parse` that splits the query off: a lone trailing `?` sets
`ForceQuery`, else the text after the first `?` is the raw query. -/
def splitQuery (url : URL) (rest : GoString) : GoString × URL :=
  if strings.HasSuffix rest "?".toList && strings.Count rest '?' = 1 then
    (rest.take (rest.length - 1), { url with ForceQuery := true })
  else
    match strings.Cut rest '?' with
    | (rest, query, _) => (rest, { url with RawQuery := query })

/-- The steps of `parse` after the query is split off: the opaque form, the
authority, the path. -/
def parseTail (viaRequest : Bool) (url : URL) (rest : GoString) : Except GoError URL :=
  if !strings.HasPrefix rest "/".toList && url.Scheme ≠ [] then
    .ok { url with Opaque := rest }
  else if !strings.HasPrefix rest "/".toList && viaRequest then
    .error (.New "invalid URI for request".toList)
  else if !strings.HasPrefix rest "/".toList &&
      strings.Contains (strings.Cut rest '/').1 ':' then
    .error (.New "first path segment in URL cannot contain colon".toList)
  else if (url.Scheme ≠ [] || !viaRequest && !strings.HasPrefix rest "///".toList) &&
      strings.HasPrefix rest "//".toList then
    let auth0 := rest.drop 2
    let i := strings.Index auth0 '/'
    let authority := if 0 ≤ i then auth0.take i.toNat else auth0
    let rest2 := if 0 ≤ i then auth0.drop i.toNat else []
    match parseAuthority authority with
    | .error e => .error e
    | .ok (user, host) => setPath { url with User := user, Host := host } rest2
  else if url.Scheme ≠ [] && strings.HasPrefix rest "/".toList then
    setPath { url with OmitHost := true } rest
  else setPath url rest

/-- `parse`: the parser behind `Parse` (`viaRequest = false`) and
`ParseRequestURI` (`viaRequest = true`). -/
def parse (rawURL : GoString) (viaRequest : Bool) : Except GoError URL :=
  if stringContainsCTLByte rawURL then
    .error (.New "net/url: invalid control character in URL".toList)
  else if rawURL = [] && viaRequest then .error (.New "empty url".toList)
  else if rawURL = "*".toList then .ok { Path := "*".toList }
  else
    match getScheme rawURL with
    | .error e => .error e
    | .ok (scheme, rest) =>
      match splitQuery { Scheme := strings.ToLower scheme } rest with
      | (rest, url) => parseTail viaRequest url rest

/-- `url.ParseRequestURI`. -/
def ParseRequestURI (rawURL : GoString) : Except GoError URL :=
  match parse rawURL true with
  | .error (.New msg) => .error (.URL "parse".toList rawURL msg)
  | .error e => .error e
  | .ok u => .ok u

end url

namespace url

open encoding

/-- `(*Userinfo).String`. -/
def Userinfo.String (ui : Userinfo) : GoString :=
  escape ui.username encodeUserPassword ++
    (if ui.passwordSet then ':' :: escape ui.password encodeUserPassword else [])

/-- `validEncoded`. -/
def validEncoded (s : GoString) (mode : encoding) : Bool :=
  s.all (fun c => "!$&\x27()*+,;=:@[]%".toList.elem c || !shouldEscape c mode)

/-- `(*URL).EscapedPath`. -/
def URL.EscapedPath (u : URL) : GoString :=
  if u.RawPath ≠ [] && validEncoded u.RawPath encodePath &&
      unescape u.RawPath encodePath = .ok u.Path then u.RawPath
  else if u.Path = "*".toList then "*".toList
  else escape u.Path encodePath

/-- `(*URL).EscapedFragment`. -/
def URL.EscapedFragment (u : URL) : GoString :=
  if u.RawFragment ≠ [] && validEncoded u.RawFragment encodeFragment &&
      unescape u.RawFragment encodeFragment = .ok u.Fragment then u.RawFragment
  else escape u.Fragment encodeFragment

/-- `(*URL).String`. -/
def URL.String (u : URL) : GoString :=
  let buf0 : GoString := if u.Scheme ≠ [] then u.Scheme ++ [':'] else []
  let buf1 : GoString :=
    if u.Opaque ≠ [] then buf0 ++ u.Opaque
    else
      let buf2 : GoString :=
        if u.Scheme ≠ [] || u.Host ≠ [] || u.User.isSome then
          if u.OmitHost && u.Host = [] && u.User.isNone then buf0
          else
            buf0 ++ (if u.Host ≠ [] || u.Path ≠ [] || u.User.isSome then "//".toList else []) ++
              (match u.User with
                | some ui => ui.String ++ ['@']
                | none => []) ++
              (if u.Host ≠ [] then escape u.Host encodeHost else [])
        else buf0
      let path := u.EscapedPath
      let buf3 : GoString :=
        if path ≠ [] && path.head? ≠ some '/' && u.Host ≠ [] then buf2 ++ ['/'] else buf2
      let buf4 : GoString :=
        if buf3.length = 0 && strings.Contains (strings.Cut path '/').1 ':' then buf3 ++ "./".toList
        else buf3
      buf4 ++ path
  let buf5 : GoString :=
    if u.ForceQuery || u.RawQuery ≠ [] then buf1 ++ '?' :: u.RawQuery else buf1
  if u.Fragment ≠ [] then buf5 ++ '#' :: u.EscapedFragment else buf5

/-- `url.Parse`. -/
def Parse (rawURL : GoString) : Except GoError URL :=
  match strings.Cut rawURL '#' with
  | (u, frag, _) =>
    match parse u false with
    | .error (.New msg) => .error (.URL "parse".toList u msg)
    | .error e => .error e
    | .ok url =>
      if frag = [] then .ok url
      else
        match setFragment url frag with
        | .error (.New msg) => .error (.URL "parse".toList rawURL msg)
        | .error e => .error e
        | .ok url => .ok url

/-- `url.QueryEscape`. -/
def QueryEscape (s : GoString) : GoString := escape s encodeQueryComponent

/-- `url.QueryUnescape`. -/
def QueryUnescape (s : GoString) : Except GoError GoString := unescape s encodeQueryComponent

/-- `url.Values`, a map from key to values: the association list is kept
sorted by key, each key once, so that equal maps are equal lists. -/
abbrev Values := List (GoString × List GoString)

/-- The values stored under `key` (`v[key]`). -/
def Values.lookup : Values → GoString → List GoString
  | [], _ => []
  | (k, vs) :: rest, key => if k = key then vs else Values.lookup rest key

/-- The assignment `v[key] = vs`. -/
def Values.store : Values → GoString → List GoString → Values
  | [], key, vs => [(key, vs)]
  | (k, old) :: rest, key, vs =>
    if k = key then (k, vs) :: rest
    else if key < k then (key, vs) :: (k, old) :: rest
    else (k, old) :: Values.store rest key vs

/-- `Values.Set`. -/
def Values.Set (v : Values) (key value : GoString) : Values := v.store key [value]

/-- `Values.Add`. -/
def Values.Add (v : Values) (key value : GoString) : Values := v.store key (v.lookup key ++ [value])

/-- The text `Values.Encode` writes for one key. -/
def encodeKey (keyEscaped : GoString) : List GoString → List GoString
  | [] => []
  | v :: vs => (keyEscaped ++ '=' :: QueryEscape v) :: encodeKey keyEscaped vs

/-- `Values.Encode`: `key=value` pairs in the order of the sorted keys, joined by `&`. -/
def Values.Encode (v : Values) : GoString :=
  "&".toList.intercalate (v.flatMap (fun kv => encodeKey (QueryEscape kv.1) kv.2))

/-- The loop of `parseQuery`; errors are dropped, as `(*URL).Query` drops them. -/
def parseQueryLoop : Nat → Values → GoString → Values
  | 0, m, _ => m
  | fuel + 1, m, query =>
    if query = [] then m
    else
      match strings.Cut query '&' with
      | (key, query, _) =>
        if strings.Contains key ';' then parseQueryLoop fuel m query
        else if key = [] then parseQueryLoop fuel m query
        else
          match strings.Cut key '=' with
          | (key, value, _) =>
            match QueryUnescape key with
            | .error _ => parseQueryLoop fuel m query
            | .ok key =>
              match QueryUnescape value with
              | .error _ => parseQueryLoop fuel m query
              | .ok value => parseQueryLoop fuel (m.Add key value) query

/-- `(*URL).Query`. -/
def URL.Query (u : URL) : Values := parseQueryLoop (u.RawQuery.length + 1) [] u.RawQuery

end url

/-! ## package path -/

namespace path

/-- The backtracking of `Clean` at a `..` element: with `w` already
decremented once, go on while `w > dotdot` and the byte at `w` is not `/`. -/
def backtrack (out : GoString) (dotdot : Nat) : Nat → Nat
  | 0 => 0
  | w + 1 => if w + 1 > dotdot && out.getD (w + 1) '/' ≠ '/' then backtrack out dotdot w else w + 1

/-- The loop of `Clean`: `out` is the text written so far, `dotdot` the index
where `..` must stop, the last argument the unread rest of the path. -/
def cleanLoop (rooted : Bool) : Nat → GoString → Nat → GoString → GoString
  | 0, out, _, _ => out
  | _, out, _, [] => out
  | fuel + 1, out, dotdot, c :: rest =>
    if c = '/' then cleanLoop rooted fuel out dotdot rest
    else if c = '.' && (rest = [] || rest.head? = some '/') then
      cleanLoop rooted fuel out dotdot rest
    else if c = '.' && rest.head? = some '.' &&
        (rest.tail = [] || rest.tail.head? = some '/') then
      if out.length > dotdot then
        cleanLoop rooted fuel (out.take (backtrack out dotdot (out.length - 1))) dotdot rest.tail
      else if !rooted then
        let out2 := (if out.length > 0 then out ++ ['/'] else out) ++ "..".toList
        cleanLoop rooted fuel out2 out2.length rest.tail
      else cleanLoop rooted fuel out dotdot rest.tail
    else
      let out2 := if rooted && out.length ≠ 1 || !rooted && out.length ≠ 0 then out ++ ['/'] else out
      cleanLoop rooted fuel (out2 ++ (c :: rest).takeWhile (fun b => b ≠ '/')) dotdot
        ((c :: rest).dropWhile (fun b => b ≠ '/'))

/-- `path.Clean`. -/
def Clean (p : GoString) : GoString :=
  if p = [] then ".".toList
  else
    let rooted := p.head? = some '/'
    let out :=
      if rooted then cleanLoop true p.length ['/'] 1 p.tail
      else cleanLoop false (p.length + 1) [] 0 p
    if out.length = 0 then ".".toList else out

/-- The buffer `Join` builds: the non-empty elements, separated by `/`. -/
def joinBuf : GoString → List GoString → GoString
  | buf, [] => buf
  | buf, e :: rest =>
    if buf.length > 0 || e ≠ [] then joinBuf ((if buf.length > 0 then buf ++ ['/'] else buf) ++ e) rest
    else joinBuf buf rest

/-- `path.Join`. -/
def Join (elems : List GoString) : GoString :=
  if (elems.map List.length).sum = 0 then [] else Clean (joinBuf [] elems)

end path

/-! ## package strconv -/

namespace strconv

/-- The digit loop of `ParseUint` in base 10 for 64 bits: `none` for a byte
that is not a digit, else the value, or `2^64` and more when it
overflows (reported as a range error by the caller). -/
def parseUintLoop : Nat → GoString → Option Nat
  | n, [] => some n
  | n, c :: rest =>
    if url.inRange '0' '9' c then
      if n ≥ 2 ^ 64 then parseUintLoop n rest
      else parseUintLoop (n * 10 + (c.toNat - '0'.toNat)) rest
    else none

/-- `strconv.ParseInt(s, 10, 64)`: an optional sign and decimal digits, in the
range of `int64`. -/
def ParseInt (s : GoString) : Except GoError Int :=
  match s with
  | [] => .error (.Num "ParseInt".toList s "invalid syntax".toList)
  | c :: rest =>
    let neg := decide (c = '-')
    let digits := if c = '+' ∨ c = '-' then rest else s
    if digits = [] then .error (.Num "ParseInt".toList s "invalid syntax".toList)
    else
      match parseUintLoop 0 digits with
      | none => .error (.Num "ParseInt".toList s "invalid syntax".toList)
      | some un =>
        if !neg && un ≥ 2 ^ 63 then .error (.Num "ParseInt".toList s "value out of range".toList)
        else if neg && un > 2 ^ 63 then .error (.Num "ParseInt".toList s "value out of range".toList)
        else .ok (if neg then -(un : Int) else (un : Int))

end strconv

/-! ## package net/http -/

namespace http

/-- `http.Header`: a map from canonical header name to values. -/
abbrev Header := List (GoString × List GoString)

/-- `validHeaderFieldByte`: the bytes of an HTTP token. -/
def validHeaderFieldByte (c : Char) : Bool :=
  url.inRange 'a' 'z' c || url.inRange 'A' 'Z' c || url.inRange '0' '9' c ||
    "!#$%&\x27*+-.^_\x60|~".toList.elem c

/-- The rewriting loop of `canonicalMIMEHeaderKey`: a letter is made upper
case at the start and after a `-`, lower case elsewhere. -/
def canonicalLoop : Bool → GoString → GoString
  | _, [] => []
  | upper, c :: rest =>
    let c2 : Char :=
      if upper && url.inRange 'a' 'z' c then Char.ofNat (c.toNat - 32)
      else if !upper && url.inRange 'A' 'Z' c then Char.ofNat (c.toNat + 32)
      else c
    c2 :: canonicalLoop (c2 = '-') rest

/-- `textproto.CanonicalMIMEHeaderKey`: a key with a byte that is not a token
byte is returned unchanged. -/
def CanonicalMIMEHeaderKey (s : GoString) : GoString :=
  if s.all validHeaderFieldByte then canonicalLoop true s else s

/-- `Header.Get`: the first value stored under the canonical form of `key`, or `""`. -/
def Header.Get (h : Header) (key : GoString) : GoString :=
  match url.Values.lookup h (CanonicalMIMEHeaderKey key) with
  | [] => []
  | v :: _ => v

/-- `Header.Set`. -/
def Header.Set (h : Header) (key value : GoString) : Header :=
  url.Values.store h (CanonicalMIMEHeaderKey key) [value]

/-- `http.Request`, as far as `NewRequestWithContext` fills it. -/
structure Request where
  Method : GoString
  URL : url.URL
  Header : Header
  Host : GoString
  deriving DecidableEq, Repr

/-- An `io.ReadCloser` over a response body.  `id` names the body; `content`
is what `encoding/json` makes of the bytes `ioutil.ReadAll` returns (see
`json.Unmarshal`); `readErr` is the error `ReadAll` returns, if any. -/
structure ReadCloser (content : Type) where
  id : Nat
  content : content
  readErr : Option GoError

/-- `http.Response`. -/
structure Response (content : Type) where
  Status : GoString
  StatusCode : Int
  Header : Header
  Body : ReadCloser content

/-- `validMethod`: a non-empty token. -/
def validMethod (method : GoString) : Bool :=
  decide (method.length > 0) && method.all (fun r =>
    url.inRange 'a' 'z' r || url.inRange 'A' 'Z' r || url.inRange '0' '9' r ||
      "!#$%&\x27*+-.^_\x60|~".toList.elem r)

/-- `hasPort`. -/
def hasPort (s : GoString) : Bool := decide (strings.LastIndex s ':' > strings.LastIndex s ']')

/-- `removeEmptyPort`. -/
def removeEmptyPort (host : GoString) : GoString :=
  if hasPort host then strings.TrimSuffix host ":".toList else host

/-- `http.NewRequestWithContext` with a non-nil context and a nil body. -/
def NewRequestWithContext (method urlStr : GoString) : Except GoError Request :=
  let method := if method = [] then "GET".toList else method
  if !validMethod method then .error (.New ("net/http: invalid method ".toList ++ method))
  else
    match url.Parse urlStr with
    | .error err => .error err
    | .ok u =>
      let u := { u with Host := removeEmptyPort u.Host }
      .ok { Method := method, URL := u, Header := [], Host := u.Host }

def MethodGet : GoString := "GET".toList
def MethodHead : GoString := "HEAD".toList
def MethodPost : GoString := "POST".toList

end http

/-! ## package github.com/go-http-utils/headers -/

namespace headers

def ContentDisposition : GoString := "Content-Disposition".toList
def ContentEncoding : GoString := "Content-Encoding".toList
def ContentLanguage : GoString := "Content-Language".toList
def ContentLength : GoString := "Content-Length".toList
def ContentType : GoString := "Content-Type".toList
def ETag : GoString := "ETag".toList
def Range : GoString := "Range".toList

end headers

/-! ## package encoding/json -/

namespace json

/-- A JSON value.  A number keeps its literal text. -/
inductive Value where
  | null
  | bool (b : Bool)
  | number (lit : GoString)
  | string (s : GoString)
  | array (items : List Value)
  | object (members : List (GoString × Value))

/-- The word by which `UnmarshalTypeError` names the kind of a value. -/
def Value.kind : Value → GoString
  | .null => "null".toList
  | .bool _ => "bool".toList
  | .number lit => "number ".toList ++ lit
  | .string _ => "string".toList
  | .array _ => "array".toList
  | .object _ => "object".toList

end json

/-- What `encoding/json` reads in a byte slice: `none` when the bytes are not
one well-formed JSON text (a `SyntaxError`), else the value they denote. -/
abbrev Content := Option json.Value

/-! ## package objectstorage -/

namespace objectstorage

/-- `objectstorage.ObjectMetadata`. -/
structure ObjectMetadata where
  Key : GoString := []
  ContentDisposition : GoString := []
  ContentEncoding : GoString := []
  ContentLanguage : GoString := []
  ContentLength : Int := 0
  ContentType : GoString := []
  ETag : GoString := []
  Digest : GoString := []
  deriving DecidableEq, Repr

end objectstorage

/-! ## package config -/

namespace config

def DefaultObjectStorageStartPort : Nat := 65004
def DefaultObjectMaxReplicas : Int := 3

/-- `config.DfstoreConfig`. -/
structure DfstoreConfig where
  Endpoint : GoString := []
  Filter : GoString := []
  Mode : Int := 0
  MaxReplicas : Int := 0
  deriving DecidableEq, Repr

/-- `config.NewDfstore`: new dfstore configuration. -/
def NewDfstore : DfstoreConfig :=
  { Endpoint := url.URL.String
      { Scheme := "http".toList,
        Host := "127.0.0.1".toList ++ [':'] ++ (Nat.repr DefaultObjectStorageStartPort).toList },
    MaxReplicas := DefaultObjectMaxReplicas }

/-- `(*DfstoreConfig).Validate`. -/
def DfstoreConfig.Validate (cfg : DfstoreConfig) : Option GoError :=
  if cfg.Endpoint = [] then some (.New "dfstore requires parameter endpoint".toList)
  else
    match url.ParseRequestURI cfg.Endpoint with
    | .error (.URL op u msg) =>
      some (.New ("invalid endpoint: ".toList ++ op ++ " ".toList ++ u ++ ": ".toList ++ msg))
    | .error _ => some (.New "invalid endpoint: ".toList)
    | .ok _ => none

end config

/-! ## The world outside the program -/

/-- The HTTP client of a `dfstore` (`http.DefaultClient`): its method `Do`,
which answers a request with an error or a response. -/
abbrev HTTPClient := http.Request → Except GoError (http.Response Content)

/-- What the program does to the outside: the requests handed to the HTTP
client, oldest first, the bodies of the responses received, and the bodies
closed. -/
structure World where
  sent : List http.Request := []
  received : List Nat := []
  closed : List Nat := []
  deriving DecidableEq, Repr

/-- What the sources at hand leave open: `http.DefaultClient`, and the
constant `config.HeaderDragonflyObjectMetaDigest`, whose declaration is not
among them. -/
structure Env where
  DefaultClient : HTTPClient
  HeaderDragonflyObjectMetaDigest : GoString

/-- `httpClient.Do(req)`. -/
def World.Do (w : World) (client : HTTPClient) (req : http.Request) :
    Except GoError (http.Response Content) × World :=
  match client req with
  | .error err => (.error err, { w with sent := w.sent ++ [req] })
  | .ok resp =>
    (.ok resp, { w with sent := w.sent ++ [req], received := w.received ++ [resp.Body.id] })

/-- `body.Close()`. -/
def World.Close (w : World) (body : http.ReadCloser Content) : World :=
  { w with closed := w.closed ++ [body.id] }

/-! ## package dfstore -/

namespace dfstore

/-- `dfstore` provides object storage function. -/
structure dfstore where
  endpoint : GoString
  httpClient : HTTPClient

/-- `dfstore.New`: new dfstore instance (no options are ever passed). -/
def New (env : Env) (endpoint : GoString) : dfstore :=
  { endpoint := endpoint, httpClient := env.DefaultClient }

/-- `GetUrfsMetadataInput` is used to construct request of getting object metadata. -/
structure GetUrfsMetadataInput where
  Endpoint : GoString := []
  BucketName : GoString := []
  ObjectKey : GoString := []
  DstPeer : GoString := []
  deriving DecidableEq, Repr

/-- `(*GetUrfsMetadataInput).Validate`. -/
def GetUrfsMetadataInput.Validate (i : GetUrfsMetadataInput) : Option GoError :=
  if i.Endpoint = [] then some (.New "invalid Endpoint".toList)
  else if i.BucketName = [] then some (.New "invalid BucketName".toList)
  else if i.ObjectKey = [] then some (.New "invalid ObjectKey".toList)
  else none

/-- `GetUrfsInput` is used to construct request of getting object. -/
structure GetUrfsInput where
  Endpoint : GoString := []
  BucketName : GoString := []
  ObjectKey : GoString := []
  Filter : GoString := []
  Range : GoString := []
  DstPeer : GoString := []
  Overwrite : Bool := false
  deriving DecidableEq, Repr

/-- `(*GetUrfsInput).Validate`. -/
def GetUrfsInput.Validate (i : GetUrfsInput) : Option GoError :=
  if i.Endpoint = [] then some (.New "invalid Endpoint".toList)
  else if i.BucketName = [] then some (.New "invalid BucketName".toList)
  else if i.ObjectKey = [] then some (.New "invalid ObjectKey".toList)
  else none

/-- `GetUrfsMetadataRequestWithContext`: the request of getting Urfs metadata;
`.error err` stands for the return `nil, err`. -/
def GetUrfsMetadataRequestWithContext (input : GetUrfsMetadataInput) (_isDir : Bool) :
    Except GoError http.Request :=
  match input.Validate with
  | some err => .error err
  | none =>
    let dstUrl : url.URL := { Scheme := "http".toList, Host := input.DstPeer }
    match url.Parse dstUrl.String with
    | .error err => .error err
    | .ok u =>
      let u := { u with Path := (path.Join
        ["buckets".toList, input.BucketName ++ ".".toList ++ input.Endpoint, "objects".toList,
          input.ObjectKey]) }
      match http.NewRequestWithContext http.MethodHead u.String with
      | .error err => .error err
      | .ok req => .ok req

/-- `GetUrfsRequestWithContext`: the request of getting Urfs. -/
def GetUrfsRequestWithContext (input : GetUrfsInput) (isDir : Bool) :
    Except GoError http.Request :=
  match input.Validate with
  | some err => .error err
  | none =>
    let dstUrl : url.URL := { Scheme := "http".toList, Host := input.DstPeer }
    match url.Parse dstUrl.String with
    | .error err => .error err
    | .ok u =>
      let u :=
        if isDir then
          { u with Path := (path.Join
            ["buckets".toList, input.BucketName ++ ".".toList ++ input.Endpoint,
              "cache_folder".toList, input.ObjectKey]) }
        else
          { u with Path := (path.Join
            ["buckets".toList, input.BucketName ++ ".".toList ++ input.Endpoint,
              "cache_object".toList, input.ObjectKey]) }
      let query := u.Query
      let query := if input.Filter ≠ [] then query.Set "filter".toList input.Filter else query
      let query := if !isDir && input.Overwrite then query.Set "overwrite".toList "1".toList else query
      let u := { u with RawQuery := query.Encode }
      match http.NewRequestWithContext http.MethodPost u.String with
      | .error err => .error err
      | .ok req =>
        .ok (if input.Range ≠ [] then
          { req with Header := req.Header.Set headers.Range input.Range } else req)

/-- `GetUrfsStatusRequestWithContext`: the request of check schedule task status. -/
def GetUrfsStatusRequestWithContext (input : GetUrfsInput) (isDir : Bool) :
    Except GoError http.Request :=
  match input.Validate with
  | some err => .error err
  | none =>
    let dstUrl : url.URL := { Scheme := "http".toList, Host := input.DstPeer }
    match url.Parse dstUrl.String with
    | .error err => .error err
    | .ok u =>
      let u :=
        if isDir then
          { u with Path := (path.Join
            ["buckets".toList, input.BucketName ++ ".".toList ++ input.Endpoint,
              "check_folder".toList, input.ObjectKey]) }
        else
          { u with Path := (path.Join
            ["buckets".toList, input.BucketName ++ ".".toList ++ input.Endpoint,
              "check_object".toList, input.ObjectKey]) }
      let query := u.Query
      let query := if input.Filter ≠ [] then query.Set "filter".toList input.Filter else query
      let u := { u with RawQuery := query.Encode }
      match http.NewRequestWithContext http.MethodGet u.String with
      | .error err => .error err
      | .ok req =>
        .ok (if input.Range ≠ [] then
          { req with Header := req.Header.Set headers.Range input.Range } else req)

/-- `fmt.Errorf("bad response status %s", resp.Status)`. -/
def badStatus (status : GoString) : GoError := .New ("bad response status ".toList ++ status)

/-- `GetUrfsMetadataWithContext` returns metadata of Urfs. -/
def GetUrfsMetadataWithContext (env : Env) (dfs : dfstore) (input : GetUrfsMetadataInput) (isDir : Bool)
    (w : World) : Except GoError objectstorage.ObjectMetadata × World :=
  match GetUrfsMetadataRequestWithContext input isDir with
  | .error err => (.error err, w)
  | .ok req =>
    match w.Do dfs.httpClient req with
    | (.error err, w) => (.error err, w)
    | (.ok resp, w) =>
      -- defer resp.Body.Close()
      if Int.tdiv resp.StatusCode 100 ≠ 2 then (.error (badStatus resp.Status), w.Close resp.Body)
      else
        match strconv.ParseInt (resp.Header.Get headers.ContentLength) with
        | .error err => (.error err, w.Close resp.Body)
        | .ok contentLength =>
          (.ok
            { ContentDisposition := resp.Header.Get headers.ContentDisposition,
              ContentEncoding := resp.Header.Get headers.ContentEncoding,
              ContentLanguage := resp.Header.Get headers.ContentLanguage,
              ContentLength := contentLength,
              ContentType := resp.Header.Get headers.ContentType,
              ETag := resp.Header.Get headers.ContentType,
              Digest := resp.Header.Get env.HeaderDragonflyObjectMetaDigest },
            w.Close resp.Body)

/-- `GetUrfsWithContext` returns data of Urfs. -/
def GetUrfsWithContext (dfs : dfstore) (input : GetUrfsInput) (isDir : Bool) (w : World) :
    Except GoError (http.ReadCloser Content) × World :=
  match GetUrfsRequestWithContext input isDir with
  | .error err => (.error err, w)
  | .ok req =>
    match w.Do dfs.httpClient req with
    | (.error err, w) => (.error err, w)
    | (.ok resp, w) =>
      if Int.tdiv resp.StatusCode 100 ≠ 2 then (.error (badStatus resp.Status), w)
      else (.ok resp.Body, w)

/-- `GetUrfsStatusWithContext` returns schedule task status. -/
def GetUrfsStatusWithContext (dfs : dfstore) (input : GetUrfsInput) (isDir : Bool) (w : World) :
    Except GoError (http.ReadCloser Content) × World :=
  match GetUrfsStatusRequestWithContext input isDir with
  | .error err => (.error err, w)
  | .ok req =>
    match w.Do dfs.httpClient req with
    | (.error err, w) => (.error err, w)
    | (.ok resp, w) =>
      if Int.tdiv resp.StatusCode 100 ≠ 2 then (.error (badStatus resp.Status), w)
      else (.ok resp.Body, w)

end dfstore

/-! ## package urchin: locator parsing -/

/-- `UrfsScheme` is the scheme of object storage. -/
def UrfsScheme : GoString := "urfs".toList

/-- `isUrfsURL` determines whether the raw url is urfs url. -/
def isUrfsURL (rawURL : GoString) : Bool :=
  match url.ParseRequestURI rawURL with
  | .error _ => false
  | .ok u => if u.Scheme ≠ UrfsScheme || u.Host = [] || u.Path = [] then false else true

/-- `validateSchedulelArgs`: validate copy arguments. -/
def validateSchedulelArgs (sourceUrl _destPeer : GoString) : Option GoError :=
  if !isUrfsURL sourceUrl then some (.New "source url should be urfs:// protocol".toList)
  else none

/-- `parseUrfsURL`: parse object storage url into endpoint, bucket, key and
the error. -/
def parseUrfsURL (rawURL : GoString) : GoString × GoString × GoString × Option GoError :=
  match url.ParseRequestURI rawURL with
  | .error err => ([], [], [], some err)
  | .ok u =>
    if u.Scheme ≠ UrfsScheme then
      ([], [], [], some (.New ("invalid scheme, e.g. ".toList ++ UrfsScheme ++
        "://endpoint/bucket_name/object_key".toList)))
    else if u.Host = [] then ([], [], [], some (.New "empty endpoint name".toList))
    else if u.Path = [] then ([], [], [], some (.New "empty object path".toList))
    else
      match strings.Cut (strings.Trim u.Path "/".toList) '/' with
      | (_, _, false) =>
        ([], [], [], some (.New ("invalid bucket and object key ".toList ++ u.Path)))
      | (bucket, key, true) => (u.Host, bucket, key, none)

/-- The body of `parseUrfsURL` once the URL is parsed. -/
def locatorOf (u : url.URL) : GoString × GoString × GoString × Option GoError :=
  if u.Scheme ≠ UrfsScheme then
    ([], [], [], some (.New ("invalid scheme, e.g. ".toList ++ UrfsScheme ++
      "://endpoint/bucket_name/object_key".toList)))
  else if u.Host = [] then ([], [], [], some (.New "empty endpoint name".toList))
  else if u.Path = [] then ([], [], [], some (.New "empty object path".toList))
  else
    match strings.Cut (strings.Trim u.Path "/".toList) '/' with
    | (_, _, false) =>
      ([], [], [], some (.New ("invalid bucket and object key ".toList ++ u.Path)))
    | (bucket, key, true) => (u.Host, bucket, key, none)

/-! ## package urchin: results and operations -/

/-- `PeerResult`. -/
structure PeerResult where
  ContentType : GoString := []
  ContentLength : GoString := []
  SignedUrl : GoString := []
  DataRoot : GoString := []
  DataPath : GoString := []
  DataEndpoint : GoString := []
  StatusCode : Int := 0
  StatusMsg : GoString := []
  TaskID : GoString := []
  deriving DecidableEq, Repr

/-- The fields of `PeerResult`. -/
inductive PeerField where
  | ContentType | ContentLength | SignedUrl | DataRoot | DataPath | DataEndpoint
  | StatusCode | StatusMsg | TaskID
  deriving DecidableEq, Repr

/-- The JSON names of the fields of `PeerResult`: the `json` tag where the
source gives one, else the name of the field. -/
def peerFieldNames : List (GoString × PeerField) :=
  [("Content-Type".toList, .ContentType), ("Content-Length".toList, .ContentLength),
   ("SignedUrl".toList, .SignedUrl), ("DataRoot".toList, .DataRoot),
   ("DataPath".toList, .DataPath), ("DataEndpoint".toList, .DataEndpoint),
   ("StatusCode".toList, .StatusCode), ("StatusMsg".toList, .StatusMsg),
   ("TaskID".toList, .TaskID)]

namespace json

/-- The loop of `foldName`: an ASCII letter is put in upper case; the two
runes above `0x7f` with an ASCII letter in their fold orbit, U+017F (bytes
`c5 bf`) and U+212A (bytes `e2 84 aa`), become `S` and `K`.  Every other rune
above `0x7f` folds to a rune above `0x7f`, which no field name holds; the
model keeps its bytes.  `skip` counts the bytes of a rune still to pass over. -/
def foldLoop : Nat → GoString → GoString
  | _, [] => []
  | skip + 1, _ :: rest => foldLoop skip rest
  | 0, c :: rest =>
    if c.toNat < 0x80 then
      (if 'a'.toNat ≤ c.toNat ∧ c.toNat ≤ 'z'.toNat then Char.ofNat (c.toNat - 32) else c) ::
        foldLoop 0 rest
    else if c.toNat = 0xc5 ∧ rest.head?.map Char.toNat = some 0xbf then 'S' :: foldLoop 1 rest
    else if c.toNat = 0xe2 ∧ rest.head?.map Char.toNat = some 0x84 ∧
        rest.tail.head?.map Char.toNat = some 0xaa then 'K' :: foldLoop 2 rest
    else c :: foldLoop 0 rest

/-- `foldName`: the folded form of a key, equal for two keys exactly when
they are equal under Unicode simple case folding. -/
def foldName (key : GoString) : GoString := foldLoop 0 key

/-- The field a key of a JSON object is stored in: the field of that name,
else the field whose folded name equals the folded key. -/
def findField (key : GoString) : Option PeerField :=
  match peerFieldNames.find? (fun f => f.1 = key) with
  | some f => some f.2
  | none =>
    match peerFieldNames.find? (fun f => foldName f.1 = foldName key) with
    | some f => some f.2
    | none => none

/-- `UnmarshalTypeError`: a JSON value that does not fit the Go type of its target. -/
def typeError (v : Value) (target : GoString) : GoError :=
  .JSON ("json: cannot unmarshal ".toList ++ v.kind ++ " into Go value of type ".toList ++ target)

/-- Storing a JSON value in a field of type `string`. -/
def storeString (v : Value) (old : GoString) : GoString × Option GoError :=
  match v with
  | .string s => (s, none)
  | .null => (old, none)
  | v => (old, some (typeError v "string".toList))

/-- Storing a JSON value in a field of type `int`. -/
def storeInt (v : Value) (old : Int) : Int × Option GoError :=
  match v with
  | .number lit =>
    match strconv.ParseInt lit with
    | .ok n => (n, none)
    | .error _ => (old, some (typeError v "int".toList))
  | .null => (old, none)
  | v => (old, some (typeError v "int".toList))

/-- Storing the value of one member of a JSON object in its field. -/
def storeField (f : PeerField) (v : Value) (r : PeerResult) : PeerResult × Option GoError :=
  match f with
  | .ContentType => ({ r with ContentType := (storeString v r.ContentType).1 }, (storeString v r.ContentType).2)
  | .ContentLength => ({ r with ContentLength := (storeString v r.ContentLength).1 }, (storeString v r.ContentLength).2)
  | .SignedUrl => ({ r with SignedUrl := (storeString v r.SignedUrl).1 }, (storeString v r.SignedUrl).2)
  | .DataRoot => ({ r with DataRoot := (storeString v r.DataRoot).1 }, (storeString v r.DataRoot).2)
  | .DataPath => ({ r with DataPath := (storeString v r.DataPath).1 }, (storeString v r.DataPath).2)
  | .DataEndpoint => ({ r with DataEndpoint := (storeString v r.DataEndpoint).1 }, (storeString v r.DataEndpoint).2)
  | .StatusCode => ({ r with StatusCode := (storeInt v r.StatusCode).1 }, (storeInt v r.StatusCode).2)
  | .StatusMsg => ({ r with StatusMsg := (storeString v r.StatusMsg).1 }, (storeString v r.StatusMsg).2)
  | .TaskID => ({ r with TaskID := (storeString v r.TaskID).1 }, (storeString v r.TaskID).2)

/-- Decoding the members of a JSON object into a `PeerResult`, in order: a
member with no field is skipped, a value of the wrong type leaves its field
unchanged, and the first such error is the one kept (`saveError`) while the
decoding goes on. -/
def decodeMembers : List (GoString × Value) → PeerResult → Option GoError → PeerResult × Option GoError
  | [], r, saved => (r, saved)
  | (key, v) :: rest, r, saved =>
    match findField key with
    | none => decodeMembers rest r saved
    | some f =>
      match storeField f v r with
      | (r, err) => decodeMembers rest r (if saved = none then err else saved)

/-- `json.Unmarshal(body, &peerResult)`: the updated result and the error.
Bytes that are not JSON give a `SyntaxError` and store nothing. -/
def Unmarshal (body : Content) (r : PeerResult) : PeerResult × Option GoError :=
  match body with
  | none => (r, some (.JSON "invalid character or unexpected end of JSON input".toList))
  | some (.object members) => decodeMembers members r none
  | some .null => (r, none)
  | some v => (r, some (typeError v "urchin.PeerResult".toList))

end json

/-- `ioutil.ReadAll(reader)`. -/
def ReadAll (reader : http.ReadCloser Content) : Content × Option GoError :=
  (reader.content, reader.readErr)

/-- The text `"\\u0026"` of the source: a backslash, `u`, `0`, `0`, `2`, `6`. -/
def escapedAmpersand : GoString := ['\\', 'u', '0', '0', '2', '6']

/-- The statements shared by the four `process` functions after the request:
read the body, unmarshal it when the read succeeded, and replace the escaped
ampersands in `SignedUrl`.  Returns `peerResult` and `err`. -/
def readPeerResult (reader : http.ReadCloser Content) : PeerResult × Option GoError :=
  match ReadAll reader with
  | (body, err) =>
    let peerResult : PeerResult := {}
    let decoded : PeerResult × Option GoError :=
      match err with
      | none => json.Unmarshal body peerResult
      | some err => (peerResult, some err)
    ({ decoded.1 with
        SignedUrl := strings.ReplaceAll decoded.1.SignedUrl escapedAmpersand "&".toList },
      decoded.2)

/-- The end of the two file variants: `strconv.ParseInt` assigns `err` anew,
so the error of the read or of `json.Unmarshal` is given up here. -/
def checkContentLength (peerResult : PeerResult) (meta : objectstorage.ObjectMetadata) :
    Option PeerResult × Option GoError :=
  match strconv.ParseInt peerResult.ContentLength with
  | .error err => (none, some err)
  | .ok fileContentLength =>
    if fileContentLength ≠ meta.ContentLength then
      (none, some (.New "content length inconsistent with meta".toList))
    else (some peerResult, none)

/-- `processScheduleDataToPeer`: schedule object storage to peer. -/
def processScheduleDataToPeer (env : Env) (cfg : config.DfstoreConfig)
    (endpoint bucketName objectKey dstPeer : GoString) (overwrite : Bool) (w : World) :
    (Option PeerResult × Option GoError) × World :=
  let dfs := dfstore.New env cfg.Endpoint
  match dfstore.GetUrfsMetadataWithContext env dfs
      { Endpoint := endpoint, BucketName := bucketName, ObjectKey := objectKey, DstPeer := dstPeer }
      false w with
  | (.error err, w) => ((none, some err), w)
  | (.ok meta, w) =>
    match dfstore.GetUrfsWithContext dfs
        { Endpoint := endpoint, BucketName := bucketName, ObjectKey := objectKey,
          DstPeer := dstPeer, Overwrite := overwrite } false w with
    | (.error err, w) => ((none, some err), w)
    | (.ok reader, w) =>
      -- defer reader.Close()
      (checkContentLength (readPeerResult reader).1 meta, w.Close reader)

/-- `processScheduleDirToPeer`: schedule object storage dir to peer. -/
def processScheduleDirToPeer (env : Env) (cfg : config.DfstoreConfig)
    (endpoint bucketName objectKey dstPeer : GoString) (w : World) :
    (Option PeerResult × Option GoError) × World :=
  let dfs := dfstore.New env cfg.Endpoint
  match dfstore.GetUrfsWithContext dfs
      { Endpoint := endpoint, BucketName := bucketName, ObjectKey := objectKey, DstPeer := dstPeer }
      true w with
  | (.error err, w) => ((none, some err), w)
  | (.ok reader, w) =>
    -- defer reader.Close()
    ((some (readPeerResult reader).1, (readPeerResult reader).2), w.Close reader)

/-- `processCheckScheduleTaskStatus`: check schedule task status. -/
def processCheckScheduleTaskStatus (env : Env) (cfg : config.DfstoreConfig)
    (endpoint bucketName objectKey dstPeer : GoString) (w : World) :
    (Option PeerResult × Option GoError) × World :=
  let dfs := dfstore.New env cfg.Endpoint
  match dfstore.GetUrfsMetadataWithContext env dfs
      { Endpoint := endpoint, BucketName := bucketName, ObjectKey := objectKey, DstPeer := dstPeer }
      false w with
  | (.error err, w) => ((none, some err), w)
  | (.ok meta, w) =>
    match dfstore.GetUrfsStatusWithContext dfs
        { Endpoint := endpoint, BucketName := bucketName, ObjectKey := objectKey,
          DstPeer := dstPeer } false w with
    | (.error err, w) => ((none, some err), w)
    | (.ok reader, w) =>
      -- defer reader.Close()
      (checkContentLength (readPeerResult reader).1 meta, w.Close reader)

/-- `processCheckScheduleDirTaskStatus`: check schedule task status. -/
def processCheckScheduleDirTaskStatus (env : Env) (cfg : config.DfstoreConfig)
    (endpoint bucketName objectKey dstPeer : GoString) (w : World) :
    (Option PeerResult × Option GoError) × World :=
  let dfs := dfstore.New env cfg.Endpoint
  match dfstore.GetUrfsStatusWithContext dfs
      { Endpoint := endpoint, BucketName := bucketName, ObjectKey := objectKey, DstPeer := dstPeer }
      true w with
  | (.error err, w) => ((none, some err), w)
  | (.ok reader, w) =>
    -- defer reader.Close()
    ((some (readPeerResult reader).1, (readPeerResult reader).2), w.Close reader)

/-- `urchinfs`: holds the default urfs config. -/
structure urchinfs where
  cfg : config.DfstoreConfig
  deriving DecidableEq, Repr

/-- `New`: new urchinfs instance. -/
def New : urchinfs := { cfg := config.NewDfstore }

/-- The end of every public operation: `if err != nil { return nil, err }`,
then `return peerResult, err`. -/
def returnResult (r : (Option PeerResult × Option GoError) × World) :
    (Option PeerResult × Option GoError) × World :=
  match r with
  | ((_, some err), w) => ((none, some err), w)
  | ((peerResult, none), w) => ((peerResult, none), w)

/-- `ScheduleDataToPeer`: schedule source dataset to target peer. -/
def urchinfs.ScheduleDataToPeer (urfs : urchinfs) (env : Env) (sourceUrl destPeerHost : GoString)
    (w : World) : (Option PeerResult × Option GoError) × World :=
  match urfs.cfg.Validate with
  | some err => ((none, some err), w)
  | none =>
    match validateSchedulelArgs sourceUrl destPeerHost with
    | some err => ((none, some err), w)
    | none =>
      match parseUrfsURL sourceUrl with
      | (_, _, _, some err) => ((none, some err), w)
      | (endpoint, bucketName, objectKey, none) =>
        returnResult
          (processScheduleDataToPeer env urfs.cfg endpoint bucketName objectKey destPeerHost false w)

/-- `ScheduleDataToPeerByKey`. -/
def urchinfs.ScheduleDataToPeerByKey (urfs : urchinfs) (env : Env)
    (endpoint bucketName objectKey destPeerHost : GoString) (overwrite : Bool) (w : World) :
    (Option PeerResult × Option GoError) × World :=
  returnResult
    (processScheduleDataToPeer env urfs.cfg endpoint bucketName objectKey destPeerHost overwrite w)

/-- `ScheduleDirToPeerByKey`. -/
def urchinfs.ScheduleDirToPeerByKey (urfs : urchinfs) (env : Env)
    (endpoint bucketName objectKey destPeerHost : GoString) (w : World) :
    (Option PeerResult × Option GoError) × World :=
  returnResult (processScheduleDirToPeer env urfs.cfg endpoint bucketName objectKey destPeerHost w)

/-- `CheckScheduleTaskStatus`: check schedule data to peer task status. -/
def urchinfs.CheckScheduleTaskStatus (urfs : urchinfs) (env : Env)
    (sourceUrl destPeerHost : GoString) (w : World) :
    (Option PeerResult × Option GoError) × World :=
  match urfs.cfg.Validate with
  | some err => ((none, some err), w)
  | none =>
    match validateSchedulelArgs sourceUrl destPeerHost with
    | some err => ((none, some err), w)
    | none =>
      match parseUrfsURL sourceUrl with
      | (_, _, _, some err) => ((none, some err), w)
      | (endpoint, bucketName, objectKey, none) =>
        returnResult
          (processCheckScheduleTaskStatus env urfs.cfg endpoint bucketName objectKey destPeerHost w)

/-- `CheckScheduleTaskStatusByKey`. -/
def urchinfs.CheckScheduleTaskStatusByKey (urfs : urchinfs) (env : Env)
    (endpoint bucketName objectKey destPeerHost : GoString) (w : World) :
    (Option PeerResult × Option GoError) × World :=
  returnResult
    (processCheckScheduleTaskStatus env urfs.cfg endpoint bucketName objectKey destPeerHost w)

/-- `CheckScheduleDirTaskStatusByKey`. -/
def urchinfs.CheckScheduleDirTaskStatusByKey (urfs : urchinfs) (env : Env)
    (endpoint bucketName objectKey destPeerHost : GoString) (w : World) :
    (Option PeerResult × Option GoError) × World :=
  returnResult
    (processCheckScheduleDirTaskStatus env urfs.cfg endpoint bucketName objectKey destPeerHost w)

/-- The result a body is deserialized into before the signed URL is
normalised: the zero value when the body cannot be read. -/
def deserialized (reader : http.ReadCloser Content) : PeerResult :=
  match reader.readErr with
  | none => (json.Unmarshal reader.content {}).1
  | some _ => {}

/-! ## Plain hosts and paths -/

/-- A byte that stands for itself in a host: one `net/url` leaves unescaped
in a host, or a byte above `0x7f`. -/
def hostByte (c : Char) : Bool :=
  !url.shouldEscape c url.encoding.encodeHost || decide (0x80 ≤ c.toNat ∧ c.toNat < 256)

/-- The text of an IPv6 address without a zone: hexadecimal digits, `:` and
`.` that `netip.ParseAddr` accepts as an address other than an IPv4 one. -/
def ipv6Text (a : GoString) : Bool :=
  a.all (fun c => netip.isHexDigit c || c = ':' || c = '.') &&
    (match netip.ParseAddr a with
      | .ok addr => !addr.Is4
      | .error _ => false)

/-- A host written as it stands in a URL, with an optional port (`:` and
digits): either `[address]` for an IPv6 address without a zone, or a name of
host bytes without `[` and `:`. -/
def plainHost (host : GoString) : Bool :=
  match host with
  | '[' :: rest =>
    ipv6Text (rest.takeWhile (fun c => c ≠ ']')) &&
      (rest.dropWhile (fun c => c ≠ ']')).head? = some ']' &&
      url.validOptionalPort (rest.dropWhile (fun c => c ≠ ']')).tail
  | _ =>
    (host.takeWhile (fun c => c ≠ ':')).all (fun c => hostByte c && c ≠ '[') &&
      url.validOptionalPort (host.dropWhile (fun c => c ≠ ':'))

/-- A path text that stands for itself in a request URI: no control byte, no
`?` (which starts the query) and no `%` (which starts an escape). -/
def plainPath (p : GoString) : Bool :=
  p.all (fun c => decide (0x20 ≤ c.toNat) && decide (c.toNat ≠ 0x7f) && decide (c ≠ '?') &&
    decide (c ≠ '%'))

/-- An element of a path that `path.Clean` keeps as it is: not empty, without
`/`, and neither `.` nor `..`. -/
def cleanElem (s : GoString) : Bool :=
  decide (s ≠ []) && !s.elem '/' && decide (s ≠ ".".toList) && decide (s ≠ "..".toList)

/-- A key that `path.Clean` keeps as it is: every element between its slashes
is a `cleanElem`, so the key has no leading, trailing or doubled `/` and no
`.` or `..` element. -/
def cleanKey (k : GoString) : Bool := (k.splitOn '/').all cleanElem

/-- A text of bytes: every `Char` of it stands for one byte. -/
def isBytes (s : GoString) : Bool := s.all (fun c => decide (c.toNat < 256))

/-- The path of a request in the words of the specification:
`/buckets/{bucket}.{endpoint}/{op}/{key}`. -/
def routePath (op bucket endpoint key : GoString) : GoString :=
  "/buckets/".toList ++ bucket ++ ".".toList ++ endpoint ++ "/".toList ++ op ++ "/".toList ++ key

/-! ## The URLs of the requests -/

/-- The URL `GetUrfsMetadataRequestWithContext` hands to `http.NewRequestWithContext`,
given the parsed peer URL `u`. -/
def metadataTarget (input : dfstore.GetUrfsMetadataInput) (u : url.URL) : url.URL :=
  { u with Path := (path.Join
    ["buckets".toList, input.BucketName ++ ".".toList ++ input.Endpoint, "objects".toList,
      input.ObjectKey]) }

/-- The query `GetUrfsRequestWithContext` encodes, given the query `q` of the peer URL. -/
def fetchQuery (input : dfstore.GetUrfsInput) (isDir : Bool) (q : url.Values) : url.Values :=
  let query := if input.Filter ≠ [] then q.Set "filter".toList input.Filter else q
  if !isDir && input.Overwrite then query.Set "overwrite".toList "1".toList else query

/-- The URL `GetUrfsRequestWithContext` hands to `http.NewRequestWithContext`,
given the parsed peer URL `u`. -/
def fetchTarget (input : dfstore.GetUrfsInput) (isDir : Bool) (u : url.URL) : url.URL :=
  { u with
    Path := (path.Join
      ["buckets".toList, input.BucketName ++ ".".toList ++ input.Endpoint,
        if isDir then "cache_folder".toList else "cache_object".toList, input.ObjectKey]),
    RawQuery := (fetchQuery input isDir
      (url.URL.Query { u with Path := (path.Join
        ["buckets".toList, input.BucketName ++ ".".toList ++ input.Endpoint,
          if isDir then "cache_folder".toList else "cache_object".toList,
          input.ObjectKey]) })).Encode }

/-- The query `GetUrfsStatusRequestWithContext` encodes, given the query `q` of the peer URL. -/
def statusQuery (input : dfstore.GetUrfsInput) (q : url.Values) : url.Values :=
  if input.Filter ≠ [] then q.Set "filter".toList input.Filter else q

/-- The URL `GetUrfsStatusRequestWithContext` hands to `http.NewRequestWithContext`,
given the parsed peer URL `u`. -/
def statusTarget (input : dfstore.GetUrfsInput) (isDir : Bool) (u : url.URL) : url.URL :=
  { u with
    Path := (path.Join
      ["buckets".toList, input.BucketName ++ ".".toList ++ input.Endpoint,
        if isDir then "check_folder".toList else "check_object".toList, input.ObjectKey]),
    RawQuery := (statusQuery input
      (url.URL.Query { u with Path := (path.Join
        ["buckets".toList, input.BucketName ++ ".".toList ++ input.Endpoint,
          if isDir then "check_folder".toList else "check_object".toList,
          input.ObjectKey]) })).Encode }

/-- The peer URL the three request builders parse first. -/
def peerURL (dstPeer : GoString) : GoString :=
  url.URL.String { Scheme := "http".toList, Host := dstPeer }

/-- The `Range` header set on a request when the input has one. -/
def withRange (range : GoString) (req : http.Request) : http.Request :=
  if range ≠ [] then { req with Header := req.Header.Set headers.Range range } else req

/-- The query string in the words of the specification: `filter=` and the
query-escaped filter when the filter is non-empty, `overwrite=1` when
`overwrite` holds, joined by `&` when both are there, and nothing else. -/
def expectedQuery (filter : GoString) (overwrite : Bool) : GoString :=
  (if filter ≠ [] then "filter=".toList ++ url.QueryEscape filter else []) ++
    (if filter ≠ [] ∧ overwrite = true then "&".toList else []) ++
    (if overwrite = true then "overwrite=1".toList else [])

/-- The text `(*URL).String` writes between `http:` and the query for the
host `h` and the path `p`. -/
def targetText (h p : GoString) : GoString :=
  (if h ≠ [] ∨ p ≠ [] then "//".toList else []) ++
    (if h ≠ [] then url.escape h url.encoding.encodeHost else []) ++
    (if (if p = "*".toList then "*".toList else url.escape p url.encoding.encodePath) ≠ [] ∧
        (if p = "*".toList then "*".toList else url.escape p url.encoding.encodePath).head?
          ≠ some '/' ∧ h ≠ [] then "/".toList else []) ++
    (if p = "*".toList then "*".toList else url.escape p url.encoding.encodePath)

/-! ## Example inputs -/

/-- A client that answers a `HEAD` request with `metaResp` and every other
request with `resp`. -/
def scriptedClient (metaResp resp : Except GoError (http.Response Content)) : HTTPClient :=
  fun req => if req.Method = http.MethodHead then metaResp else resp

/-- An environment around `scriptedClient`. -/
def scriptedEnv (metaResp resp : Except GoError (http.Response Content)) : Env :=
  { DefaultClient := scriptedClient metaResp resp,
    HeaderDragonflyObjectMetaDigest := "X-Dragonfly-Object-Meta-Digest".toList }

/-- A response with the given status, headers and body. -/
def responseOf (code : Int) (status : GoString) (header : http.Header) (id : Nat)
    (content : Content) : http.Response Content :=
  { Status := status, StatusCode := code, Header := header, Body := ⟨id, content, none⟩ }

/-- The answer `200 OK` to a `HEAD` request, with `Content-Length`,
`Content-Type` and `ETag` headers; its body has the name `1`. -/
def metaResponse (length : GoString) : http.Response Content :=
  responseOf 200 "200 OK".toList
    [("Content-Length".toList, [length]), ("Content-Type".toList, ["text/plain".toList]),
      ("Etag".toList, ["\"abc\"".toList])] 1 none

/-- The locator of the examples: endpoint, bucket, key, and the peer. -/
def exampleMetadataInput : dfstore.GetUrfsMetadataInput :=
  { Endpoint := "obs.example.com".toList, BucketName := "cache".toList,
    ObjectKey := "a/b.txt".toList, DstPeer := "10.0.0.1:9000".toList }

/-- The same locator as the input of a fetch or status request. -/
def exampleInput : dfstore.GetUrfsInput :=
  { Endpoint := "obs.example.com".toList, BucketName := "cache".toList,
    ObjectKey := "a/b.txt".toList, DstPeer := "10.0.0.1:9000".toList }

/-- The answer `404 Not Found`, whose body has the name `7`. -/
def notFoundResponse : http.Response Content :=
  responseOf 404 "404 Not Found".toList [] 7 none

/-- A body whose `Content-Length` is not a number and whose `SignedUrl`
holds an escaped ampersand. -/
def oddLengthBody : Content :=
  some (.object [("Content-Length".toList, .string "not a number".toList),
    ("SignedUrl".toList, .string ("https://s/o?a=1".toList ++ escapedAmpersand ++ "b=2".toList))])

/-- The environment in which the peer answers `200 OK` with `oddLengthBody`
(body number `2`) to the primary request. -/
def oddLengthEnv : Env :=
  scriptedEnv (.ok (metaResponse "1024".toList))
    (.ok (responseOf 200 "200 OK".toList [] 2 oddLengthBody))

/-- A body that declares the given `Content-Length` and nothing else. -/
def lengthBody (length : GoString) : Content :=
  some (.object [("Content-Length".toList, .string length)])

/-- The environment in which the metadata call finds the content length 1024
and the peer answers `200 OK` with `body` (body number `2`) to the primary
request. -/
def bodyEnv (body : Content) : Env :=
  scriptedEnv (.ok (metaResponse "1024".toList)) (.ok (responseOf 200 "200 OK".toList [] 2 body))

/-- A body whose `Content-Length` is `"1024"` and whose `StatusCode` is a
JSON string, not a number: the text
`{"Content-Length":"1024","StatusCode":"x"}`. -/
def typeErrorBody : Content :=
  some (.object [("Content-Length".toList, .string "1024".toList),
    ("StatusCode".toList, .string "x".toList)])

/-- The file fetch of the examples, with the overwrite flag set. -/
def overwriteInput : dfstore.GetUrfsInput := { exampleInput with Overwrite := true }

/-- A directory status request with the filter `x=1`, the overwrite flag set. -/
def filterInput : dfstore.GetUrfsInput :=
  { exampleInput with Filter := "x=1".toList, Overwrite := true }

/-- The request for `POST` on
`http://10.0.0.1:9000/buckets/cache.obs.example.com/cache_object/a/b.txt?overwrite=1`. -/
def overwriteRequest : http.Request :=
  { Method := "POST".toList,
    URL := { Scheme := "http".toList, Host := "10.0.0.1:9000".toList,
             Path := "/buckets/cache.obs.example.com/cache_object/a/b.txt".toList,
             RawQuery := "overwrite=1".toList },
    Header := [], Host := "10.0.0.1:9000".toList }

/-- The request for `GET` on
`http://10.0.0.1:9000/buckets/cache.obs.example.com/check_folder/a/b.txt?filter=x%3D1`. -/
def filterRequest : http.Request :=
  { Method := "GET".toList,
    URL := { Scheme := "http".toList, Host := "10.0.0.1:9000".toList,
             Path := "/buckets/cache.obs.example.com/check_folder/a/b.txt".toList,
             RawQuery := "filter=x%3D1".toList },
    Header := [], Host := "10.0.0.1:9000".toList }

/-! ## Lemmas on the string functions -/

namespace strings

theorem Cut_found {s : GoString} {sep : Char} {b a : GoString}
    (h : Cut s sep = (b, a, true)) : s = b ++ sep :: a ∧ sep ∉ b := by
  induction s generalizing b a with
  | nil => simp [Cut] at h
  | cons c cs ih =>
    unfold Cut at h
    by_cases hc : c = sep
    · simp only [hc, if_true, Prod.mk.injEq] at h
      obtain ⟨rfl, rfl, -⟩ := h
      simp [hc]
    · simp only [hc, if_false] at h
      rcases hcut : Cut cs sep with ⟨b1, a1, f⟩
      cases f
      · simp [hcut] at h
      · simp only [hcut, Prod.mk.injEq] at h
        obtain ⟨rfl, rfl, -⟩ := h
        obtain ⟨h1, h2⟩ := ih hcut
        refine ⟨by simp [h1], ?_⟩
        simp only [List.mem_cons, not_or]
        exact ⟨fun e => hc e.symm, h2⟩

theorem Cut_not_found {s : GoString} {sep : Char} {b a : GoString}
    (h : Cut s sep = (b, a, false)) : sep ∉ s ∧ b = s ∧ a = [] := by
  induction s generalizing b a with
  | nil =>
    simp only [Cut, Prod.mk.injEq] at h
    obtain ⟨rfl, rfl, -⟩ := h
    simp
  | cons c cs ih =>
    unfold Cut at h
    by_cases hc : c = sep
    · simp [hc] at h
    · simp only [hc, if_false] at h
      rcases hcut : Cut cs sep with ⟨b1, a1, f⟩
      cases f
      · simp only [hcut, Prod.mk.injEq] at h
        obtain ⟨rfl, rfl, -⟩ := h
        obtain ⟨h1, -, -⟩ := ih hcut
        refine ⟨?_, rfl, rfl⟩
        simp only [List.mem_cons, not_or]
        exact ⟨fun e => hc e.symm, h1⟩
      · simp [hcut] at h

theorem Cut_append {b : GoString} {sep : Char} (a : GoString) (hb : sep ∉ b) :
    Cut (b ++ sep :: a) sep = (b, a, true) := by
  induction b with
  | nil => simp [Cut]
  | cons c cs ih =>
    simp only [List.mem_cons, not_or] at hb
    have hc : ¬ c = sep := fun e => hb.1 e.symm
    simp [Cut, hc, ih hb.2]

theorem Cut_of_not_mem {s : GoString} {sep : Char} (hs : sep ∉ s) :
    Cut s sep = (s, [], false) := by
  induction s with
  | nil => simp [Cut]
  | cons c cs ih =>
    simp only [List.mem_cons, not_or] at hs
    have hc : ¬ c = sep := fun e => hs.1 e.symm
    simp [Cut, hc, ih hs.2]

theorem dropWhile_head_false {p : Char → Bool} {l r : GoString} {a : Char}
    (h : l.dropWhile p = a :: r) : p a = false := by
  induction l with
  | nil => simp at h
  | cons c cs ih =>
    rw [List.dropWhile_cons] at h
    by_cases hp : p c = true
    · rw [if_pos hp] at h
      exact ih h
    · rw [if_neg hp] at h
      simp only [List.cons.injEq] at h
      rw [← h.1]
      simpa using hp

theorem dropWhile_suffix (p : Char → Bool) (l : GoString) :
    ∃ t, l = t ++ l.dropWhile p := by
  induction l with
  | nil => exact ⟨[], rfl⟩
  | cons c cs ih =>
    rw [List.dropWhile_cons]
    by_cases hp : p c = true
    · rw [if_pos hp]
      obtain ⟨t, ht⟩ := ih
      exact ⟨c :: t, by rw [List.cons_append, ← ht]⟩
    · rw [if_neg hp]
      exact ⟨[], rfl⟩

/-- A trimmed string does not begin with a byte of the cutset. -/
theorem Trim_ne_cons (s cutset t : GoString) (c : Char) (hc : c ∈ cutset) :
    Trim s cutset ≠ c :: t := by
  intro h
  unfold Trim at h
  obtain ⟨r, hr⟩ := dropWhile_suffix (fun c => cutset.elem c)
    (s.dropWhile (fun c => cutset.elem c)).reverse
  have h2 : s.dropWhile (fun c => cutset.elem c) = c :: (t ++ r.reverse) := by
    have := congrArg List.reverse hr
    rw [List.reverse_reverse, List.reverse_append, h] at this
    simpa using this
  have := dropWhile_head_false h2
  simp [hc] at this

/-- A trimmed string does not end with a byte of the cutset. -/
theorem Trim_ne_concat (s cutset t : GoString) (c : Char) (hc : c ∈ cutset) :
    Trim s cutset ≠ t ++ [c] := by
  intro h
  unfold Trim at h
  have h2 : (s.dropWhile (fun c => cutset.elem c)).reverse.dropWhile (fun c => cutset.elem c)
      = c :: t.reverse := by
    have := congrArg List.reverse h
    rw [List.reverse_reverse] at this
    simpa using this
  have := dropWhile_head_false h2
  simp [hc] at this

/-- Trimming changes nothing in a string that neither begins nor ends with
a byte of the cutset. -/
theorem Trim_eq_self (s cutset : GoString)
    (h1 : ∀ c ∈ s.head?, c ∉ cutset) (h2 : ∀ c ∈ s.getLast?, c ∉ cutset) :
    Trim s cutset = s := by
  unfold Trim
  have e1 : s.dropWhile (fun c => cutset.elem c) = s := by
    cases s with
    | nil => rfl
    | cons a r =>
      have := h1 a (by simp)
      rw [List.dropWhile_cons, if_neg (by simpa using this)]
  rw [e1]
  have e2 : s.reverse.dropWhile (fun c => cutset.elem c) = s.reverse := by
    cases hrev : s.reverse with
    | nil => rfl
    | cons a r =>
      have hl : s.getLast? = some a := by
        rw [← List.head?_reverse, hrev]; rfl
      have := h2 a (by simp [hl])
      rw [List.dropWhile_cons, if_neg (by simpa using this)]
  rw [e2, List.reverse_reverse]

end strings

/-! ## The claims on `parseUrfsURL` -/

theorem parseUrfsURL_of_ok {rawURL : GoString} {u : url.URL}
    (hp : url.ParseRequestURI rawURL = .ok u) : parseUrfsURL rawURL = locatorOf u := by
  unfold parseUrfsURL locatorOf
  rw [hp]

theorem parseUrfsURL_of_error {rawURL : GoString} {err : GoError}
    (hp : url.ParseRequestURI rawURL = .error err) :
    parseUrfsURL rawURL = ([], [], [], some err) := by
  unfold parseUrfsURL
  rw [hp]

theorem locatorOf_found {u : url.URL} {b k : GoString} (h1 : u.Scheme = UrfsScheme)
    (h2 : u.Host ≠ []) (h3 : u.Path ≠ [])
    (hcut : strings.Cut (strings.Trim u.Path "/".toList) '/' = (b, k, true)) :
    locatorOf u = (u.Host, b, k, none) := by
  unfold locatorOf
  rw [if_neg (not_not.mpr h1), if_neg h2, if_neg h3, hcut]

theorem locatorOf_not_found {u : url.URL} {b k : GoString} (h1 : u.Scheme = UrfsScheme)
    (h2 : u.Host ≠ []) (h3 : u.Path ≠ [])
    (hcut : strings.Cut (strings.Trim u.Path "/".toList) '/' = (b, k, false)) :
    locatorOf u =
      ([], [], [], some (.New ("invalid bucket and object key ".toList ++ u.Path))) := by
  unfold locatorOf
  rw [if_neg (not_not.mpr h1), if_neg h2, if_neg h3, hcut]

/-- The shape of every successful return of `parseUrfsURL`. -/
theorem parseUrfsURL_ok_inv {rawURL e b k : GoString}
    (h : parseUrfsURL rawURL = (e, b, k, none)) :
    ∃ u, url.ParseRequestURI rawURL = .ok u ∧ u.Scheme = UrfsScheme ∧ u.Host ≠ [] ∧
      u.Path ≠ [] ∧ e = u.Host ∧
      strings.Cut (strings.Trim u.Path "/".toList) '/' = (b, k, true) := by
  cases hp : url.ParseRequestURI rawURL with
  | error err =>
    rw [parseUrfsURL_of_error hp] at h
    simp at h
  | ok u =>
    rw [parseUrfsURL_of_ok hp] at h
    refine ⟨u, rfl, ?_⟩
    by_cases h1 : u.Scheme = UrfsScheme
    · by_cases h2 : u.Host = []
      · unfold locatorOf at h
        rw [if_neg (not_not.mpr h1), if_pos h2] at h
        simp at h
      · by_cases h3 : u.Path = []
        · unfold locatorOf at h
          rw [if_neg (not_not.mpr h1), if_neg h2, if_pos h3] at h
          simp at h
        · rcases hcut : strings.Cut (strings.Trim u.Path "/".toList) '/' with ⟨b1, k1, f⟩
          cases f
          · rw [locatorOf_not_found h1 h2 h3 hcut] at h
            simp at h
          · rw [locatorOf_found h1 h2 h3 hcut] at h
            simp only [Prod.mk.injEq, and_true] at h
            obtain ⟨rfl, rfl, rfl⟩ := h
            exact ⟨h1, h2, h3, rfl, rfl⟩
    · unfold locatorOf at h
      rw [if_pos h1] at h
      simp at h

/-- The components of a successful return are non-empty. -/
theorem parseUrfsURL_components_nonempty_aux {rawURL e b k : GoString}
    (h : parseUrfsURL rawURL = (e, b, k, none)) : e ≠ [] ∧ b ≠ [] ∧ k ≠ [] := by
  obtain ⟨u, -, -, hhost, -, rfl, hcut⟩ := parseUrfsURL_ok_inv h
  obtain ⟨htrim, -⟩ := strings.Cut_found hcut
  refine ⟨hhost, ?_, ?_⟩
  · rintro rfl
    exact strings.Trim_ne_cons u.Path "/".toList k '/' (by decide) (by simpa using htrim)
  · rintro rfl
    exact strings.Trim_ne_concat u.Path "/".toList b '/' (by decide) (by simpa using htrim)

/-- C2. Object Locator invariant: whenever `parseUrfsURL` returns without
error, the endpoint, the bucket and the key it returns are all non-empty. -/
theorem parseUrfsURL_components_nonempty (rawURL e b k : GoString)
    (h : parseUrfsURL rawURL = (e, b, k, none)) : e ≠ [] ∧ b ≠ [] ∧ k ≠ [] :=
  parseUrfsURL_components_nonempty_aux h

/-- Witness of C2 at `urfs://obs.example.com/cache/a/b.txt`. -/
theorem parseUrfsURL_components_nonempty_witness :
    parseUrfsURL "urfs://obs.example.com/cache/a/b.txt".toList =
        ("obs.example.com".toList, "cache".toList, "a/b.txt".toList, none) ∧
      ("obs.example.com".toList ≠ [] ∧ "cache".toList ≠ [] ∧ "a/b.txt".toList ≠ []) :=
  ⟨by decide, parseUrfsURL_components_nonempty "urfs://obs.example.com/cache/a/b.txt".toList
    "obs.example.com".toList "cache".toList "a/b.txt".toList (by decide)⟩

/-! ## The claims on the metadata call and on the response bodies -/

/-- What `GetUrfsMetadataWithContext` returns for a response of the 2xx class
whose `Content-Length` header is a number: every field but `ETag` holds its
own header, and `ETag` holds the `Content-Type` header. -/
theorem GetUrfsMetadataWithContext_fields (env : Env) (dfs : dfstore.dfstore)
    (input : dfstore.GetUrfsMetadataInput) (isDir : Bool) (w : World) (req : http.Request)
    (resp : http.Response Content) (n : Int)
    (hreq : dfstore.GetUrfsMetadataRequestWithContext input isDir = .ok req)
    (hdo : dfs.httpClient req = .ok resp) (hcode : Int.tdiv resp.StatusCode 100 = 2)
    (hlen : strconv.ParseInt (resp.Header.Get headers.ContentLength) = .ok n) :
    (dfstore.GetUrfsMetadataWithContext env dfs input isDir w).1 = .ok
      { ContentDisposition := resp.Header.Get headers.ContentDisposition,
        ContentEncoding := resp.Header.Get headers.ContentEncoding,
        ContentLanguage := resp.Header.Get headers.ContentLanguage,
        ContentLength := n,
        ContentType := resp.Header.Get headers.ContentType,
        ETag := resp.Header.Get headers.ContentType,
        Digest := resp.Header.Get env.HeaderDragonflyObjectMetaDigest } := by
  unfold dfstore.GetUrfsMetadataWithContext World.Do
  rw [hreq]
  simp only [hdo]
  rw [if_neg (by rw [hcode]; exact fun h => h rfl), hlen]

/-- C13 (code bug). For the answer `200 OK` with `Content-Length: 1024`,
`Content-Type: text/plain` and `ETag: "abc"`, the metadata returned has
`ETag = text/plain`, the value of the `Content-Type` header, while the `ETag`
header of the response is `"abc"`. -/
theorem GetUrfsMetadataWithContext_etag_is_content_type :
    (dfstore.GetUrfsMetadataWithContext
        (scriptedEnv (.ok (metaResponse "1024".toList)) (.ok notFoundResponse))
        (dfstore.New (scriptedEnv (.ok (metaResponse "1024".toList)) (.ok notFoundResponse)) [])
        exampleMetadataInput false {}).1 =
      .ok { ContentLength := 1024, ContentType := "text/plain".toList,
            ETag := "text/plain".toList } ∧
    (metaResponse "1024".toList).Header.Get headers.ETag = "\"abc\"".toList := by
  decide

/-- C14 (code bug). When the peer answers the fetch request with `404 Not
Found`, `GetUrfsWithContext` and `GetUrfsStatusWithContext` return the error
and no reader, and the body received (number `7`) is not closed; the
directory operations built on them return the error with that body still
open, and the file operation closes the body of the metadata response
(number `1`) only. -/
theorem GetUrfsWithContext_leaves_body_open :
    (dfstore.GetUrfsWithContext
        (dfstore.New (scriptedEnv (.ok (metaResponse "1024".toList)) (.ok notFoundResponse)) [])
        exampleInput false {}).2.received = [7] ∧
    (dfstore.GetUrfsWithContext
        (dfstore.New (scriptedEnv (.ok (metaResponse "1024".toList)) (.ok notFoundResponse)) [])
        exampleInput false {}).2.closed = [] ∧
    (dfstore.GetUrfsStatusWithContext
        (dfstore.New (scriptedEnv (.ok (metaResponse "1024".toList)) (.ok notFoundResponse)) [])
        exampleInput true {}).2.received = [7] ∧
    (dfstore.GetUrfsStatusWithContext
        (dfstore.New (scriptedEnv (.ok (metaResponse "1024".toList)) (.ok notFoundResponse)) [])
        exampleInput true {}).2.closed = [] ∧
    (New.ScheduleDirToPeerByKey
        (scriptedEnv (.ok (metaResponse "1024".toList)) (.ok notFoundResponse))
        "obs.example.com".toList "cache".toList "a/b.txt".toList "10.0.0.1:9000".toList {}).1 =
      (none, some (dfstore.badStatus "404 Not Found".toList)) ∧
    (New.ScheduleDirToPeerByKey
        (scriptedEnv (.ok (metaResponse "1024".toList)) (.ok notFoundResponse))
        "obs.example.com".toList "cache".toList "a/b.txt".toList "10.0.0.1:9000".toList {}).2.closed
      = [] ∧
    (New.ScheduleDataToPeerByKey
        (scriptedEnv (.ok (metaResponse "1024".toList)) (.ok notFoundResponse))
        "obs.example.com".toList "cache".toList "a/b.txt".toList "10.0.0.1:9000".toList
        false {}).1 = (none, some (dfstore.badStatus "404 Not Found".toList)) ∧
    (New.ScheduleDataToPeerByKey
        (scriptedEnv (.ok (metaResponse "1024".toList)) (.ok notFoundResponse))
        "obs.example.com".toList "cache".toList "a/b.txt".toList "10.0.0.1:9000".toList
        false {}).2.received = [1, 7] ∧
    (New.ScheduleDataToPeerByKey
        (scriptedEnv (.ok (metaResponse "1024".toList)) (.ok notFoundResponse))
        "obs.example.com".toList "cache".toList "a/b.txt".toList "10.0.0.1:9000".toList
        false {}).2.closed = [1] := by
  decide

/-! ## The claims on the directory variants -/

theorem GetUrfsMetadataRequestWithContext_eq (input : dfstore.GetUrfsMetadataInput)
    (isDir : Bool) :
    dfstore.GetUrfsMetadataRequestWithContext input isDir =
      match input.Validate with
      | some err => .error err
      | none =>
        match url.Parse (peerURL input.DstPeer) with
        | .error err => .error err
        | .ok u => http.NewRequestWithContext http.MethodHead (metadataTarget input u).String := by
  unfold dfstore.GetUrfsMetadataRequestWithContext peerURL metadataTarget
  cases input.Validate with
  | some err => rfl
  | none =>
    dsimp only
    cases url.Parse (url.URL.String { Scheme := "http".toList, Host := input.DstPeer }) with
    | error err => rfl
    | ok u =>
      dsimp only
      cases http.NewRequestWithContext http.MethodHead _ <;> rfl

theorem GetUrfsRequestWithContext_eq (input : dfstore.GetUrfsInput) (isDir : Bool) :
    dfstore.GetUrfsRequestWithContext input isDir =
      match input.Validate with
      | some err => .error err
      | none =>
        match url.Parse (peerURL input.DstPeer) with
        | .error err => .error err
        | .ok u =>
          match http.NewRequestWithContext http.MethodPost (fetchTarget input isDir u).String with
          | .error err => .error err
          | .ok req => .ok (withRange input.Range req) := by
  unfold dfstore.GetUrfsRequestWithContext peerURL fetchTarget fetchQuery withRange
  cases input.Validate with
  | some err => rfl
  | none =>
    dsimp only
    cases url.Parse (url.URL.String { Scheme := "http".toList, Host := input.DstPeer }) with
    | error err => rfl
    | ok u => cases isDir <;> rfl

theorem GetUrfsStatusRequestWithContext_eq (input : dfstore.GetUrfsInput) (isDir : Bool) :
    dfstore.GetUrfsStatusRequestWithContext input isDir =
      match input.Validate with
      | some err => .error err
      | none =>
        match url.Parse (peerURL input.DstPeer) with
        | .error err => .error err
        | .ok u =>
          match http.NewRequestWithContext http.MethodGet (statusTarget input isDir u).String with
          | .error err => .error err
          | .ok req => .ok (withRange input.Range req) := by
  unfold dfstore.GetUrfsStatusRequestWithContext peerURL statusTarget statusQuery withRange
  cases input.Validate with
  | some err => rfl
  | none =>
    dsimp only
    cases url.Parse (url.URL.String { Scheme := "http".toList, Host := input.DstPeer }) with
    | error err => rfl
    | ok u => cases isDir <;> rfl

/-- The shape of every request `http.NewRequestWithContext` returns. -/
theorem NewRequestWithContext_ok_inv {method urlStr : GoString} {req : http.Request}
    (hm : method ≠ []) (h : http.NewRequestWithContext method urlStr = .ok req) :
    ∃ u, url.Parse urlStr = .ok u ∧
      req = { Method := method, URL := { u with Host := http.removeEmptyPort u.Host },
              Header := [], Host := http.removeEmptyPort u.Host } := by
  unfold http.NewRequestWithContext at h
  rw [if_neg hm] at h
  dsimp only at h
  by_cases hv : (!http.validMethod method) = true
  · rw [if_pos hv] at h
    cases h
  · rw [if_neg hv] at h
    cases hp : url.Parse urlStr with
    | error err =>
      rw [hp] at h
      cases h
    | ok u =>
      rw [hp] at h
      cases h
      exact ⟨u, rfl, rfl⟩

theorem withRange_method (range : GoString) (req : http.Request) :
    (withRange range req).Method = req.Method := by
  unfold withRange
  split <;> rfl

theorem withRange_URL (range : GoString) (req : http.Request) :
    (withRange range req).URL = req.URL := by
  unfold withRange
  split <;> rfl

theorem GetUrfsRequestWithContext_method {input : dfstore.GetUrfsInput} {isDir : Bool}
    {req : http.Request} (h : dfstore.GetUrfsRequestWithContext input isDir = .ok req) :
    req.Method = http.MethodPost := by
  rw [GetUrfsRequestWithContext_eq] at h
  cases hv : input.Validate with
  | some err => rw [hv] at h; cases h
  | none =>
    rw [hv] at h
    dsimp only at h
    cases hp : url.Parse (peerURL input.DstPeer) with
    | error err => rw [hp] at h; cases h
    | ok u =>
      rw [hp] at h
      dsimp only at h
      cases hn : http.NewRequestWithContext http.MethodPost (fetchTarget input isDir u).String with
      | error err => rw [hn] at h; cases h
      | ok req0 =>
        rw [hn] at h
        cases h
        obtain ⟨u2, -, rfl⟩ := NewRequestWithContext_ok_inv (by decide) hn
        rw [withRange_method]

theorem GetUrfsStatusRequestWithContext_method {input : dfstore.GetUrfsInput} {isDir : Bool}
    {req : http.Request} (h : dfstore.GetUrfsStatusRequestWithContext input isDir = .ok req) :
    req.Method = http.MethodGet := by
  rw [GetUrfsStatusRequestWithContext_eq] at h
  cases hv : input.Validate with
  | some err => rw [hv] at h; cases h
  | none =>
    rw [hv] at h
    dsimp only at h
    cases hp : url.Parse (peerURL input.DstPeer) with
    | error err => rw [hp] at h; cases h
    | ok u =>
      rw [hp] at h
      dsimp only at h
      cases hn : http.NewRequestWithContext http.MethodGet (statusTarget input isDir u).String with
      | error err => rw [hn] at h; cases h
      | ok req0 =>
        rw [hn] at h
        cases h
        obtain ⟨u2, -, rfl⟩ := NewRequestWithContext_ok_inv (by decide) hn
        rw [withRange_method]

/-- `GetUrfsWithContext` once the request is built. -/
theorem GetUrfsWithContext_of_request {dfs : dfstore.dfstore} {input : dfstore.GetUrfsInput}
    {isDir : Bool} {req : http.Request} (w : World)
    (hreq : dfstore.GetUrfsRequestWithContext input isDir = .ok req) :
    dfstore.GetUrfsWithContext dfs input isDir w =
      match dfs.httpClient req with
      | .error err => (.error err, { w with sent := w.sent ++ [req] })
      | .ok resp =>
        if Int.tdiv resp.StatusCode 100 ≠ 2 then
          (.error (dfstore.badStatus resp.Status),
            { w with sent := w.sent ++ [req], received := w.received ++ [resp.Body.id] })
        else
          (.ok resp.Body,
            { w with sent := w.sent ++ [req], received := w.received ++ [resp.Body.id] }) := by
  unfold dfstore.GetUrfsWithContext World.Do
  rw [hreq]
  dsimp only
  cases dfs.httpClient req <;> rfl

/-- `GetUrfsStatusWithContext` once the request is built. -/
theorem GetUrfsStatusWithContext_of_request {dfs : dfstore.dfstore}
    {input : dfstore.GetUrfsInput} {isDir : Bool} {req : http.Request} (w : World)
    (hreq : dfstore.GetUrfsStatusRequestWithContext input isDir = .ok req) :
    dfstore.GetUrfsStatusWithContext dfs input isDir w =
      match dfs.httpClient req with
      | .error err => (.error err, { w with sent := w.sent ++ [req] })
      | .ok resp =>
        if Int.tdiv resp.StatusCode 100 ≠ 2 then
          (.error (dfstore.badStatus resp.Status),
            { w with sent := w.sent ++ [req], received := w.received ++ [resp.Body.id] })
        else
          (.ok resp.Body,
            { w with sent := w.sent ++ [req], received := w.received ++ [resp.Body.id] }) := by
  unfold dfstore.GetUrfsStatusWithContext World.Do
  rw [hreq]
  dsimp only
  cases dfs.httpClient req <;> rfl

/-- The requests `GetUrfsWithContext` sends: none when no request can be
built, else the one request built. -/
theorem GetUrfsWithContext_sent (dfs : dfstore.dfstore) (input : dfstore.GetUrfsInput)
    (isDir : Bool) (w : World) :
    (dfstore.GetUrfsWithContext dfs input isDir w).2.sent = w.sent ∨
      ∃ req, dfstore.GetUrfsRequestWithContext input isDir = .ok req ∧
        (dfstore.GetUrfsWithContext dfs input isDir w).2.sent = w.sent ++ [req] := by
  cases hreq : dfstore.GetUrfsRequestWithContext input isDir with
  | error err =>
    left
    unfold dfstore.GetUrfsWithContext
    rw [hreq]
  | ok req =>
    refine Or.inr ⟨req, rfl, ?_⟩
    rw [GetUrfsWithContext_of_request w hreq]
    cases dfs.httpClient req with
    | error err => rfl
    | ok resp =>
      dsimp only
      split <;> rfl

/-- The requests `GetUrfsStatusWithContext` sends: none when no request can
be built, else the one request built. -/
theorem GetUrfsStatusWithContext_sent (dfs : dfstore.dfstore) (input : dfstore.GetUrfsInput)
    (isDir : Bool) (w : World) :
    (dfstore.GetUrfsStatusWithContext dfs input isDir w).2.sent = w.sent ∨
      ∃ req, dfstore.GetUrfsStatusRequestWithContext input isDir = .ok req ∧
        (dfstore.GetUrfsStatusWithContext dfs input isDir w).2.sent = w.sent ++ [req] := by
  cases hreq : dfstore.GetUrfsStatusRequestWithContext input isDir with
  | error err =>
    left
    unfold dfstore.GetUrfsStatusWithContext
    rw [hreq]
  | ok req =>
    refine Or.inr ⟨req, rfl, ?_⟩
    rw [GetUrfsStatusWithContext_of_request w hreq]
    cases dfs.httpClient req with
    | error err => rfl
    | ok resp =>
      dsimp only
      split <;> rfl

/-- What the statements shared by the `process` functions return for a body
that is read and deserialized without error. -/
theorem readPeerResult_of_ok {reader : http.ReadCloser Content} {r : PeerResult}
    (hread : reader.readErr = none) (hjson : json.Unmarshal reader.content {} = (r, none)) :
    readPeerResult reader =
      ({ r with SignedUrl := strings.ReplaceAll r.SignedUrl escapedAmpersand "&".toList },
        none) := by
  unfold readPeerResult ReadAll
  rw [hread]
  dsimp only
  rw [hjson]

/-- C11. The directory variants skip the cross-check.  When the primary call
hands over a body that is read and deserialized without error into `r`,
`processScheduleDirToPeer` and `processCheckScheduleDirTaskStatus` return `r`
(its `SignedUrl` normalised) and no error, whatever `r.ContentLength` is, and
close the body; and the only request either of them ever sends is the one
primary request (`POST`, resp. `GET`), never a metadata (`HEAD`) request. -/
theorem dir_variants_skip_cross_check (env : Env) (cfg : config.DfstoreConfig)
    (endpoint bucketName objectKey dstPeer : GoString) (w w1 : World)
    (reader : http.ReadCloser Content) (r : PeerResult)
    (hread : reader.readErr = none) (hjson : json.Unmarshal reader.content {} = (r, none)) :
    (dfstore.GetUrfsWithContext (dfstore.New env cfg.Endpoint)
          { Endpoint := endpoint, BucketName := bucketName, ObjectKey := objectKey,
            DstPeer := dstPeer } true w = (.ok reader, w1) →
        processScheduleDirToPeer env cfg endpoint bucketName objectKey dstPeer w =
          ((some { r with
              SignedUrl := strings.ReplaceAll r.SignedUrl escapedAmpersand "&".toList }, none),
            w1.Close reader)) ∧
    (dfstore.GetUrfsStatusWithContext (dfstore.New env cfg.Endpoint)
          { Endpoint := endpoint, BucketName := bucketName, ObjectKey := objectKey,
            DstPeer := dstPeer } true w = (.ok reader, w1) →
        processCheckScheduleDirTaskStatus env cfg endpoint bucketName objectKey dstPeer w =
          ((some { r with
              SignedUrl := strings.ReplaceAll r.SignedUrl escapedAmpersand "&".toList }, none),
            w1.Close reader)) ∧
    ((processScheduleDirToPeer env cfg endpoint bucketName objectKey dstPeer w).2.sent = w.sent ∨
      ∃ req, req.Method = http.MethodPost ∧
        (processScheduleDirToPeer env cfg endpoint bucketName objectKey dstPeer w).2.sent =
          w.sent ++ [req]) ∧
    ((processCheckScheduleDirTaskStatus env cfg endpoint bucketName objectKey dstPeer w).2.sent
        = w.sent ∨
      ∃ req, req.Method = http.MethodGet ∧
        (processCheckScheduleDirTaskStatus env cfg endpoint bucketName objectKey dstPeer
          w).2.sent = w.sent ++ [req]) := by
  refine ⟨?_, ?_, ?_, ?_⟩
  · intro hget
    unfold processScheduleDirToPeer
    dsimp only
    rw [hget]
    dsimp only
    rw [readPeerResult_of_ok hread hjson]
  · intro hget
    unfold processCheckScheduleDirTaskStatus
    dsimp only
    rw [hget]
    dsimp only
    rw [readPeerResult_of_ok hread hjson]
  · have hs := GetUrfsWithContext_sent (dfstore.New env cfg.Endpoint)
      { Endpoint := endpoint, BucketName := bucketName, ObjectKey := objectKey,
        DstPeer := dstPeer } true w
    unfold processScheduleDirToPeer
    dsimp only
    rcases hres : dfstore.GetUrfsWithContext (dfstore.New env cfg.Endpoint)
      { Endpoint := endpoint, BucketName := bucketName, ObjectKey := objectKey,
        DstPeer := dstPeer } true w with ⟨res, w2⟩
    rw [hres] at hs
    cases res with
    | error err =>
      rcases hs with hs | ⟨req, hreq, hs⟩
      · exact Or.inl hs
      · exact Or.inr ⟨req, GetUrfsRequestWithContext_method hreq, hs⟩
    | ok rd =>
      rcases hs with hs | ⟨req, hreq, hs⟩
      · exact Or.inl hs
      · exact Or.inr ⟨req, GetUrfsRequestWithContext_method hreq, hs⟩
  · have hs := GetUrfsStatusWithContext_sent (dfstore.New env cfg.Endpoint)
      { Endpoint := endpoint, BucketName := bucketName, ObjectKey := objectKey,
        DstPeer := dstPeer } true w
    unfold processCheckScheduleDirTaskStatus
    dsimp only
    rcases hres : dfstore.GetUrfsStatusWithContext (dfstore.New env cfg.Endpoint)
      { Endpoint := endpoint, BucketName := bucketName, ObjectKey := objectKey,
        DstPeer := dstPeer } true w with ⟨res, w2⟩
    rw [hres] at hs
    cases res with
    | error err =>
      rcases hs with hs | ⟨req, hreq, hs⟩
      · exact Or.inl hs
      · exact Or.inr ⟨req, GetUrfsStatusRequestWithContext_method hreq, hs⟩
    | ok rd =>
      rcases hs with hs | ⟨req, hreq, hs⟩
      · exact Or.inl hs
      · exact Or.inr ⟨req, GetUrfsStatusRequestWithContext_method hreq, hs⟩

/-- Witness of C11: a directory fetch whose body declares the `Content-Length`
`not a number` returns the result, without error. -/
theorem dir_variants_skip_cross_check_witness :
    (processScheduleDirToPeer oddLengthEnv New.cfg "obs.example.com".toList "cache".toList
        "a/b.txt".toList "10.0.0.1:9000".toList {}).1 =
      (some { ContentLength := "not a number".toList,
              SignedUrl := "https://s/o?a=1&b=2".toList }, none) :=
  (congrArg Prod.fst
    ((dir_variants_skip_cross_check oddLengthEnv New.cfg "obs.example.com".toList
      "cache".toList "a/b.txt".toList "10.0.0.1:9000".toList {}
      (dfstore.GetUrfsWithContext (dfstore.New oddLengthEnv New.cfg.Endpoint)
        { Endpoint := "obs.example.com".toList, BucketName := "cache".toList,
          ObjectKey := "a/b.txt".toList, DstPeer := "10.0.0.1:9000".toList } true {}).2
      ⟨2, oddLengthBody, none⟩
      { ContentLength := "not a number".toList,
        SignedUrl := "https://s/o?a=1".toList ++ escapedAmpersand ++ "b=2".toList }
      rfl rfl).1 rfl)).trans (by decide)

/-! ## Lemmas on `strings.ReplaceAll` -/

namespace strings

theorem replaceLoop_nil (old new : GoString) (fuel : Nat) :
    replaceLoop old new fuel [] = [] := by
  cases fuel <;> rfl

theorem replaceLoop_fuel (old new : GoString) (hold : old ≠ []) :
    ∀ (f1 f2 : Nat) (s : GoString), s.length ≤ f1 → s.length ≤ f2 →
      replaceLoop old new f1 s = replaceLoop old new f2 s := by
  intro f1
  induction f1 with
  | zero =>
    intro f2 s h1 _
    have : s = [] := List.length_eq_zero.mp (Nat.le_zero.mp h1)
    subst this
    rw [replaceLoop_nil, replaceLoop_nil]
  | succ n ih =>
    intro f2 s h1 h2
    cases s with
    | nil => rw [replaceLoop_nil, replaceLoop_nil]
    | cons c cs =>
      cases f2 with
      | zero => simp at h2
      | succ m =>
        have hpos : 0 < old.length := List.length_pos.mpr hold
        simp only [List.length_cons] at h1 h2
        simp only [replaceLoop]
        split
        · congr 1
          apply ih
          · rw [List.length_drop, List.length_cons]; omega
          · rw [List.length_drop, List.length_cons]; omega
        · congr 1
          apply ih <;> omega

theorem ReplaceAll_nil (old new : GoString) : ReplaceAll [] old new = [] := by
  unfold ReplaceAll
  split
  · rfl
  · rfl

theorem ReplaceAll_cons_match {old new : GoString} {c : Char} {cs : GoString} (hold : old ≠ [])
    (h : old <+: c :: cs) :
    ReplaceAll (c :: cs) old new = new ++ ReplaceAll ((c :: cs).drop old.length) old new := by
  have hpos : 0 < old.length := List.length_pos.mpr hold
  unfold ReplaceAll
  rw [if_neg hold, if_neg hold]
  simp only [List.length_cons, replaceLoop]
  rw [if_pos (List.isPrefixOf_iff_prefix.mpr h)]
  congr 1
  apply replaceLoop_fuel old new hold
  · rw [List.length_drop, List.length_cons]; omega
  · exact Nat.le_refl _

theorem ReplaceAll_cons_skip {old new : GoString} {c : Char} {cs : GoString} (hold : old ≠ [])
    (h : ¬ old <+: c :: cs) :
    ReplaceAll (c :: cs) old new = c :: ReplaceAll cs old new := by
  unfold ReplaceAll
  rw [if_neg hold, if_neg hold]
  simp only [List.length_cons, replaceLoop]
  rw [if_neg (fun hp => h (List.isPrefixOf_iff_prefix.mp hp))]

/-- A prefix of `x ++ h :: r` in which `h` does not occur is a prefix of `x`. -/
theorem prefix_of_not_mem {h : Char} {r : GoString} :
    ∀ (x q : GoString), q <+: x ++ h :: r → h ∉ q → q <+: x := by
  intro x
  induction x with
  | nil =>
    intro q hq hh
    cases q with
    | nil => exact List.prefix_rfl
    | cons a q' =>
      simp only [List.nil_append, List.cons_prefix_cons] at hq
      simp only [List.mem_cons, not_or] at hh
      exact absurd hq.1.symm hh.1
  | cons c x' ih =>
    intro q hq hh
    cases q with
    | nil => exact List.nil_prefix
    | cons a q' =>
      simp only [List.cons_append, List.cons_prefix_cons] at hq
      simp only [List.mem_cons, not_or] at hh
      exact List.cons_prefix_cons.mpr ⟨hq.1, ih q' hq.2 hh.2⟩

/-- An occurrence of `h :: t` that starts inside `x` lies inside `x`, when
`h` does not occur in `t`. -/
theorem infix_of_prefix_append {h : Char} {t x rest : GoString} (ht : h ∉ t) (hx : x ≠ [])
    (hp : h :: t <+: x ++ (h :: t) ++ rest) : h :: t <:+: x := by
  cases x with
  | nil => exact absurd rfl hx
  | cons c x' =>
    simp only [List.cons_append, List.append_assoc, List.cons_prefix_cons] at hp
    have := prefix_of_not_mem x' t hp.2 ht
    exact (List.cons_prefix_cons.mpr ⟨hp.1, this⟩).isInfix

theorem ReplaceAll_append {h : Char} {t new : GoString} (ht : h ∉ t) :
    ∀ (x rest : GoString), ¬ h :: t <:+: x →
      ReplaceAll (x ++ (h :: t) ++ rest) (h :: t) new = x ++ new ++ ReplaceAll rest (h :: t) new := by
  intro x
  induction x with
  | nil =>
    intro rest _
    have hp : h :: t <+: h :: (t ++ rest) := by simp
    have hd : (h :: (t ++ rest)).drop (h :: t).length = rest := by simp
    rw [List.nil_append, List.cons_append, ReplaceAll_cons_match (List.cons_ne_nil h t) hp, hd,
      List.nil_append]
  | cons c x' ih =>
    intro rest hx
    have hskip : ¬ h :: t <+: c :: (x' ++ (h :: t) ++ rest) := by
      intro hp
      exact hx (infix_of_prefix_append ht (List.cons_ne_nil c x') (by simpa using hp))
    have hx' : ¬ h :: t <:+: x' := fun hi => hx (List.infix_cons hi)
    rw [List.cons_append, List.cons_append, ReplaceAll_cons_skip (List.cons_ne_nil h t) hskip,
      ih rest hx']
    rfl

/-- A prefix of the output in which the replacement byte does not occur is
a prefix of the input. -/
theorem prefix_of_prefix_ReplaceAll {h a : Char} {t : GoString} :
    ∀ (q cs : GoString), a ∉ q → q <+: ReplaceAll cs (h :: t) [a] → q <+: cs := by
  intro q
  induction q with
  | nil => intro cs _ _; exact List.nil_prefix
  | cons q1 q' ih =>
    intro cs ha hq
    simp only [List.mem_cons, not_or] at ha
    cases cs with
    | nil =>
      rw [ReplaceAll_nil] at hq
      simp at hq
    | cons d ds =>
      by_cases hm : h :: t <+: d :: ds
      · rw [ReplaceAll_cons_match (List.cons_ne_nil h t) hm] at hq
        simp only [List.singleton_append, List.cons_prefix_cons] at hq
        exact absurd hq.1.symm ha.1
      · rw [ReplaceAll_cons_skip (List.cons_ne_nil h t) hm] at hq
        simp only [List.cons_prefix_cons] at hq
        exact List.cons_prefix_cons.mpr ⟨hq.1, ih ds ha.2 hq.2⟩

/-- No occurrence of `old` is left in the output, and none is created: for
`old = h :: t` with `h` not in `t`, replaced by one byte `a` not in `old`. -/
theorem not_infix_ReplaceAll {h a : Char} {t : GoString} (hah : a ≠ h) (hat : a ∉ t) :
    ∀ (n : Nat) (s : GoString), s.length ≤ n → ¬ h :: t <:+: ReplaceAll s (h :: t) [a] := by
  intro n
  induction n with
  | zero =>
    intro s hs
    have : s = [] := List.length_eq_zero.mp (Nat.le_zero.mp hs)
    subst this
    rw [ReplaceAll_nil]
    simp
  | succ n ih =>
    intro s hs
    cases s with
    | nil =>
      rw [ReplaceAll_nil]
      simp
    | cons c cs =>
      simp only [List.length_cons] at hs
      by_cases hm : h :: t <+: c :: cs
      · rw [ReplaceAll_cons_match (List.cons_ne_nil h t) hm, List.singleton_append,
          List.infix_cons_iff]
        rintro (hp | hi)
        · simp only [List.cons_prefix_cons] at hp
          exact hah hp.1.symm
        · refine ih _ ?_ hi
          rw [List.length_drop, List.length_cons, List.length_cons]
          omega
      · rw [ReplaceAll_cons_skip (List.cons_ne_nil h t) hm, List.infix_cons_iff]
        rintro (hp | hi)
        · simp only [List.cons_prefix_cons] at hp
          exact hm (List.cons_prefix_cons.mpr ⟨hp.1, prefix_of_prefix_ReplaceAll t cs hat hp.2⟩)
        · exact ih cs (by omega) hi

/-- A string without an occurrence of `old` is returned unchanged. -/
theorem ReplaceAll_of_not_infix {old new : GoString} (hold : old ≠ []) :
    ∀ (s : GoString), ¬ old <:+: s → ReplaceAll s old new = s := by
  intro s
  induction s with
  | nil => intro _; exact ReplaceAll_nil old new
  | cons c cs ih =>
    intro hs
    rw [ReplaceAll_cons_skip hold (fun hp => hs hp.isInfix), ih (fun hi => hs (List.infix_cons hi))]

/-- The text before the leftmost occurrence of `old` in `s`. -/
theorem exists_leftmost {old : GoString} :
    ∀ (s : GoString), old <:+: s → ∃ x rest, s = x ++ old ++ rest ∧ (old = [] ∨ ¬ old <:+: x) := by
  intro s
  induction s with
  | nil =>
    intro hs
    have : old = [] := List.eq_nil_of_infix_nil hs
    exact ⟨[], [], by simp [this], Or.inl this⟩
  | cons c cs ih =>
    intro hs
    by_cases hp : old <+: c :: cs
    · obtain ⟨rest, hrest⟩ := hp
      refine ⟨[], rest, by simp [hrest], ?_⟩
      by_cases ho : old = []
      · exact Or.inl ho
      · exact Or.inr (fun hi => ho (List.eq_nil_of_infix_nil hi))
    · rcases List.infix_cons_iff.mp hs with h1 | h1
      · exact absurd h1 hp
      · obtain ⟨x, rest, hx, hmin⟩ := ih h1
        refine ⟨c :: x, rest, by simp [hx], ?_⟩
        rcases hmin with ho | hmin
        · exact Or.inl ho
        · right
          intro hi
          rcases List.infix_cons_iff.mp hi with h2 | h2
          · obtain ⟨y, hy⟩ := h2
            apply hp
            refine ⟨y ++ old ++ rest, ?_⟩
            rw [hx, ← List.cons_append, ← List.cons_append, ← hy]
            simp
          · exact hmin h2

end strings

namespace strings

theorem intercalate_cons_cons (sep x y : GoString) (ys : List GoString) :
    sep.intercalate (x :: y :: ys) = x ++ sep ++ sep.intercalate (y :: ys) := by
  simp [List.intercalate, List.intersperse]

theorem intercalate_singleton (sep x : GoString) : sep.intercalate [x] = x := by
  simp [List.intercalate, List.intersperse]

/-- Every string is made of pieces free of `old`, joined by `old`. -/
theorem exists_pieces {old : GoString} (hold : old ≠ []) :
    ∀ (n : Nat) (s : GoString), s.length ≤ n →
      ∃ pieces : List GoString, pieces ≠ [] ∧ (∀ p ∈ pieces, ¬ old <:+: p) ∧
        s = old.intercalate pieces := by
  intro n
  induction n with
  | zero =>
    intro s hs
    have : s = [] := List.length_eq_zero.mp (Nat.le_zero.mp hs)
    subst this
    refine ⟨[[]], by simp, ?_, by simp [intercalate_singleton]⟩
    intro p hp hi
    simp only [List.mem_singleton] at hp
    subst hp
    exact hold (List.eq_nil_of_infix_nil hi)
  | succ n ih =>
    intro s hs
    by_cases hi : old <:+: s
    · obtain ⟨x, rest, hx, hmin⟩ := exists_leftmost s hi
      have hmin' : ¬ old <:+: x := hmin.resolve_left hold
      have hpos : 0 < old.length := List.length_pos.mpr hold
      have hlen : rest.length ≤ n := by
        have := congrArg List.length hx
        simp only [List.length_append] at this
        omega
      obtain ⟨pieces, hne, hfree, hrest⟩ := ih rest hlen
      cases pieces with
      | nil => exact absurd rfl hne
      | cons p ps =>
        refine ⟨x :: p :: ps, by simp, ?_, ?_⟩
        · intro q hq
          rcases List.mem_cons.mp hq with rfl | hq
          · exact hmin'
          · exact hfree q hq
        · rw [intercalate_cons_cons, ← hrest, hx]
    · refine ⟨[s], by simp, ?_, by simp [intercalate_singleton]⟩
      intro p hp
      simp only [List.mem_singleton] at hp
      subst hp
      exact hi

/-- Replacing in pieces joined by `old` joins the pieces by `new`. -/
theorem ReplaceAll_intercalate {h : Char} {t new : GoString} (ht : h ∉ t) :
    ∀ (pieces : List GoString), pieces ≠ [] → (∀ p ∈ pieces, ¬ h :: t <:+: p) →
      ReplaceAll ((h :: t).intercalate pieces) (h :: t) new = new.intercalate pieces := by
  intro pieces
  induction pieces with
  | nil => intro hne; exact absurd rfl hne
  | cons p ps ih =>
    intro _ hfree
    cases ps with
    | nil =>
      rw [intercalate_singleton, intercalate_singleton]
      exact ReplaceAll_of_not_infix (List.cons_ne_nil h t) p (hfree p (by simp))
    | cons p2 ps2 =>
      rw [intercalate_cons_cons, intercalate_cons_cons,
        ReplaceAll_append ht p _ (hfree p (by simp)),
        ih (by simp) (fun q hq => hfree q (List.mem_cons_of_mem p hq))]

end strings

theorem checkContentLength_some {pr r : PeerResult} {meta : objectstorage.ObjectMetadata}
    (h : (checkContentLength pr meta).1 = some r) : r = pr := by
  unfold checkContentLength at h
  cases hp : strconv.ParseInt pr.ContentLength with
  | error err => rw [hp] at h; cases h
  | ok n =>
    rw [hp] at h
    dsimp only at h
    split at h
    · cases h
    · cases h; rfl

theorem readPeerResult_SignedUrl (reader : http.ReadCloser Content) :
    (readPeerResult reader).1.SignedUrl =
      strings.ReplaceAll (deserialized reader).SignedUrl escapedAmpersand "&".toList := by
  unfold readPeerResult ReadAll deserialized
  cases reader.readErr <;> rfl


/-! ## The claim on the signed URL -/

theorem processScheduleDirToPeer_result (env : Env) (cfg : config.DfstoreConfig)
    (endpoint bucketName objectKey dstPeer : GoString) (w : World) (r : PeerResult)
    (h : (processScheduleDirToPeer env cfg endpoint bucketName objectKey dstPeer w).1.1 = some r) :
    ∃ reader w1,
      dfstore.GetUrfsWithContext (dfstore.New env cfg.Endpoint)
        { Endpoint := endpoint, BucketName := bucketName, ObjectKey := objectKey,
          DstPeer := dstPeer } true w = (.ok reader, w1) ∧
      r = (readPeerResult reader).1 := by
  unfold processScheduleDirToPeer at h
  dsimp only at h
  rcases hget : dfstore.GetUrfsWithContext (dfstore.New env cfg.Endpoint)
    { Endpoint := endpoint, BucketName := bucketName, ObjectKey := objectKey,
      DstPeer := dstPeer } true w with ⟨res, w1⟩
  rw [hget] at h
  cases res with
  | error err => cases h
  | ok reader =>
    dsimp only at h
    cases h
    exact ⟨reader, w1, rfl, rfl⟩

theorem processCheckScheduleDirTaskStatus_result (env : Env) (cfg : config.DfstoreConfig)
    (endpoint bucketName objectKey dstPeer : GoString) (w : World) (r : PeerResult)
    (h : (processCheckScheduleDirTaskStatus env cfg endpoint bucketName objectKey dstPeer w).1.1
      = some r) :
    ∃ reader w1,
      dfstore.GetUrfsStatusWithContext (dfstore.New env cfg.Endpoint)
        { Endpoint := endpoint, BucketName := bucketName, ObjectKey := objectKey,
          DstPeer := dstPeer } true w = (.ok reader, w1) ∧
      r = (readPeerResult reader).1 := by
  unfold processCheckScheduleDirTaskStatus at h
  dsimp only at h
  rcases hget : dfstore.GetUrfsStatusWithContext (dfstore.New env cfg.Endpoint)
    { Endpoint := endpoint, BucketName := bucketName, ObjectKey := objectKey,
      DstPeer := dstPeer } true w with ⟨res, w1⟩
  rw [hget] at h
  cases res with
  | error err => cases h
  | ok reader =>
    dsimp only at h
    cases h
    exact ⟨reader, w1, rfl, rfl⟩

theorem processScheduleDataToPeer_result (env : Env) (cfg : config.DfstoreConfig)
    (endpoint bucketName objectKey dstPeer : GoString) (overwrite : Bool) (w : World)
    (r : PeerResult)
    (h : (processScheduleDataToPeer env cfg endpoint bucketName objectKey dstPeer overwrite
      w).1.1 = some r) :
    ∃ meta w0 reader w1,
      dfstore.GetUrfsMetadataWithContext env (dfstore.New env cfg.Endpoint)
        { Endpoint := endpoint, BucketName := bucketName, ObjectKey := objectKey,
          DstPeer := dstPeer } false w = (.ok meta, w0) ∧
      dfstore.GetUrfsWithContext (dfstore.New env cfg.Endpoint)
        { Endpoint := endpoint, BucketName := bucketName, ObjectKey := objectKey,
          DstPeer := dstPeer, Overwrite := overwrite } false w0 = (.ok reader, w1) ∧
      r = (readPeerResult reader).1 := by
  unfold processScheduleDataToPeer at h
  dsimp only at h
  rcases hmeta : dfstore.GetUrfsMetadataWithContext env (dfstore.New env cfg.Endpoint)
    { Endpoint := endpoint, BucketName := bucketName, ObjectKey := objectKey,
      DstPeer := dstPeer } false w with ⟨mres, w0⟩
  rw [hmeta] at h
  cases mres with
  | error err => cases h
  | ok meta =>
    dsimp only at h
    rcases hget : dfstore.GetUrfsWithContext (dfstore.New env cfg.Endpoint)
      { Endpoint := endpoint, BucketName := bucketName, ObjectKey := objectKey,
        DstPeer := dstPeer, Overwrite := overwrite } false w0 with ⟨res, w1⟩
    rw [hget] at h
    cases res with
    | error err => cases h
    | ok reader =>
      dsimp only at h
      exact ⟨meta, w0, reader, w1, rfl, by assumption,
        checkContentLength_some h⟩

theorem processCheckScheduleTaskStatus_result (env : Env) (cfg : config.DfstoreConfig)
    (endpoint bucketName objectKey dstPeer : GoString) (w : World) (r : PeerResult)
    (h : (processCheckScheduleTaskStatus env cfg endpoint bucketName objectKey dstPeer w).1.1
      = some r) :
    ∃ meta w0 reader w1,
      dfstore.GetUrfsMetadataWithContext env (dfstore.New env cfg.Endpoint)
        { Endpoint := endpoint, BucketName := bucketName, ObjectKey := objectKey,
          DstPeer := dstPeer } false w = (.ok meta, w0) ∧
      dfstore.GetUrfsStatusWithContext (dfstore.New env cfg.Endpoint)
        { Endpoint := endpoint, BucketName := bucketName, ObjectKey := objectKey,
          DstPeer := dstPeer } false w0 = (.ok reader, w1) ∧
      r = (readPeerResult reader).1 := by
  unfold processCheckScheduleTaskStatus at h
  dsimp only at h
  rcases hmeta : dfstore.GetUrfsMetadataWithContext env (dfstore.New env cfg.Endpoint)
    { Endpoint := endpoint, BucketName := bucketName, ObjectKey := objectKey,
      DstPeer := dstPeer } false w with ⟨mres, w0⟩
  rw [hmeta] at h
  cases mres with
  | error err => cases h
  | ok meta =>
    dsimp only at h
    rcases hget : dfstore.GetUrfsStatusWithContext (dfstore.New env cfg.Endpoint)
      { Endpoint := endpoint, BucketName := bucketName, ObjectKey := objectKey,
        DstPeer := dstPeer } false w0 with ⟨res, w1⟩
    rw [hget] at h
    cases res with
    | error err => cases h
    | ok reader =>
      dsimp only at h
      exact ⟨meta, w0, reader, w1, rfl, by assumption,
        checkContentLength_some h⟩

/-- C12. Signed-URL normalisation.  For every string `u`: the normalised
string holds no occurrence of the six bytes `&`; a `u` without the
sequence is returned unchanged; normalising twice equals normalising once;
`u` is made of pieces free of the sequence joined by it, and the normalised
string is these pieces joined by `&`.  And each of the four `process`
functions that returns a result returns it with `SignedUrl` equal to the
normalised `SignedUrl` deserialized from the body of its primary call. -/
theorem SignedUrl_normalisation (u : GoString) :
    ¬ escapedAmpersand <:+: strings.ReplaceAll u escapedAmpersand "&".toList ∧
    (¬ escapedAmpersand <:+: u → strings.ReplaceAll u escapedAmpersand "&".toList = u) ∧
    strings.ReplaceAll (strings.ReplaceAll u escapedAmpersand "&".toList) escapedAmpersand
        "&".toList = strings.ReplaceAll u escapedAmpersand "&".toList ∧
    (∃ pieces : List GoString, pieces ≠ [] ∧ (∀ p ∈ pieces, ¬ escapedAmpersand <:+: p) ∧
      u = escapedAmpersand.intercalate pieces ∧
      strings.ReplaceAll u escapedAmpersand "&".toList = "&".toList.intercalate pieces) ∧
    (∀ (env : Env) (cfg : config.DfstoreConfig) (endpoint bucketName objectKey dstPeer : GoString)
        (overwrite : Bool) (w : World) (r : PeerResult),
      ((processScheduleDataToPeer env cfg endpoint bucketName objectKey dstPeer overwrite
          w).1.1 = some r →
        ∃ meta w0 reader w1,
          dfstore.GetUrfsMetadataWithContext env (dfstore.New env cfg.Endpoint)
            { Endpoint := endpoint, BucketName := bucketName, ObjectKey := objectKey,
              DstPeer := dstPeer } false w = (.ok meta, w0) ∧
          dfstore.GetUrfsWithContext (dfstore.New env cfg.Endpoint)
            { Endpoint := endpoint, BucketName := bucketName, ObjectKey := objectKey,
              DstPeer := dstPeer, Overwrite := overwrite } false w0 = (.ok reader, w1) ∧
          r.SignedUrl = strings.ReplaceAll (deserialized reader).SignedUrl escapedAmpersand
            "&".toList) ∧
      ((processCheckScheduleTaskStatus env cfg endpoint bucketName objectKey dstPeer w).1.1
          = some r →
        ∃ meta w0 reader w1,
          dfstore.GetUrfsMetadataWithContext env (dfstore.New env cfg.Endpoint)
            { Endpoint := endpoint, BucketName := bucketName, ObjectKey := objectKey,
              DstPeer := dstPeer } false w = (.ok meta, w0) ∧
          dfstore.GetUrfsStatusWithContext (dfstore.New env cfg.Endpoint)
            { Endpoint := endpoint, BucketName := bucketName, ObjectKey := objectKey,
              DstPeer := dstPeer } false w0 = (.ok reader, w1) ∧
          r.SignedUrl = strings.ReplaceAll (deserialized reader).SignedUrl escapedAmpersand
            "&".toList) ∧
      ((processScheduleDirToPeer env cfg endpoint bucketName objectKey dstPeer w).1.1 = some r →
        ∃ reader w1,
          dfstore.GetUrfsWithContext (dfstore.New env cfg.Endpoint)
            { Endpoint := endpoint, BucketName := bucketName, ObjectKey := objectKey,
              DstPeer := dstPeer } true w = (.ok reader, w1) ∧
          r.SignedUrl = strings.ReplaceAll (deserialized reader).SignedUrl escapedAmpersand
            "&".toList) ∧
      ((processCheckScheduleDirTaskStatus env cfg endpoint bucketName objectKey dstPeer w).1.1
          = some r →
        ∃ reader w1,
          dfstore.GetUrfsStatusWithContext (dfstore.New env cfg.Endpoint)
            { Endpoint := endpoint, BucketName := bucketName, ObjectKey := objectKey,
              DstPeer := dstPeer } true w = (.ok reader, w1) ∧
          r.SignedUrl = strings.ReplaceAll (deserialized reader).SignedUrl escapedAmpersand
            "&".toList)) := by
  have hnot : ∀ s : GoString,
      ¬ escapedAmpersand <:+: strings.ReplaceAll s escapedAmpersand "&".toList := fun s =>
    strings.not_infix_ReplaceAll (h := '\\') (a := '&') (t := ['u', '0', '0', '2', '6'])
      (by decide) (by decide) s.length s (Nat.le_refl _)
  have hsame : ∀ s : GoString, ¬ escapedAmpersand <:+: s →
      strings.ReplaceAll s escapedAmpersand "&".toList = s := fun s =>
    strings.ReplaceAll_of_not_infix (by decide) s
  refine ⟨hnot u, hsame u, hsame _ (hnot u), ?_, ?_⟩
  · obtain ⟨pieces, hne, hfree, hu⟩ :=
      @strings.exists_pieces escapedAmpersand (by decide) u.length u (Nat.le_refl _)
    refine ⟨pieces, hne, hfree, hu, ?_⟩
    rw [hu]
    exact strings.ReplaceAll_intercalate (h := '\\') (t := ['u', '0', '0', '2', '6'])
      (by decide) pieces hne hfree
  · intro env cfg endpoint bucketName objectKey dstPeer overwrite w r
    refine ⟨?_, ?_, ?_, ?_⟩
    · intro h
      obtain ⟨meta, w0, reader, w1, h1, h2, rfl⟩ :=
        processScheduleDataToPeer_result env cfg endpoint bucketName objectKey dstPeer
          overwrite w r h
      exact ⟨meta, w0, reader, w1, h1, h2, readPeerResult_SignedUrl reader⟩
    · intro h
      obtain ⟨meta, w0, reader, w1, h1, h2, rfl⟩ :=
        processCheckScheduleTaskStatus_result env cfg endpoint bucketName objectKey dstPeer w r h
      exact ⟨meta, w0, reader, w1, h1, h2, readPeerResult_SignedUrl reader⟩
    · intro h
      obtain ⟨reader, w1, h1, rfl⟩ :=
        processScheduleDirToPeer_result env cfg endpoint bucketName objectKey dstPeer w r h
      exact ⟨reader, w1, h1, readPeerResult_SignedUrl reader⟩
    · intro h
      obtain ⟨reader, w1, h1, rfl⟩ :=
        processCheckScheduleDirTaskStatus_result env cfg endpoint bucketName objectKey dstPeer
          w r h
      exact ⟨reader, w1, h1, readPeerResult_SignedUrl reader⟩

/-- Witness of C12: the escaped ampersand of `https://s/o?a=1&b=2` is
replaced, and the string returned holds the sequence no more. -/
theorem SignedUrl_normalisation_witness :
    strings.ReplaceAll ("https://s/o?a=1".toList ++ escapedAmpersand ++ "b=2".toList)
        escapedAmpersand "&".toList = "https://s/o?a=1&b=2".toList ∧
      ¬ escapedAmpersand <:+:
        strings.ReplaceAll ("https://s/o?a=1".toList ++ escapedAmpersand ++ "b=2".toList)
          escapedAmpersand "&".toList :=
  ⟨by decide,
    (SignedUrl_normalisation ("https://s/o?a=1".toList ++ escapedAmpersand ++ "b=2".toList)).1⟩


/-! ## The claims on validation and on the status class -/

theorem GetUrfsMetadataInput_Validate_error {i : dfstore.GetUrfsMetadataInput}
    (h : i.Endpoint = [] ∨ i.BucketName = [] ∨ i.ObjectKey = []) :
    ∃ err, i.Validate = some err := by
  unfold dfstore.GetUrfsMetadataInput.Validate
  by_cases h1 : i.Endpoint = []
  · exact ⟨_, if_pos h1⟩
  · rw [if_neg h1]
    by_cases h2 : i.BucketName = []
    · exact ⟨_, if_pos h2⟩
    · rw [if_neg h2]
      by_cases h3 : i.ObjectKey = []
      · exact ⟨_, if_pos h3⟩
      · rcases h with h | h | h
        · exact absurd h h1
        · exact absurd h h2
        · exact absurd h h3

theorem GetUrfsInput_Validate_error {i : dfstore.GetUrfsInput}
    (h : i.Endpoint = [] ∨ i.BucketName = [] ∨ i.ObjectKey = []) :
    ∃ err, i.Validate = some err := by
  unfold dfstore.GetUrfsInput.Validate
  by_cases h1 : i.Endpoint = []
  · exact ⟨_, if_pos h1⟩
  · rw [if_neg h1]
    by_cases h2 : i.BucketName = []
    · exact ⟨_, if_pos h2⟩
    · rw [if_neg h2]
      by_cases h3 : i.ObjectKey = []
      · exact ⟨_, if_pos h3⟩
      · rcases h with h | h | h
        · exact absurd h h1
        · exact absurd h h2
        · exact absurd h h3

theorem GetUrfsMetadataInput_Validate_ok {i : dfstore.GetUrfsMetadataInput}
    (h1 : i.Endpoint ≠ []) (h2 : i.BucketName ≠ []) (h3 : i.ObjectKey ≠ []) :
    i.Validate = none := by
  unfold dfstore.GetUrfsMetadataInput.Validate
  rw [if_neg h1, if_neg h2, if_neg h3]

theorem GetUrfsInput_Validate_ok {i : dfstore.GetUrfsInput}
    (h1 : i.Endpoint ≠ []) (h2 : i.BucketName ≠ []) (h3 : i.ObjectKey ≠ []) :
    i.Validate = none := by
  unfold dfstore.GetUrfsInput.Validate
  rw [if_neg h1, if_neg h2, if_neg h3]

/-- C5. An input whose `Endpoint`, `BucketName` or `ObjectKey` is empty fails
`Validate`; each of the three request builders then returns no request and
that error, for both values of `isDir` and whatever the other fields are, and
the three calls return the error without handing any request to the HTTP
client (the world is unchanged).  Conversely `Validate` returns nil when the
three fields are non-empty. -/
theorem empty_component_fails_validation (env : Env) (dfs : dfstore.dfstore)
    (mi : dfstore.GetUrfsMetadataInput) (i : dfstore.GetUrfsInput) (isDir : Bool) (w : World) :
    ((mi.Endpoint = [] ∨ mi.BucketName = [] ∨ mi.ObjectKey = []) →
      ∃ err, mi.Validate = some err ∧
        dfstore.GetUrfsMetadataRequestWithContext mi isDir = .error err ∧
        dfstore.GetUrfsMetadataWithContext env dfs mi isDir w = (.error err, w)) ∧
    ((i.Endpoint = [] ∨ i.BucketName = [] ∨ i.ObjectKey = []) →
      ∃ err, i.Validate = some err ∧
        dfstore.GetUrfsRequestWithContext i isDir = .error err ∧
        dfstore.GetUrfsStatusRequestWithContext i isDir = .error err ∧
        dfstore.GetUrfsWithContext dfs i isDir w = (.error err, w) ∧
        dfstore.GetUrfsStatusWithContext dfs i isDir w = (.error err, w)) ∧
    ((mi.Endpoint ≠ [] ∧ mi.BucketName ≠ [] ∧ mi.ObjectKey ≠ []) → mi.Validate = none) ∧
    ((i.Endpoint ≠ [] ∧ i.BucketName ≠ [] ∧ i.ObjectKey ≠ []) → i.Validate = none) := by
  refine ⟨?_, ?_, ?_, ?_⟩
  · intro h
    obtain ⟨err, herr⟩ := GetUrfsMetadataInput_Validate_error h
    have hreq : dfstore.GetUrfsMetadataRequestWithContext mi isDir = .error err := by
      rw [GetUrfsMetadataRequestWithContext_eq, herr]
    refine ⟨err, herr, hreq, ?_⟩
    unfold dfstore.GetUrfsMetadataWithContext
    rw [hreq]
  · intro h
    obtain ⟨err, herr⟩ := GetUrfsInput_Validate_error h
    have hreq : dfstore.GetUrfsRequestWithContext i isDir = .error err := by
      rw [GetUrfsRequestWithContext_eq, herr]
    have hreq2 : dfstore.GetUrfsStatusRequestWithContext i isDir = .error err := by
      rw [GetUrfsStatusRequestWithContext_eq, herr]
    refine ⟨err, herr, hreq, hreq2, ?_, ?_⟩
    · unfold dfstore.GetUrfsWithContext
      rw [hreq]
    · unfold dfstore.GetUrfsStatusWithContext
      rw [hreq2]
  · rintro ⟨h1, h2, h3⟩
    exact GetUrfsMetadataInput_Validate_ok h1 h2 h3
  · rintro ⟨h1, h2, h3⟩
    exact GetUrfsInput_Validate_ok h1 h2 h3

/-- Witness of C5: with an empty bucket name the fetch call returns the
error `invalid BucketName` and sends nothing. -/
theorem empty_component_fails_validation_witness :
    ∃ err, dfstore.GetUrfsInput.Validate { exampleInput with BucketName := [] } = some err ∧
      dfstore.GetUrfsRequestWithContext { exampleInput with BucketName := [] } false
        = .error err ∧
      dfstore.GetUrfsStatusRequestWithContext { exampleInput with BucketName := [] } false
        = .error err ∧
      dfstore.GetUrfsWithContext (dfstore.New oddLengthEnv []) { exampleInput with BucketName := [] }
        false {} = (.error err, {}) ∧
      dfstore.GetUrfsStatusWithContext (dfstore.New oddLengthEnv [])
        { exampleInput with BucketName := [] } false {} = (.error err, {}) :=
  (empty_component_fails_validation oddLengthEnv (dfstore.New oddLengthEnv [])
    exampleMetadataInput { exampleInput with BucketName := [] } false {}).2.1 (Or.inr (Or.inl rfl))


/-- Go's `StatusCode/100 == 2` holds exactly for the codes 200 to 299. -/
theorem tdiv_100_eq_2 (c : Int) : Int.tdiv c 100 = 2 ↔ 200 ≤ c ∧ c ≤ 299 := by
  by_cases hc : 0 ≤ c
  · rw [Int.tdiv_eq_ediv hc (by decide)]
    omega
  · have h1 : Int.tdiv c 100 ≤ 0 := by
      have h2 : 0 ≤ Int.tdiv (-c) 100 := Int.tdiv_nonneg (by omega) (by decide)
      rw [Int.neg_tdiv] at h2
      omega
    constructor
    · intro h; omega
    · intro h; omega

/-- An error of `strconv.ParseInt` is a `*strconv.NumError`. -/
theorem ParseInt_error {s : GoString} {err : GoError} (h : strconv.ParseInt s = .error err) :
    ∃ fn num msg, err = .Num fn num msg := by
  unfold strconv.ParseInt at h
  split at h
  · cases h; exact ⟨_, _, _, rfl⟩
  · dsimp only at h
    repeat' split at h
    all_goals first | (cases h; exact ⟨_, _, _, rfl⟩) | cases h

/-- `GetUrfsMetadataWithContext` once the request is built and answered. -/
theorem GetUrfsMetadataWithContext_of_response {env : Env} {dfs : dfstore.dfstore}
    {input : dfstore.GetUrfsMetadataInput} {isDir : Bool} {req : http.Request}
    {resp : http.Response Content} (w : World)
    (hreq : dfstore.GetUrfsMetadataRequestWithContext input isDir = .ok req)
    (hdo : dfs.httpClient req = .ok resp) :
    dfstore.GetUrfsMetadataWithContext env dfs input isDir w =
      (if Int.tdiv resp.StatusCode 100 ≠ 2 then .error (dfstore.badStatus resp.Status)
        else
          match strconv.ParseInt (resp.Header.Get headers.ContentLength) with
          | .error err => .error err
          | .ok contentLength =>
            .ok { ContentDisposition := resp.Header.Get headers.ContentDisposition,
                  ContentEncoding := resp.Header.Get headers.ContentEncoding,
                  ContentLanguage := resp.Header.Get headers.ContentLanguage,
                  ContentLength := contentLength,
                  ContentType := resp.Header.Get headers.ContentType,
                  ETag := resp.Header.Get headers.ContentType,
                  Digest := resp.Header.Get env.HeaderDragonflyObjectMetaDigest },
        { sent := w.sent ++ [req], received := w.received ++ [resp.Body.id],
          closed := w.closed ++ [resp.Body.id] }) := by
  unfold dfstore.GetUrfsMetadataWithContext World.Do
  rw [hreq]
  dsimp only
  rw [hdo]
  dsimp only
  by_cases hc : Int.tdiv resp.StatusCode 100 ≠ 2
  · rw [if_pos hc, if_pos hc]
    rfl
  · rw [if_neg hc, if_neg hc]
    cases strconv.ParseInt (resp.Header.Get headers.ContentLength) <;> rfl

theorem GetUrfsMetadataWithContext_bad_status_iff {env : Env} {dfs : dfstore.dfstore}
    {input : dfstore.GetUrfsMetadataInput} {isDir : Bool} {req : http.Request}
    {resp : http.Response Content} (w : World)
    (hreq : dfstore.GetUrfsMetadataRequestWithContext input isDir = .ok req)
    (hdo : dfs.httpClient req = .ok resp) :
    (dfstore.GetUrfsMetadataWithContext env dfs input isDir w).1 =
        .error (dfstore.badStatus resp.Status) ↔ Int.tdiv resp.StatusCode 100 ≠ 2 := by
  rw [GetUrfsMetadataWithContext_of_response w hreq hdo]
  dsimp only
  by_cases hc : Int.tdiv resp.StatusCode 100 ≠ 2
  · rw [if_pos hc]
    exact ⟨fun _ => hc, fun _ => rfl⟩
  · rw [if_neg hc]
    refine ⟨fun h => ?_, fun h => absurd h hc⟩
    cases hp : strconv.ParseInt (resp.Header.Get headers.ContentLength) with
    | error err =>
      rw [hp] at h
      obtain ⟨fn, num, msg, rfl⟩ := ParseInt_error hp
      cases h
    | ok n =>
      rw [hp] at h
      cases h

theorem GetUrfsWithContext_bad_status_iff {dfs : dfstore.dfstore}
    {input : dfstore.GetUrfsInput} {isDir : Bool} {req : http.Request}
    {resp : http.Response Content} (w : World)
    (hreq : dfstore.GetUrfsRequestWithContext input isDir = .ok req)
    (hdo : dfs.httpClient req = .ok resp) :
    (dfstore.GetUrfsWithContext dfs input isDir w).1 =
        .error (dfstore.badStatus resp.Status) ↔ Int.tdiv resp.StatusCode 100 ≠ 2 := by
  rw [GetUrfsWithContext_of_request w hreq, hdo]
  dsimp only
  by_cases hc : Int.tdiv resp.StatusCode 100 ≠ 2
  · rw [if_pos hc]
    exact ⟨fun _ => hc, fun _ => rfl⟩
  · rw [if_neg hc]
    exact ⟨fun h => (by cases h), fun h => absurd h hc⟩

theorem GetUrfsStatusWithContext_bad_status_iff {dfs : dfstore.dfstore}
    {input : dfstore.GetUrfsInput} {isDir : Bool} {req : http.Request}
    {resp : http.Response Content} (w : World)
    (hreq : dfstore.GetUrfsStatusRequestWithContext input isDir = .ok req)
    (hdo : dfs.httpClient req = .ok resp) :
    (dfstore.GetUrfsStatusWithContext dfs input isDir w).1 =
        .error (dfstore.badStatus resp.Status) ↔ Int.tdiv resp.StatusCode 100 ≠ 2 := by
  rw [GetUrfsStatusWithContext_of_request w hreq, hdo]
  dsimp only
  by_cases hc : Int.tdiv resp.StatusCode 100 ≠ 2
  · rw [if_pos hc]
    exact ⟨fun _ => hc, fun _ => rfl⟩
  · rw [if_neg hc]
    exact ⟨fun h => (by cases h), fun h => absurd h hc⟩

theorem processScheduleDataToPeer_of_meta_error {env : Env} {cfg : config.DfstoreConfig}
    {endpoint bucketName objectKey dstPeer : GoString} {overwrite : Bool} {w w1 : World}
    {err : GoError}
    (h : dfstore.GetUrfsMetadataWithContext env (dfstore.New env cfg.Endpoint)
      { Endpoint := endpoint, BucketName := bucketName, ObjectKey := objectKey,
        DstPeer := dstPeer } false w = (.error err, w1)) :
    processScheduleDataToPeer env cfg endpoint bucketName objectKey dstPeer overwrite w =
      ((none, some err), w1) := by
  unfold processScheduleDataToPeer
  dsimp only
  rw [h]

theorem processCheckScheduleTaskStatus_of_meta_error {env : Env} {cfg : config.DfstoreConfig}
    {endpoint bucketName objectKey dstPeer : GoString} {w w1 : World} {err : GoError}
    (h : dfstore.GetUrfsMetadataWithContext env (dfstore.New env cfg.Endpoint)
      { Endpoint := endpoint, BucketName := bucketName, ObjectKey := objectKey,
        DstPeer := dstPeer } false w = (.error err, w1)) :
    processCheckScheduleTaskStatus env cfg endpoint bucketName objectKey dstPeer w =
      ((none, some err), w1) := by
  unfold processCheckScheduleTaskStatus
  dsimp only
  rw [h]

theorem processScheduleDataToPeer_of_get {env : Env} {cfg : config.DfstoreConfig}
    {endpoint bucketName objectKey dstPeer : GoString} {overwrite : Bool} {w w0 : World}
    {meta : objectstorage.ObjectMetadata}
    (hmeta : dfstore.GetUrfsMetadataWithContext env (dfstore.New env cfg.Endpoint)
      { Endpoint := endpoint, BucketName := bucketName, ObjectKey := objectKey,
        DstPeer := dstPeer } false w = (.ok meta, w0)) :
    processScheduleDataToPeer env cfg endpoint bucketName objectKey dstPeer overwrite w =
      match dfstore.GetUrfsWithContext (dfstore.New env cfg.Endpoint)
        { Endpoint := endpoint, BucketName := bucketName, ObjectKey := objectKey,
          DstPeer := dstPeer, Overwrite := overwrite } false w0 with
      | (.error err, w1) => ((none, some err), w1)
      | (.ok reader, w1) => (checkContentLength (readPeerResult reader).1 meta, w1.Close reader) := by
  unfold processScheduleDataToPeer
  dsimp only
  rw [hmeta]

theorem processCheckScheduleTaskStatus_of_get {env : Env} {cfg : config.DfstoreConfig}
    {endpoint bucketName objectKey dstPeer : GoString} {w w0 : World}
    {meta : objectstorage.ObjectMetadata}
    (hmeta : dfstore.GetUrfsMetadataWithContext env (dfstore.New env cfg.Endpoint)
      { Endpoint := endpoint, BucketName := bucketName, ObjectKey := objectKey,
        DstPeer := dstPeer } false w = (.ok meta, w0)) :
    processCheckScheduleTaskStatus env cfg endpoint bucketName objectKey dstPeer w =
      match dfstore.GetUrfsStatusWithContext (dfstore.New env cfg.Endpoint)
        { Endpoint := endpoint, BucketName := bucketName, ObjectKey := objectKey,
          DstPeer := dstPeer } false w0 with
      | (.error err, w1) => ((none, some err), w1)
      | (.ok reader, w1) => (checkContentLength (readPeerResult reader).1 meta, w1.Close reader) := by
  unfold processCheckScheduleTaskStatus
  dsimp only
  rw [hmeta]

/-- C8. When the HTTP client answers the request of a call with a response,
each of `GetUrfsMetadataWithContext`, `GetUrfsWithContext` and
`GetUrfsStatusWithContext` returns the error `bad response status <status>`
(and no result) if and only if `StatusCode/100 != 2`, that is if and only if
the code is outside 200..299, whatever the body and the headers are.  And
an error of a call is returned unchanged by the `process` function and by
the public operation built on it. -/
theorem non_2xx_status_fails (env : Env) (cfg : config.DfstoreConfig)
    (mi : dfstore.GetUrfsMetadataInput) (i : dfstore.GetUrfsInput) (isDir : Bool)
    (w : World) (req : http.Request) (resp : http.Response Content)
    (hdo : env.DefaultClient req = .ok resp) :
    (Int.tdiv resp.StatusCode 100 ≠ 2 ↔ ¬ (200 ≤ resp.StatusCode ∧ resp.StatusCode ≤ 299)) ∧
    (dfstore.GetUrfsMetadataRequestWithContext mi isDir = .ok req →
      ((dfstore.GetUrfsMetadataWithContext env (dfstore.New env cfg.Endpoint) mi isDir w).1 =
          .error (dfstore.badStatus resp.Status) ↔ Int.tdiv resp.StatusCode 100 ≠ 2)) ∧
    (dfstore.GetUrfsRequestWithContext i isDir = .ok req →
      ((dfstore.GetUrfsWithContext (dfstore.New env cfg.Endpoint) i isDir w).1 =
          .error (dfstore.badStatus resp.Status) ↔ Int.tdiv resp.StatusCode 100 ≠ 2)) ∧
    (dfstore.GetUrfsStatusRequestWithContext i isDir = .ok req →
      ((dfstore.GetUrfsStatusWithContext (dfstore.New env cfg.Endpoint) i isDir w).1 =
          .error (dfstore.badStatus resp.Status) ↔ Int.tdiv resp.StatusCode 100 ≠ 2)) ∧
    (∀ (endpoint bucketName objectKey dstPeer : GoString) (overwrite : Bool) (err : GoError)
        (w1 : World),
      (dfstore.GetUrfsMetadataWithContext env (dfstore.New env cfg.Endpoint)
          { Endpoint := endpoint, BucketName := bucketName, ObjectKey := objectKey,
            DstPeer := dstPeer } false w = (.error err, w1) →
        urchinfs.ScheduleDataToPeerByKey ⟨cfg⟩ env endpoint bucketName objectKey dstPeer
            overwrite w = ((none, some err), w1) ∧
        urchinfs.CheckScheduleTaskStatusByKey ⟨cfg⟩ env endpoint bucketName objectKey dstPeer w
          = ((none, some err), w1)) ∧
      (∀ (meta : objectstorage.ObjectMetadata) (w0 : World),
        dfstore.GetUrfsMetadataWithContext env (dfstore.New env cfg.Endpoint)
          { Endpoint := endpoint, BucketName := bucketName, ObjectKey := objectKey,
            DstPeer := dstPeer } false w = (.ok meta, w0) →
        (dfstore.GetUrfsWithContext (dfstore.New env cfg.Endpoint)
            { Endpoint := endpoint, BucketName := bucketName, ObjectKey := objectKey,
              DstPeer := dstPeer, Overwrite := overwrite } false w0 = (.error err, w1) →
          urchinfs.ScheduleDataToPeerByKey ⟨cfg⟩ env endpoint bucketName objectKey dstPeer
            overwrite w = ((none, some err), w1)) ∧
        (dfstore.GetUrfsStatusWithContext (dfstore.New env cfg.Endpoint)
            { Endpoint := endpoint, BucketName := bucketName, ObjectKey := objectKey,
              DstPeer := dstPeer } false w0 = (.error err, w1) →
          urchinfs.CheckScheduleTaskStatusByKey ⟨cfg⟩ env endpoint bucketName objectKey dstPeer
            w = ((none, some err), w1))) ∧
      (dfstore.GetUrfsWithContext (dfstore.New env cfg.Endpoint)
          { Endpoint := endpoint, BucketName := bucketName, ObjectKey := objectKey,
            DstPeer := dstPeer } true w = (.error err, w1) →
        urchinfs.ScheduleDirToPeerByKey ⟨cfg⟩ env endpoint bucketName objectKey dstPeer w =
          ((none, some err), w1)) ∧
      (dfstore.GetUrfsStatusWithContext (dfstore.New env cfg.Endpoint)
          { Endpoint := endpoint, BucketName := bucketName, ObjectKey := objectKey,
            DstPeer := dstPeer } true w = (.error err, w1) →
        urchinfs.CheckScheduleDirTaskStatusByKey ⟨cfg⟩ env endpoint bucketName objectKey dstPeer
          w = ((none, some err), w1))) := by
  have hdo' : (dfstore.New env cfg.Endpoint).httpClient req = .ok resp := hdo
  refine ⟨?_, ?_, ?_, ?_, ?_⟩
  · rw [Ne, tdiv_100_eq_2]
  · intro hreq
    exact GetUrfsMetadataWithContext_bad_status_iff w hreq hdo'
  · intro hreq
    exact GetUrfsWithContext_bad_status_iff w hreq hdo'
  · intro hreq
    exact GetUrfsStatusWithContext_bad_status_iff w hreq hdo'
  · intro endpoint bucketName objectKey dstPeer overwrite err w1
    refine ⟨?_, ?_, ?_, ?_⟩
    · intro h
      constructor
      · unfold urchinfs.ScheduleDataToPeerByKey
        rw [processScheduleDataToPeer_of_meta_error h]
        rfl
      · unfold urchinfs.CheckScheduleTaskStatusByKey
        rw [processCheckScheduleTaskStatus_of_meta_error h]
        rfl
    · intro meta w0 hmeta
      constructor
      · intro h
        unfold urchinfs.ScheduleDataToPeerByKey
        rw [processScheduleDataToPeer_of_get hmeta, h]
        rfl
      · intro h
        unfold urchinfs.CheckScheduleTaskStatusByKey
        rw [processCheckScheduleTaskStatus_of_get hmeta, h]
        rfl
    · intro h
      unfold urchinfs.ScheduleDirToPeerByKey processScheduleDirToPeer
      dsimp only
      rw [h]
      rfl
    · intro h
      unfold urchinfs.CheckScheduleDirTaskStatusByKey processCheckScheduleDirTaskStatus
      dsimp only
      rw [h]
      rfl

/-- Witness of C8: the answer `404 Not Found` to the fetch request makes
`GetUrfsWithContext` return `bad response status 404 Not Found`. -/
theorem non_2xx_status_fails_witness :
    (dfstore.GetUrfsWithContext
        (dfstore.New (scriptedEnv (.ok (metaResponse "1024".toList)) (.ok notFoundResponse))
          New.cfg.Endpoint) exampleInput false {}).1 =
      .error (dfstore.badStatus notFoundResponse.Status) :=
  ((non_2xx_status_fails (scriptedEnv (.ok (metaResponse "1024".toList)) (.ok notFoundResponse))
      New.cfg exampleMetadataInput exampleInput false {}
      { Method := http.MethodPost,
        URL := { Scheme := "http".toList, Host := "10.0.0.1:9000".toList,
                 Path := "/buckets/cache.obs.example.com/cache_object/a/b.txt".toList },
        Header := [], Host := "10.0.0.1:9000".toList }
      notFoundResponse rfl).2.2.1 (by decide)).mpr (by decide)


/-! ## The claims on the content-length cross-check -/

/-- The end of the file variants, case by case. -/
theorem checkContentLength_iff (pr : PeerResult) (meta : objectstorage.ObjectMetadata) :
    (checkContentLength pr meta = (some pr, none) ↔
      strconv.ParseInt pr.ContentLength = .ok meta.ContentLength) ∧
    (∀ n, strconv.ParseInt pr.ContentLength = .ok n → n ≠ meta.ContentLength →
      checkContentLength pr meta =
        (none, some (.New "content length inconsistent with meta".toList))) ∧
    (∀ err, strconv.ParseInt pr.ContentLength = .error err →
      checkContentLength pr meta = (none, some err)) := by
  unfold checkContentLength
  cases hp : strconv.ParseInt pr.ContentLength with
  | error err =>
    refine ⟨⟨?_, ?_⟩, ?_, ?_⟩
    · intro h; cases h
    · intro h; cases h
    · intro n h; cases h
    · intro err2 h
      cases h
      rfl
  | ok n =>
    dsimp only
    by_cases hn : n ≠ meta.ContentLength
    · rw [if_pos hn]
      refine ⟨⟨?_, ?_⟩, ?_, ?_⟩
      · intro h; cases h
      · intro h
        exact absurd (Except.ok.inj h) hn
      · intro m _ _; rfl
      · intro err h; cases h
    · rw [if_neg hn]
      refine ⟨⟨?_, ?_⟩, ?_, ?_⟩
      · intro _
        rw [not_not.mp hn]
      · intro _; rfl
      · intro m h hm
        rw [← Except.ok.inj h] at hm
        exact absurd hm hn
      · intro err h; cases h

/-- C9. Content-length cross-check of the file variants.  After a successful
metadata call with content length `meta.ContentLength` and a successful
primary call whose body is read and deserialized without error into `r`,
`processScheduleDataToPeer` and `processCheckScheduleTaskStatus` return `r`
(its `SignedUrl` normalised) without error if and only if `r.ContentLength`
parses as a base-10 64-bit integer equal to `meta.ContentLength`; when it
parses to another value they return no result and the error `content length
inconsistent with meta`, and when it does not parse they return no result
and the error of `strconv.ParseInt`. -/
theorem content_length_cross_check (env : Env) (cfg : config.DfstoreConfig)
    (endpoint bucketName objectKey dstPeer : GoString) (overwrite : Bool) (w w0 w1 : World)
    (meta : objectstorage.ObjectMetadata) (reader : http.ReadCloser Content) (r : PeerResult)
    (hmeta : dfstore.GetUrfsMetadataWithContext env (dfstore.New env cfg.Endpoint)
      { Endpoint := endpoint, BucketName := bucketName, ObjectKey := objectKey,
        DstPeer := dstPeer } false w = (.ok meta, w0))
    (hread : reader.readErr = none) (hjson : json.Unmarshal reader.content {} = (r, none)) :
    (dfstore.GetUrfsWithContext (dfstore.New env cfg.Endpoint)
        { Endpoint := endpoint, BucketName := bucketName, ObjectKey := objectKey,
          DstPeer := dstPeer, Overwrite := overwrite } false w0 = (.ok reader, w1) →
      ((processScheduleDataToPeer env cfg endpoint bucketName objectKey dstPeer overwrite w).1 =
          (some { r with
            SignedUrl := strings.ReplaceAll r.SignedUrl escapedAmpersand "&".toList }, none) ↔
        strconv.ParseInt r.ContentLength = .ok meta.ContentLength) ∧
      (∀ n, strconv.ParseInt r.ContentLength = .ok n → n ≠ meta.ContentLength →
        (processScheduleDataToPeer env cfg endpoint bucketName objectKey dstPeer overwrite
          w).1 = (none, some (.New "content length inconsistent with meta".toList))) ∧
      (∀ err, strconv.ParseInt r.ContentLength = .error err →
        (processScheduleDataToPeer env cfg endpoint bucketName objectKey dstPeer overwrite
          w).1 = (none, some err))) ∧
    (dfstore.GetUrfsStatusWithContext (dfstore.New env cfg.Endpoint)
        { Endpoint := endpoint, BucketName := bucketName, ObjectKey := objectKey,
          DstPeer := dstPeer } false w0 = (.ok reader, w1) →
      ((processCheckScheduleTaskStatus env cfg endpoint bucketName objectKey dstPeer w).1 =
          (some { r with
            SignedUrl := strings.ReplaceAll r.SignedUrl escapedAmpersand "&".toList }, none) ↔
        strconv.ParseInt r.ContentLength = .ok meta.ContentLength) ∧
      (∀ n, strconv.ParseInt r.ContentLength = .ok n → n ≠ meta.ContentLength →
        (processCheckScheduleTaskStatus env cfg endpoint bucketName objectKey dstPeer w).1 =
          (none, some (.New "content length inconsistent with meta".toList))) ∧
      (∀ err, strconv.ParseInt r.ContentLength = .error err →
        (processCheckScheduleTaskStatus env cfg endpoint bucketName objectKey dstPeer w).1 =
          (none, some err))) := by
  have hpr := readPeerResult_of_ok hread hjson
  have hck := checkContentLength_iff
    { r with SignedUrl := strings.ReplaceAll r.SignedUrl escapedAmpersand "&".toList } meta
  constructor
  · intro hget
    rw [processScheduleDataToPeer_of_get hmeta, hget]
    dsimp only
    rw [hpr]
    exact hck
  · intro hget
    rw [processCheckScheduleTaskStatus_of_get hmeta, hget]
    dsimp only
    rw [hpr]
    exact hck

/-- Witness of C9: with the metadata content length 1024, a body declaring
`"Content-Length":"1024"` makes the schedule operation return the result, and
a body declaring `"2048"` makes it fail with the consistency error. -/
theorem content_length_cross_check_witness :
    (processScheduleDataToPeer (bodyEnv (lengthBody "1024".toList)) New.cfg
        "obs.example.com".toList "cache".toList "a/b.txt".toList "10.0.0.1:9000".toList
        false {}).1 = (some { ContentLength := "1024".toList }, none) ∧
    (processScheduleDataToPeer (bodyEnv (lengthBody "2048".toList)) New.cfg
        "obs.example.com".toList "cache".toList "a/b.txt".toList "10.0.0.1:9000".toList
        false {}).1 = (none, some (.New "content length inconsistent with meta".toList)) :=
  ⟨(((content_length_cross_check (bodyEnv (lengthBody "1024".toList)) New.cfg
        "obs.example.com".toList "cache".toList "a/b.txt".toList "10.0.0.1:9000".toList
        false {}
        (dfstore.GetUrfsMetadataWithContext (bodyEnv (lengthBody "1024".toList))
          (dfstore.New (bodyEnv (lengthBody "1024".toList)) New.cfg.Endpoint)
          exampleMetadataInput false {}).2
        (dfstore.GetUrfsWithContext
          (dfstore.New (bodyEnv (lengthBody "1024".toList)) New.cfg.Endpoint)
          exampleInput false
          (dfstore.GetUrfsMetadataWithContext (bodyEnv (lengthBody "1024".toList))
            (dfstore.New (bodyEnv (lengthBody "1024".toList)) New.cfg.Endpoint)
            exampleMetadataInput false {}).2).2
        { ContentLength := 1024, ContentType := "text/plain".toList,
          ETag := "text/plain".toList }
        ⟨2, lengthBody "1024".toList, none⟩ { ContentLength := "1024".toList }
        (by decide) rfl rfl).1 rfl).1.mpr (by decide)).trans (by decide),
   ((content_length_cross_check (bodyEnv (lengthBody "2048".toList)) New.cfg
        "obs.example.com".toList "cache".toList "a/b.txt".toList "10.0.0.1:9000".toList
        false {}
        (dfstore.GetUrfsMetadataWithContext (bodyEnv (lengthBody "2048".toList))
          (dfstore.New (bodyEnv (lengthBody "2048".toList)) New.cfg.Endpoint)
          exampleMetadataInput false {}).2
        (dfstore.GetUrfsWithContext
          (dfstore.New (bodyEnv (lengthBody "2048".toList)) New.cfg.Endpoint)
          exampleInput false
          (dfstore.GetUrfsMetadataWithContext (bodyEnv (lengthBody "2048".toList))
            (dfstore.New (bodyEnv (lengthBody "2048".toList)) New.cfg.Endpoint)
            exampleMetadataInput false {}).2).2
        { ContentLength := 1024, ContentType := "text/plain".toList,
          ETag := "text/plain".toList }
        ⟨2, lengthBody "2048".toList, none⟩ { ContentLength := "2048".toList }
        (by decide) rfl rfl).1 rfl).2.1 2048 (by decide) (by decide)⟩

/-- C10 (code bug). With the metadata content length 1024 and the body
`typeErrorBody`, `json.Unmarshal` reports an error (the string `"x"` does not
fit the field `StatusCode` of type `int`), and yet `ScheduleDataToPeer`,
`CheckScheduleTaskStatus` and the operations by key return a result and a nil
error; the directory operation, on the same body, returns the error and no
result. -/
theorem unmarshal_error_is_lost :
    (json.Unmarshal typeErrorBody {}).2 =
      some (json.typeError (.string "x".toList) "int".toList) ∧
    (New.ScheduleDataToPeer (bodyEnv typeErrorBody)
        "urfs://obs.example.com/cache/a/b.txt".toList "10.0.0.1:9000".toList {}).1 =
      (some { ContentLength := "1024".toList }, none) ∧
    (New.CheckScheduleTaskStatus (bodyEnv typeErrorBody)
        "urfs://obs.example.com/cache/a/b.txt".toList "10.0.0.1:9000".toList {}).1 =
      (some { ContentLength := "1024".toList }, none) ∧
    (processScheduleDataToPeer (bodyEnv typeErrorBody) New.cfg "obs.example.com".toList
        "cache".toList "a/b.txt".toList "10.0.0.1:9000".toList false {}).1 =
      (some { ContentLength := "1024".toList }, none) ∧
    (processCheckScheduleTaskStatus (bodyEnv typeErrorBody) New.cfg "obs.example.com".toList
        "cache".toList "a/b.txt".toList "10.0.0.1:9000".toList {}).1 =
      (some { ContentLength := "1024".toList }, none) ∧
    (New.ScheduleDirToPeerByKey (bodyEnv typeErrorBody) "obs.example.com".toList
        "cache".toList "a/b.txt".toList "10.0.0.1:9000".toList {}).1 =
      (none, some (json.typeError (.string "x".toList) "int".toList)) := by
  decide


/-! ## The claims on the locator URL -/

theorem Cut_of_mem {s : GoString} {sep : Char} (h : sep ∈ s) :
    ∃ b k, strings.Cut s sep = (b, k, true) := by
  rcases hc : strings.Cut s sep with ⟨b, k, f⟩
  cases f
  · exact absurd h (strings.Cut_not_found hc).1
  · exact ⟨b, k, rfl⟩

/-- C4 (amended). For every URL with scheme `urfs`, a non-empty host and a
non-empty path: when the path, its leading and trailing slashes trimmed,
still holds a slash (at least two segments), `parseUrfsURL` succeeds and
returns the host, the text before the first slash as the bucket and the text
after it as the key, both non-empty; when the trimmed path holds no slash
(one segment or none) it fails with the error `invalid bucket and object key`. -/
theorem parseUrfsURL_needs_two_segments (rawURL : GoString) (u : url.URL)
    (hp : url.ParseRequestURI rawURL = .ok u) (hs : u.Scheme = UrfsScheme)
    (hh : u.Host ≠ []) (hpath : u.Path ≠ []) :
    ('/' ∈ strings.Trim u.Path "/".toList →
      ∃ b k, parseUrfsURL rawURL = (u.Host, b, k, none) ∧
        strings.Trim u.Path "/".toList = b ++ '/' :: k ∧ '/' ∉ b ∧ b ≠ [] ∧ k ≠ []) ∧
    ('/' ∉ strings.Trim u.Path "/".toList →
      parseUrfsURL rawURL =
        ([], [], [], some (.New ("invalid bucket and object key ".toList ++ u.Path)))) := by
  constructor
  · intro hmem
    obtain ⟨b, k, hcut⟩ := Cut_of_mem hmem
    have hres : parseUrfsURL rawURL = (u.Host, b, k, none) := by
      rw [parseUrfsURL_of_ok hp, locatorOf_found hs hh hpath hcut]
    obtain ⟨htrim, hnot⟩ := strings.Cut_found hcut
    obtain ⟨-, hb, hk⟩ := parseUrfsURL_components_nonempty_aux hres
    exact ⟨b, k, hres, htrim, hnot, hb, hk⟩
  · intro hmem
    rw [parseUrfsURL_of_ok hp,
      locatorOf_not_found hs hh hpath (strings.Cut_of_not_mem hmem)]

/-- Witness of C4 (amended) at `urfs://E/B/K1/K2`. -/
theorem parseUrfsURL_needs_two_segments_witness :
    ∃ b k, parseUrfsURL "urfs://E/B/K1/K2".toList = ("E".toList, b, k, none) ∧
      "B/K1/K2".toList = b ++ '/' :: k ∧ '/' ∉ b ∧ b ≠ [] ∧ k ≠ [] :=
  (parseUrfsURL_needs_two_segments "urfs://E/B/K1/K2".toList
    { Scheme := "urfs".toList, Host := "E".toList, Path := "/B/K1/K2".toList }
    (by decide) (by decide) (by decide) (by decide)).1 (by decide)

/-- Counterexample to C4: the one-segment locator `urfs://E/B` has the scheme
`urfs`, the host `E` and a path whose trimmed form `B` is one segment, and
`parseUrfsURL` rejects it. -/
theorem parseUrfsURL_rejects_one_segment :
    url.ParseRequestURI "urfs://E/B".toList =
      .ok { Scheme := "urfs".toList, Host := "E".toList, Path := "/B".toList } ∧
    strings.Trim "/B".toList "/".toList = "B".toList ∧
    parseUrfsURL "urfs://E/B".toList =
      ([], [], [], some (.New "invalid bucket and object key /B".toList)) := by
  decide


theorem setPath_fields {u u2 : url.URL} {p : GoString} (h : url.setPath u p = .ok u2) :
    u2.Scheme = u.Scheme ∧ u2.Host = u.Host ∧ u2.RawQuery = u.RawQuery ∧
      url.unescape p url.encoding.encodePath = .ok u2.Path := by
  unfold url.setPath at h
  cases hu : url.unescape p url.encoding.encodePath with
  | error err => rw [hu] at h; cases h
  | ok path =>
    rw [hu] at h
    dsimp only at h
    split at h <;> (cases h; exact ⟨rfl, rfl, rfl, rfl⟩)

theorem splitQuery_Scheme (u : url.URL) (rest : GoString) :
    (url.splitQuery u rest).2.Scheme = u.Scheme := by
  unfold url.splitQuery
  split <;> rfl

theorem parseTail_fields {viaRequest : Bool} {u u2 : url.URL} {rest : GoString}
    (h : url.parseTail viaRequest u rest = .ok u2) :
    u2.Scheme = u.Scheme ∧ u2.RawQuery = u.RawQuery := by
  unfold url.parseTail at h
  split at h
  · cases h; exact ⟨rfl, rfl⟩
  · split at h
    · cases h
    · split at h
      · cases h
      · split at h
        · dsimp only at h
          split at h
          · cases h
          · obtain ⟨h1, -, h3, -⟩ := setPath_fields h
            exact ⟨h1, h3⟩
        · split at h
          · obtain ⟨h1, -, h3, -⟩ := setPath_fields h
            exact ⟨h1, h3⟩
          · obtain ⟨h1, -, h3, -⟩ := setPath_fields h
            exact ⟨h1, h3⟩

/-- The scheme of a parsed URL is the lower-cased scheme of the raw URL. -/
theorem parse_scheme {rawURL : GoString} {viaRequest : Bool} {u : url.URL}
    (h : url.parse rawURL viaRequest = .ok u) :
    ∃ s rest, url.getScheme rawURL = .ok (s, rest) ∧ u.Scheme = strings.ToLower s := by
  unfold url.parse at h
  split at h
  · cases h
  · split at h
    · cases h
    · split at h
      · rename_i hstar
        cases h
        subst hstar
        exact ⟨[], "*".toList, by decide, rfl⟩
      · cases hg : url.getScheme rawURL with
        | error err => rw [hg] at h; cases h
        | ok sr =>
          obtain ⟨s, rest0⟩ := sr
          rw [hg] at h
          refine ⟨s, rest0, rfl, ?_⟩
          dsimp only at h
          rw [(parseTail_fields h).1, splitQuery_Scheme]

theorem ParseRequestURI_ok {rawURL : GoString} {u : url.URL}
    (h : url.ParseRequestURI rawURL = .ok u) : url.parse rawURL true = .ok u := by
  unfold url.ParseRequestURI at h
  split at h
  · cases h
  · cases h
  · rename_i u2 hp
    cases h
    exact hp

theorem ParseRequestURI_of_parse {rawURL : GoString} {u : url.URL}
    (h : url.parse rawURL true = .ok u) : url.ParseRequestURI rawURL = .ok u := by
  unfold url.ParseRequestURI
  rw [h]

/-- C3 (amended). A raw URL that `url.ParseRequestURI` does not parse, or
whose parsed form has a scheme other than `urfs`, an empty host or an empty
path, or whose scheme, lower-cased, is not `urfs` (a missing scheme
included), is rejected: `parseUrfsURL` returns an error and empty strings,
`isUrfsURL` is false, `validateSchedulelArgs` returns its error, and
`ScheduleDataToPeer` and `CheckScheduleTaskStatus` return no result and an
error without handing any request to the HTTP client. -/
theorem malformed_locator_is_rejected (urfs : urchinfs) (env : Env)
    (rawURL destPeerHost : GoString) (w : World)
    (h : (∃ err, url.ParseRequestURI rawURL = .error err) ∨
      (∃ u, url.ParseRequestURI rawURL = .ok u ∧
        (u.Scheme ≠ UrfsScheme ∨ u.Host = [] ∨ u.Path = [])) ∨
      (∀ s rest, url.getScheme rawURL = .ok (s, rest) → strings.ToLower s ≠ UrfsScheme)) :
    (∃ err, parseUrfsURL rawURL = ([], [], [], some err)) ∧
    isUrfsURL rawURL = false ∧
    validateSchedulelArgs rawURL destPeerHost =
      some (.New "source url should be urfs:// protocol".toList) ∧
    (∃ err, urfs.ScheduleDataToPeer env rawURL destPeerHost w = ((none, some err), w)) ∧
    (∃ err, urfs.CheckScheduleTaskStatus env rawURL destPeerHost w = ((none, some err), w)) := by
  have hcases : (∃ err, url.ParseRequestURI rawURL = .error err) ∨
      (∃ u, url.ParseRequestURI rawURL = .ok u ∧
        (u.Scheme ≠ UrfsScheme ∨ u.Host = [] ∨ u.Path = [])) := by
    rcases h with h | h | h
    · exact Or.inl h
    · exact Or.inr h
    · cases hp : url.ParseRequestURI rawURL with
      | error err => exact Or.inl ⟨err, rfl⟩
      | ok u =>
        obtain ⟨s, rest, hg, hs⟩ := parse_scheme (ParseRequestURI_ok hp)
        exact Or.inr ⟨u, rfl, Or.inl (by rw [hs]; exact h s rest hg)⟩
  have hparse : ∃ err, parseUrfsURL rawURL = ([], [], [], some err) := by
    rcases hcases with ⟨err, he⟩ | ⟨u, hu, hbad⟩
    · exact ⟨err, parseUrfsURL_of_error he⟩
    · rw [parseUrfsURL_of_ok hu]
      unfold locatorOf
      by_cases h1 : u.Scheme ≠ UrfsScheme
      · exact ⟨_, if_pos h1⟩
      · rw [if_neg h1]
        by_cases h2 : u.Host = []
        · exact ⟨_, if_pos h2⟩
        · rw [if_neg h2]
          by_cases h3 : u.Path = []
          · exact ⟨_, if_pos h3⟩
          · rcases hbad with hb | hb | hb
            · exact absurd hb h1
            · exact absurd hb h2
            · exact absurd hb h3
  have hurfs : isUrfsURL rawURL = false := by
    unfold isUrfsURL
    rcases hcases with ⟨err, he⟩ | ⟨u, hu, hbad⟩
    · rw [he]
    · rw [hu]
      dsimp only
      rw [if_pos]
      rcases hbad with hb | hb | hb
      · simp [hb]
      · simp [hb]
      · simp [hb]
  have hval : validateSchedulelArgs rawURL destPeerHost =
      some (.New "source url should be urfs:// protocol".toList) := by
    unfold validateSchedulelArgs
    rw [hurfs]
    rfl
  refine ⟨hparse, hurfs, hval, ?_, ?_⟩
  · unfold urchinfs.ScheduleDataToPeer
    cases urfs.cfg.Validate with
    | some err => exact ⟨err, rfl⟩
    | none =>
      dsimp only
      rw [hval]
      exact ⟨_, rfl⟩
  · unfold urchinfs.CheckScheduleTaskStatus
    cases urfs.cfg.Validate with
    | some err => exact ⟨err, rfl⟩
    | none =>
      dsimp only
      rw [hval]
      exact ⟨_, rfl⟩

/-- Witness of C3 (amended): `http://e/b/k` has the scheme `http`. -/
theorem malformed_locator_is_rejected_witness :
    isUrfsURL "http://e/b/k".toList = false ∧
      ∃ err, New.ScheduleDataToPeer oddLengthEnv "http://e/b/k".toList "10.0.0.1:9000".toList {}
        = ((none, some err), {}) :=
  ⟨(malformed_locator_is_rejected New oddLengthEnv "http://e/b/k".toList "10.0.0.1:9000".toList {}
      (Or.inr (Or.inr (fun s rest hg => by
        have : s = "http".toList := by
          have h2 : url.getScheme "http://e/b/k".toList = .ok ("http".toList, "//e/b/k".toList) := by
            decide
          rw [h2] at hg
          cases hg
          rfl
        subst this
        decide)))).2.1,
   (malformed_locator_is_rejected New oddLengthEnv "http://e/b/k".toList "10.0.0.1:9000".toList {}
      (Or.inr (Or.inl ⟨{ Scheme := "http".toList, Host := "e".toList, Path := "/b/k".toList },
        by decide, Or.inl (by decide)⟩))).2.2.2.1⟩

/-- Counterexample to C3: the raw URL `URFS://e/b/k` has the scheme `URFS`,
which is not the exact text `urfs`, and is accepted: `url.ParseRequestURI`
lower-cases the scheme. -/
theorem upper_case_scheme_is_accepted :
    url.getScheme "URFS://e/b/k".toList = .ok ("URFS".toList, "//e/b/k".toList) ∧
    "URFS".toList ≠ UrfsScheme ∧
    parseUrfsURL "URFS://e/b/k".toList = ("e".toList, "b".toList, "k".toList, none) ∧
    isUrfsURL "URFS://e/b/k".toList = true ∧
    validateSchedulelArgs "URFS://e/b/k".toList "10.0.0.1:9000".toList = none := by
  decide


/-! ## Lemmas on `net/url` -/

namespace url

open encoding

theorem getScheme_urfs (rest : GoString) :
    getScheme ("urfs:".toList ++ rest) = .ok ("urfs".toList, rest) := rfl

theorem getScheme_http (rest : GoString) :
    getScheme ("http:".toList ++ rest) = .ok ("http".toList, rest) := rfl

theorem unescapeCheck_cons {mode : encoding} {c : Char} {rest : GoString} (hc : c ≠ '%') :
    unescapeCheck mode (c :: rest) =
      if (mode = encodeHost || mode = encodeZone) && c.toNat < 0x80 && shouldEscape c encodeHost
      then .error (.New ("invalid character ".toList ++ [c] ++ " in host name".toList))
      else unescapeCheck mode rest := by
  rw [unescapeCheck]
  · intro h; exact hc h

theorem unescapeDecode_cons {mode : encoding} {c : Char} {rest : GoString} (hc : c ≠ '%')
    (hp : c ≠ '+') : unescapeDecode mode (c :: rest) = c :: unescapeDecode mode rest := by
  rw [unescapeDecode]
  · intro _ _ _ h _; exact hc h
  · intro h; exact hp h

theorem unescapeDecode_plus {mode : encoding} {rest : GoString} (hm : mode ≠ encodeQueryComponent) :
    unescapeDecode mode ('+' :: rest) = '+' :: unescapeDecode mode rest := by
  rw [unescapeDecode, if_neg hm]

/-- Without a `%`, and outside a query, the decoding loop changes nothing. -/
theorem unescapeDecode_of_no_percent {mode : encoding} (hm : mode ≠ encodeQueryComponent) :
    ∀ (s : GoString), '%' ∉ s → unescapeDecode mode s = s := by
  intro s
  induction s with
  | nil => intro _; rfl
  | cons c rest ih =>
    intro hs
    simp only [List.mem_cons, not_or] at hs
    have hc : c ≠ '%' := fun e => hs.1 e.symm
    by_cases hp : c = '+'
    · subst hp
      rw [unescapeDecode_plus hm, ih hs.2]
    · rw [unescapeDecode_cons hc hp, ih hs.2]

/-- A path without `%` is its own unescaped form. -/
theorem unescape_path_of_no_percent (s : GoString) (hs : '%' ∉ s) :
    unescape s encodePath = .ok s := by
  have hcheck : ∀ (t : GoString), '%' ∉ t → unescapeCheck encodePath t = .ok () := by
    intro t
    induction t with
    | nil => intro _; rfl
    | cons c rest ih =>
      intro ht
      simp only [List.mem_cons, not_or] at ht
      rw [unescapeCheck_cons (fun e => ht.1 e.symm), if_neg (by simp)]
      exact ih ht.2
  unfold unescape
  rw [hcheck s hs]
  dsimp only
  rw [unescapeDecode_of_no_percent (by decide) s hs]

/-- A host whose bytes need no escaping is its own unescaped form. -/
theorem unescape_host_of_plain (s : GoString) (hs : ∀ c ∈ s, shouldEscape c encodeHost = false) :
    unescape s encodeHost = .ok s := by
  have hper : '%' ∉ s := fun hm => by
    have := hs '%' hm
    revert this
    decide
  have hcheck : ∀ (t : GoString), (∀ c ∈ t, shouldEscape c encodeHost = false) → '%' ∉ t →
      unescapeCheck encodeHost t = .ok () := by
    intro t
    induction t with
    | nil => intro _ _; rfl
    | cons c rest ih =>
      intro ht hp
      simp only [List.mem_cons, not_or] at hp
      rw [unescapeCheck_cons (fun e => hp.1 e.symm), ht c (List.mem_cons_self c rest)]
      rw [if_neg (by simp)]
      exact ih (fun d hd => ht d (List.mem_cons_of_mem c hd)) hp.2
  unfold unescape
  rw [hcheck s hs hper]
  dsimp only
  rw [unescapeDecode_of_no_percent (by decide) s hper]

end url

namespace strings

theorem Index_append {b : GoString} {sep : Char} (a : GoString) (hb : sep ∉ b) :
    Index (b ++ sep :: a) sep = b.length := by
  induction b with
  | nil => simp [Index]
  | cons c cs ih =>
    simp only [List.mem_cons, not_or] at hb
    have hc : ¬ c = sep := fun e => hb.1 e.symm
    rw [List.cons_append, Index, if_neg hc]
    dsimp only
    rw [ih hb.2, if_neg (by omega), List.length_cons]
    push_cast
    rfl

theorem Index_of_not_mem {s : GoString} {sep : Char} (hs : sep ∉ s) : Index s sep = -1 := by
  induction s with
  | nil => rfl
  | cons c cs ih =>
    simp only [List.mem_cons, not_or] at hs
    have hc : ¬ c = sep := fun e => hs.1 e.symm
    simp [Index, hc, ih hs.2]

theorem LastIndex_of_not_mem {s : GoString} {sep : Char} (hs : sep ∉ s) :
    LastIndex s sep = -1 := by
  induction s with
  | nil => rfl
  | cons c cs ih =>
    simp only [List.mem_cons, not_or] at hs
    have hc : ¬ c = sep := fun e => hs.1 e.symm
    simp [LastIndex, hc, ih hs.2]

theorem LastIndex_cons_of_not_mem {cs : GoString} {sep : Char} (hs : sep ∉ cs) :
    LastIndex (sep :: cs) sep = 0 := by
  rw [LastIndex, LastIndex_of_not_mem hs]
  rw [if_neg (by decide), if_pos rfl]

theorem LastIndex_append (b : GoString) {a : GoString} {sep : Char} (ha : sep ∉ a) :
    LastIndex (b ++ sep :: a) sep = b.length := by
  induction b with
  | nil => exact LastIndex_cons_of_not_mem ha
  | cons c cs ih =>
    rw [List.cons_append, LastIndex, ih]
    rw [if_pos (by omega), List.length_cons]
    push_cast
    rfl

theorem IndexStr_of_not_mem {s t : GoString} {c : Char} (hs : c ∉ s) :
    IndexStr s (c :: t) = -1 := by
  induction s with
  | nil => rfl
  | cons d ds ih =>
    simp only [List.mem_cons, not_or] at hs
    have hd : ¬ d = c := fun e => hs.1 e.symm
    have hpre : (c :: t).isPrefixOf (d :: ds) = false := by
      simp [List.isPrefixOf, hs.1]
    rw [IndexStr, hpre, ih hs.2]
    rfl

theorem Count_of_not_mem {s : GoString} {sep : Char} (hs : sep ∉ s) : Count s sep = 0 := by
  unfold Count
  exact List.count_eq_zero_of_not_mem hs

end strings
namespace url

open encoding

/-- A byte `net/url` leaves unescaped is a printable ASCII byte. -/
theorem toNat_of_shouldEscape_false {c : Char} {mode : encoding}
    (h : shouldEscape c mode = false) : 0x20 < c.toNat ∧ c.toNat < 0x7f := by
  by_contra hcon
  have hr : ¬ (0x20 < c.toNat ∧ c.toNat < 0x7f) := hcon
  have hlist : ∀ (l : GoString), (∀ d ∈ l, 0x20 < d.toNat ∧ d.toNat < 0x7f) →
      l.elem c = false := by
    intro l hl
    cases he : l.elem c with
    | false => rfl
    | true => exact absurd (hl c (List.elem_iff.mp he)) hr
  have h1 : inRange 'a' 'z' c = false := by
    unfold inRange
    cases hd : (decide ('a'.toNat ≤ c.toNat) && decide (c.toNat ≤ 'z'.toNat)) with
    | false => rfl
    | true =>
      simp only [Bool.and_eq_true, decide_eq_true_eq] at hd
      have e1 : 'a'.toNat = 97 := by decide
      have e2 : 'z'.toNat = 122 := by decide
      exact absurd ⟨by omega, by omega⟩ hr
  have h2 : inRange 'A' 'Z' c = false := by
    unfold inRange
    cases hd : (decide ('A'.toNat ≤ c.toNat) && decide (c.toNat ≤ 'Z'.toNat)) with
    | false => rfl
    | true =>
      simp only [Bool.and_eq_true, decide_eq_true_eq] at hd
      have e1 : 'A'.toNat = 65 := by decide
      have e2 : 'Z'.toNat = 90 := by decide
      exact absurd ⟨by omega, by omega⟩ hr
  have h3 : inRange '0' '9' c = false := by
    unfold inRange
    cases hd : (decide ('0'.toNat ≤ c.toNat) && decide (c.toNat ≤ '9'.toNat)) with
    | false => rfl
    | true =>
      simp only [Bool.and_eq_true, decide_eq_true_eq] at hd
      have e1 : '0'.toNat = 48 := by decide
      have e2 : '9'.toNat = 57 := by decide
      exact absurd ⟨by omega, by omega⟩ hr
  have h4 := hlist "!$&\x27()*+,;=:[]<>\"".toList (by decide)
  have h5 := hlist "-_.~".toList (by decide)
  have h6 := hlist "$&+,/:;=?@".toList (by decide)
  have h7 := hlist "!()*".toList (by decide)
  unfold shouldEscape at h
  rw [h1, h2, h3, h4, h5, h6, h7] at h
  simp at h

theorem ne_of_shouldEscape_host {c : Char} (h : shouldEscape c encodeHost = false) :
    c ≠ '/' ∧ c ≠ '?' ∧ c ≠ '#' ∧ c ≠ '@' ∧ c ≠ '%' := by
  refine ⟨?_, ?_, ?_, ?_, ?_⟩ <;>
  · rintro rfl
    revert h
    decide

theorem stringContainsCTLByte_eq_false {s : GoString}
    (hs : ∀ c ∈ s, 0x20 ≤ c.toNat ∧ c.toNat ≠ 0x7f) : stringContainsCTLByte s = false := by
  unfold stringContainsCTLByte
  rw [List.any_eq_false]
  intro c hc
  have := hs c hc
  have e1 : ' '.toNat = 32 := by decide
  simp only [Bool.or_eq_true, decide_eq_true_eq, not_or]
  omega

theorem splitQuery_of_no_query (u : URL) (rest : GoString) (h : '?' ∉ rest) :
    splitQuery u rest = (rest, { u with RawQuery := [] }) := by
  unfold splitQuery
  rw [strings.Count_of_not_mem h, strings.Cut_of_not_mem h]
  rw [if_neg (by simp)]

/-- A host byte is none of `/`, `?`, `#`, `@`, `%`, no control byte, and a byte. -/
theorem hostByte_props {c : Char} (h : hostByte c = true) :
    c ≠ '/' ∧ c ≠ '?' ∧ c ≠ '#' ∧ c ≠ '@' ∧ c ≠ '%' ∧ 0x20 ≤ c.toNat ∧ c.toNat ≠ 0x7f ∧
      c.toNat < 256 := by
  unfold hostByte at h
  rw [Bool.or_eq_true, Bool.not_eq_true', decide_eq_true_eq] at h
  rcases h with h | h
  · have h1 := ne_of_shouldEscape_host h
    have h2 := toNat_of_shouldEscape_false h
    exact ⟨h1.1, h1.2.1, h1.2.2.1, h1.2.2.2.1, h1.2.2.2.2, by omega, by omega, by omega⟩
  · have hne : ∀ d : Char, d.toNat < 0x80 → c ≠ d := by
      intro d hd e
      rw [e] at h
      omega
    exact ⟨hne _ (by decide), hne _ (by decide), hne _ (by decide), hne _ (by decide),
      hne _ (by decide), by omega, by omega, h.2⟩

/-- The first loop of `unescape` passes a host byte. -/
theorem unescapeCheck_hostByte {c : Char} {rest : GoString} (h : hostByte c = true) :
    unescapeCheck encodeHost (c :: rest) = unescapeCheck encodeHost rest := by
  have hc := (hostByte_props h).2.2.2.2.1
  rw [unescapeCheck_cons hc]
  unfold hostByte at h
  rw [Bool.or_eq_true, Bool.not_eq_true', decide_eq_true_eq] at h
  rcases h with h | h
  · rw [h, if_neg (by simp)]
  · rw [if_neg]
    simp only [Bool.and_eq_true, decide_eq_true_eq, not_and]
    intro _ h2
    omega

/-- A host of host bytes is its own unescaped form. -/
theorem unescape_host_raw (s : GoString) (hs : ∀ c ∈ s, hostByte c = true) :
    unescape s encodeHost = .ok s := by
  have hper : '%' ∉ s := fun hm => (hostByte_props (hs _ hm)).2.2.2.2.1 rfl
  have hcheck : ∀ (t : GoString), (∀ c ∈ t, hostByte c = true) →
      unescapeCheck encodeHost t = .ok () := by
    intro t
    induction t with
    | nil => intro _; rfl
    | cons c rest ih =>
      intro ht
      rw [unescapeCheck_hostByte (ht c (List.mem_cons_self c rest))]
      exact ih (fun d hd => ht d (List.mem_cons_of_mem c hd))
  unfold unescape
  rw [hcheck s hs]
  dsimp only
  rw [unescapeDecode_of_no_percent (by decide) s hper]

/-- A digit needs no escaping. -/
theorem shouldEscape_digit {c : Char} {mode : encoding}
    (h : ¬ (c.toNat < '0'.toNat ∨ c.toNat > '9'.toNat)) : shouldEscape c mode = false := by
  have h3 : inRange '0' '9' c = true := by
    unfold inRange
    simp only [Bool.and_eq_true, decide_eq_true_eq]
    omega
  unfold shouldEscape
  rw [h3]
  simp

/-- The bytes of a port are `:` and digits. -/
theorem validOptionalPort_mem {port : GoString} (h : validOptionalPort port = true) :
    ∀ c ∈ port, c = ':' ∨ ¬ (c.toNat < '0'.toNat ∨ c.toNat > '9'.toNat) := by
  cases port with
  | nil => intro c hc; cases hc
  | cons d ds =>
    unfold validOptionalPort at h
    simp only [Bool.and_eq_true, decide_eq_true_eq, List.all_eq_true, Bool.not_eq_true',
      Bool.or_eq_false_iff, decide_eq_false_iff_not] at h
    intro c hc
    rw [List.mem_cons] at hc
    rcases hc with rfl | hc
    · exact Or.inl h.1
    · right
      have := h.2 c hc
      omega

/-- The bytes of a port need no escaping in a host and are neither `[` nor `]`. -/
theorem validOptionalPort_bytes {port : GoString} (h : validOptionalPort port = true) :
    ∀ c ∈ port, shouldEscape c encodeHost = false ∧ c ≠ '[' ∧ c ≠ ']' := by
  intro c hc
  rcases validOptionalPort_mem h c hc with rfl | hd
  · decide
  · refine ⟨shouldEscape_digit hd, ?_, ?_⟩ <;>
    · rintro rfl
      revert hd
      decide

theorem hostByte_of_plain {c : Char} (h : shouldEscape c encodeHost = false) :
    hostByte c = true := by
  unfold hostByte
  rw [h]
  rfl

/-- A valid port is empty or begins with `:`, and holds no other `:`-free text before it. -/
theorem validOptionalPort_cases {port : GoString} (h : validOptionalPort port = true) :
    port = [] ∨ ∃ ds, port = ':' :: ds := by
  cases port with
  | nil => exact Or.inl rfl
  | cons d ds =>
    unfold validOptionalPort at h
    simp only [Bool.and_eq_true, decide_eq_true_eq] at h
    exact Or.inr ⟨ds, by rw [h.1]⟩

/-- A hexadecimal digit needs no escaping. -/
theorem shouldEscape_hexDigit {c : Char} {mode : encoding} (h : netip.isHexDigit c = true) :
    shouldEscape c mode = false := by
  unfold netip.isHexDigit at h
  simp only [Bool.or_eq_true, decide_eq_true_eq] at h
  have e0 : '0'.toNat = 48 := by decide
  have e9 : '9'.toNat = 57 := by decide
  have ea : 'a'.toNat = 97 := by decide
  have ef : 'f'.toNat = 102 := by decide
  have ez : 'z'.toNat = 122 := by decide
  have eA : 'A'.toNat = 65 := by decide
  have eF : 'F'.toNat = 70 := by decide
  have eZ : 'Z'.toNat = 90 := by decide
  have h3 : (inRange 'a' 'z' c || inRange 'A' 'Z' c || inRange '0' '9' c) = true := by
    unfold inRange
    simp only [Bool.or_eq_true, Bool.and_eq_true, decide_eq_true_eq]
    omega
  unfold shouldEscape
  rw [h3]
  simp

/-- The bytes of the text of an IPv6 address need no escaping in a host and
are none of `[`, `]` and `%`. -/
theorem ipv6Text_bytes {a : GoString} (h : ipv6Text a = true) :
    ∀ c ∈ a, shouldEscape c encodeHost = false ∧ c ≠ '[' ∧ c ≠ ']' ∧ c ≠ '%' := by
  unfold ipv6Text at h
  rw [Bool.and_eq_true, List.all_eq_true] at h
  intro c hc
  have h1 := h.1 c hc
  simp only [Bool.or_eq_true, decide_eq_true_eq] at h1
  rcases h1 with (h1 | rfl) | rfl
  · refine ⟨shouldEscape_hexDigit h1, ?_, ?_, ?_⟩ <;>
    · rintro rfl
      revert h1
      decide
  · decide
  · decide

/-- The two forms of a plain host: `[address]` with an optional port, or a
name of host bytes with an optional port. -/
theorem plainHost_cases {host : GoString} (h : plainHost host = true) :
    (∃ a port, host = '[' :: (a ++ ']' :: port) ∧ ipv6Text a = true ∧
      validOptionalPort port = true) ∨
    (∃ n port, host = n ++ port ∧ (∀ c ∈ n, hostByte c = true ∧ c ≠ '[' ∧ c ≠ ':') ∧
      validOptionalPort port = true) := by
  have hname : ∀ (t : GoString),
      ((t.takeWhile (fun c => c ≠ ':')).all (fun c => hostByte c && c ≠ '[') &&
        validOptionalPort (t.dropWhile (fun c => c ≠ ':'))) = true →
      ∃ n port, t = n ++ port ∧ (∀ c ∈ n, hostByte c = true ∧ c ≠ '[' ∧ c ≠ ':') ∧
        validOptionalPort port = true := by
    intro t ht
    rw [Bool.and_eq_true, List.all_eq_true] at ht
    refine ⟨t.takeWhile (fun c => c ≠ ':'), t.dropWhile (fun c => c ≠ ':'),
      (List.takeWhile_append_dropWhile _ t).symm, ?_, ht.2⟩
    intro c hc
    have h1 := ht.1 c hc
    have h2 := List.mem_takeWhile_imp hc
    simp only [Bool.and_eq_true, decide_eq_true_eq, ne_eq] at h1 h2
    exact ⟨h1.1, h1.2, h2⟩
  cases host with
  | nil => exact Or.inr (hname [] h)
  | cons c rest =>
    by_cases hc : c = '['
    · subst hc
      left
      simp only [plainHost, Bool.and_eq_true, decide_eq_true_eq] at h
      obtain ⟨⟨h1, h2⟩, h3⟩ := h
      have hsplit := List.takeWhile_append_dropWhile (fun c => decide (c ≠ ']')) rest
      cases hd : rest.dropWhile (fun c => decide (c ≠ ']')) with
      | nil => rw [hd] at h2; cases h2
      | cons d ds =>
        rw [hd] at h2 h3 hsplit
        simp only [List.head?_cons, Option.some.injEq] at h2
        subst h2
        refine ⟨rest.takeWhile (fun c => decide (c ≠ ']')), ds, ?_, h1, h3⟩
        rw [hsplit]
    · right
      have : plainHost (c :: rest) =
          (((c :: rest).takeWhile (fun c => c ≠ ':')).all (fun c => hostByte c && c ≠ '[') &&
            validOptionalPort ((c :: rest).dropWhile (fun c => c ≠ ':'))) := by
        unfold plainHost
        split
        · rename_i heq
          cases heq
          exact absurd rfl hc
        · rfl
      rw [this] at h
      exact hname _ h

/-- Every byte of a plain host is a host byte. -/
theorem plainHost_hostBytes {host : GoString} (h : plainHost host = true) :
    ∀ c ∈ host, hostByte c = true := by
  rcases plainHost_cases h with ⟨a, port, rfl, ha, hp⟩ | ⟨n, port, rfl, hn, hp⟩
  · intro c hc
    simp only [List.mem_cons, List.mem_append] at hc
    rcases hc with rfl | hc | rfl | hc
    · decide
    · exact hostByte_of_plain (ipv6Text_bytes ha c hc).1
    · decide
    · exact hostByte_of_plain (validOptionalPort_bytes hp c hc).1
  · intro c hc
    rw [List.mem_append] at hc
    rcases hc with hc | hc
    · exact (hn c hc).1
    · exact hostByte_of_plain (validOptionalPort_bytes hp c hc).1

/-- `parseHost` on a text without `[` whose first `:`, if any, begins a port:
the text is unescaped. -/
theorem parseHost_name (n port : GoString) (h1 : '[' ∉ n ++ port) (h2 : ':' ∉ n)
    (hp : validOptionalPort port = true) :
    parseHost (n ++ port) = unescape (n ++ port) encodeHost := by
  unfold parseHost
  rw [strings.LastIndex_of_not_mem h1]
  rw [if_neg (by decide), if_neg (by decide)]
  rcases validOptionalPort_cases hp with rfl | ⟨ds, rfl⟩
  · rw [List.append_nil, strings.Index_of_not_mem h2, if_neg (by simp)]
  · rw [strings.Index_append ds h2, if_neg]
    simp only [Int.toNat_ofNat, List.drop_left, hp, Bool.not_true, not_and]
    intro _ hf
    cases hf

/-- `parseHost` on `[address]` with an optional port. -/
theorem parseHost_bracket (a port : GoString) (ha : ipv6Text a = true)
    (hp : validOptionalPort port = true) :
    parseHost ('[' :: (a ++ ']' :: port)) = .ok ('[' :: (a ++ ']' :: port)) := by
  have hab := ipv6Text_bytes ha
  have hpb := validOptionalPort_bytes hp
  have hpne : ∀ c ∈ port, c ≠ '[' ∧ c ≠ ']' := fun c hc => (hpb c hc).2
  have hopen : '[' ∉ a ++ ']' :: port := by
    simp only [List.mem_append, List.mem_cons, not_or]
    exact ⟨fun hc => (hab _ hc).2.1 rfl, by decide, fun hc => (hpne _ hc).1 rfl⟩
  have hclose : ']' ∉ port := fun hc => (hpne _ hc).2 rfl
  have hidx : strings.LastIndex ('[' :: (a ++ ']' :: port)) ']' = ((a.length + 1 : Nat) : Int) := by
    have := strings.LastIndex_append ('[' :: a) hclose
    rw [List.cons_append, List.length_cons] at this
    exact this
  have hper : '%' ∉ a := fun hc => (hab _ hc).2.2.2 rfl
  have hua : unescape a encodeHost = .ok a :=
    unescape_host_raw a (fun c hc => hostByte_of_plain (hab c hc).1)
  have hup : unescape port encodeHost = .ok port :=
    unescape_host_raw port (fun c hc => hostByte_of_plain (hpb c hc).1)
  have hdrop : ('[' :: (a ++ ']' :: port)).drop (a.length + 1 + 1) = port := by
    rw [List.drop_succ_cons]
    have : (a ++ ']' :: port).drop (a.length + 1) = port := by
      rw [show a ++ ']' :: port = (a ++ [']']) ++ port by simp]
      have hl : (a ++ [']']).length = a.length + 1 := by simp
      rw [← hl, List.drop_left]
    exact this
  have htake : (('[' :: (a ++ ']' :: port)).take (a.length + 1)).drop 1 = a := by
    rw [List.take_succ_cons, List.drop_succ_cons, List.drop_zero, List.take_left]
  have hparse : ∃ addr, netip.ParseAddr a = .ok addr ∧ addr.Is4 = false := by
    unfold ipv6Text at ha
    rw [Bool.and_eq_true] at ha
    cases hpa : netip.ParseAddr a with
    | error e =>
      have h2 := ha.2
      rw [hpa] at h2
      cases h2
    | ok addr =>
      have h2 := ha.2
      rw [hpa] at h2
      exact ⟨addr, rfl, by simpa using h2⟩
  obtain ⟨addr, hpa, h4⟩ := hparse
  unfold parseHost
  rw [strings.LastIndex_cons_of_not_mem hopen, hidx]
  rw [if_neg (by decide), if_pos rfl, if_neg (by omega), Int.toNat_ofNat, hdrop]
  dsimp only
  rw [hp, if_neg (by decide), hup]
  dsimp only
  have hz : strings.IndexStr a "%25".toList = -1 :=
    @strings.IndexStr_of_not_mem a ['2', '5'] '%' hper
  rw [htake, hz, if_neg (by decide), hua]
  dsimp only
  rw [hpa]
  dsimp only
  rw [h4]
  rfl

/-- `parseHost` returns a plain host as it is. -/
theorem parseHost_plain {host : GoString} (h : plainHost host = true) :
    parseHost host = .ok host := by
  have hb := plainHost_hostBytes h
  rcases plainHost_cases h with ⟨a, port, rfl, ha, hp⟩ | ⟨n, port, rfl, hn, hp⟩
  · exact parseHost_bracket a port ha hp
  · have hpb := validOptionalPort_bytes hp
    have h1 : '[' ∉ n ++ port := by
      rw [List.mem_append, not_or]
      exact ⟨fun hc => (hn _ hc).2.1 rfl, fun hc => (hpb _ hc).2.1 rfl⟩
    rw [parseHost_name n port h1 (fun hc => (hn _ hc).2.2 rfl) hp]
    exact unescape_host_raw _ hb

theorem parseAuthority_of_no_at {authority : GoString} (h : '@' ∉ authority) :
    parseAuthority authority =
      match parseHost authority with
      | .error e => .error e
      | .ok host => .ok (none, host) := by
  unfold parseAuthority
  rw [strings.LastIndex_of_not_mem h]
  dsimp only
  rw [if_pos (by decide)]
  cases parseHost authority with
  | error e => rfl
  | ok host =>
    dsimp only
    rw [if_pos (by decide)]

/-- `parseTail` on `//authority` followed by a path that is empty or begins
with `/`, for a URL that has a scheme. -/
theorem parseTail_authority (viaRequest : Bool) (u : URL) (authority p : GoString)
    (hs : u.Scheme ≠ []) (ha : '/' ∉ authority) (hp : p = [] ∨ ∃ p2, p = '/' :: p2) :
    parseTail viaRequest u ('/' :: '/' :: (authority ++ p)) =
      match parseAuthority authority with
      | .error e => .error e
      | .ok (user, host) => setPath { u with User := user, Host := host } p := by
  have hidx : (if 0 ≤ strings.Index (authority ++ p) '/'
        then (authority ++ p).take (strings.Index (authority ++ p) '/').toNat
        else authority ++ p) = authority ∧
      (if 0 ≤ strings.Index (authority ++ p) '/'
        then (authority ++ p).drop (strings.Index (authority ++ p) '/').toNat
        else []) = p := by
    rcases hp with rfl | ⟨p2, rfl⟩
    · rw [List.append_nil, strings.Index_of_not_mem ha]
      exact ⟨rfl, rfl⟩
    · rw [strings.Index_append p2 ha]
      rw [if_pos (by omega), if_pos (by omega)]
      simp
  unfold parseTail
  have hpre : strings.HasPrefix ('/' :: '/' :: (authority ++ p)) "/".toList = true := rfl
  have hpre2 : strings.HasPrefix ('/' :: '/' :: (authority ++ p)) "//".toList = true := by
    simp [strings.HasPrefix]
  rw [hpre, hpre2]
  rw [if_neg (by simp), if_neg (by simp), if_neg (by simp), if_pos (by simp [hs])]
  dsimp only [List.drop_succ_cons, List.drop_zero]
  rw [hidx.1, hidx.2]

end url
theorem plainPath_iff {p : GoString} :
    plainPath p = true ↔
      ∀ c ∈ p, 0x20 ≤ c.toNat ∧ c.toNat ≠ 0x7f ∧ c ≠ '?' ∧ c ≠ '%' := by
  unfold plainPath
  simp only [List.all_eq_true, Bool.and_eq_true, decide_eq_true_eq]
  constructor
  · intro h c hc
    obtain ⟨⟨⟨h1, h2⟩, h3⟩, h4⟩ := h c hc
    exact ⟨h1, h2, h3, h4⟩
  · intro h c hc
    obtain ⟨h1, h2, h3, h4⟩ := h c hc
    exact ⟨⟨⟨h1, h2⟩, h3⟩, h4⟩

/-- `url.ParseRequestURI` on `urfs://E/P` for a plain host `E` and a plain
path text `P`. -/
theorem ParseRequestURI_locator (E P : GoString) (hE : plainHost E = true)
    (hP : plainPath P = true) :
    ∃ u, url.ParseRequestURI ("urfs://".toList ++ E ++ '/' :: P) = .ok u ∧
      u.Scheme = UrfsScheme ∧ u.Host = E ∧ u.Path = '/' :: P := by
  have hEb := url.plainHost_hostBytes hE
  have hPb := plainPath_iff.mp hP
  have hraw : "urfs://".toList ++ E ++ '/' :: P =
      "urfs:".toList ++ ('/' :: '/' :: (E ++ '/' :: P)) := by simp
  have hmemE : ∀ c ∈ E, 0x20 ≤ c.toNat ∧ c.toNat ≠ 0x7f ∧ c ≠ '?' ∧ c ≠ '%' ∧ c ≠ '/' ∧
      c ≠ '@' := by
    intro c hc
    have h1 := url.hostByte_props (hEb c hc)
    exact ⟨h1.2.2.2.2.2.1, h1.2.2.2.2.2.2.1, h1.2.1, h1.2.2.2.2.1, h1.1, h1.2.2.2.1⟩
  have hctl : url.stringContainsCTLByte ("urfs://".toList ++ E ++ '/' :: P) = false := by
    apply url.stringContainsCTLByte_eq_false
    intro c hc
    simp only [List.mem_append, List.mem_cons] at hc
    rcases hc with (hc | hc) | hc | hc
    · have : ∀ d ∈ "urfs://".toList, 0x20 ≤ d.toNat ∧ d.toNat ≠ 0x7f := by decide
      exact this c hc
    · exact ⟨(hmemE c hc).1, (hmemE c hc).2.1⟩
    · subst hc; decide
    · exact ⟨(hPb c hc).1, (hPb c hc).2.1⟩
  have hq : '?' ∉ '/' :: '/' :: (E ++ '/' :: P) := by
    simp only [List.mem_cons, List.mem_append, not_or]
    refine ⟨by decide, by decide, ?_, by decide, ?_⟩
    · exact fun hc => (hmemE _ hc).2.2.1 rfl
    · exact fun hc => (hPb _ hc).2.2.1 rfl
  have hslash : '/' ∉ E := fun hc => (hmemE _ hc).2.2.2.2.1 rfl
  have hat : '@' ∉ E := fun hc => (hmemE _ hc).2.2.2.2.2 rfl
  have hper : '%' ∉ '/' :: P := by
    simp only [List.mem_cons, not_or]
    exact ⟨by decide, fun hc => (hPb _ hc).2.2.2 rfl⟩
  have hparse : ∃ u, url.parse ("urfs://".toList ++ E ++ '/' :: P) true = .ok u ∧
      u.Scheme = UrfsScheme ∧ u.Host = E ∧ u.Path = '/' :: P := by
    unfold url.parse
    rw [hctl, if_neg (by decide), if_neg (by simp), if_neg (by simp), hraw, url.getScheme_urfs]
    dsimp only
    rw [url.splitQuery_of_no_query _ _ hq]
    dsimp only
    rw [url.parseTail_authority true _ E ('/' :: P) (by decide) hslash (Or.inr ⟨P, rfl⟩),
      url.parseAuthority_of_no_at hat, url.parseHost_plain hE]
    dsimp only
    unfold url.setPath
    rw [url.unescape_path_of_no_percent _ hper]
    dsimp only
    have hlow : strings.ToLower "urfs".toList = UrfsScheme := by decide
    split
    · exact ⟨_, rfl, hlow, rfl, rfl⟩
    · exact ⟨_, rfl, hlow, rfl, rfl⟩
  obtain ⟨u, hu, h1, h2, h3⟩ := hparse
  exact ⟨u, ParseRequestURI_of_parse hu, h1, h2, h3⟩

/-- C1 (amended). For every non-empty plain host `E` (a name of bytes that
need no escaping in a host or are above `0x7f`, without `[` and `:`, or an
IPv6 address without a zone in brackets; in both cases an optional `:` and
digits after it), every non-empty bucket `B` without `/` and every non-empty
key `K` that neither starts nor ends with `/`, both free of control bytes,
`?` and `%`: `parseUrfsURL("urfs://E/B/K")` succeeds and returns the
endpoint `E`, the bucket `B` and the key `K`, every `/` of the key kept. -/
theorem parseUrfsURL_plain_locator (E B K : GoString) (hE : E ≠ []) (hEp : plainHost E = true)
    (hB : B ≠ []) (hBs : '/' ∉ B) (hBp : plainPath B = true) (hK : K ≠ [])
    (hK1 : K.head? ≠ some '/') (hK2 : K.getLast? ≠ some '/') (hKp : plainPath K = true) :
    parseUrfsURL ("urfs://".toList ++ E ++ "/".toList ++ B ++ "/".toList ++ K) =
      (E, B, K, none) := by
  have hP : plainPath (B ++ '/' :: K) = true := by
    rw [plainPath_iff]
    intro c hc
    simp only [List.mem_append, List.mem_cons] at hc
    rcases hc with hc | hc | hc
    · exact plainPath_iff.mp hBp c hc
    · subst hc; decide
    · exact plainPath_iff.mp hKp c hc
  obtain ⟨u, hu, hs, hh, hp⟩ := ParseRequestURI_locator E (B ++ '/' :: K) hEp hP
  have hraw : "urfs://".toList ++ E ++ "/".toList ++ B ++ "/".toList ++ K =
      "urfs://".toList ++ E ++ '/' :: (B ++ '/' :: K) := by simp
  have htrim : strings.Trim u.Path "/".toList = B ++ '/' :: K := by
    rw [hp]
    have h1 : strings.Trim ('/' :: (B ++ '/' :: K)) "/".toList =
        strings.Trim (B ++ '/' :: K) "/".toList := rfl
    rw [h1]
    apply strings.Trim_eq_self
    · intro c hc
      cases B with
      | nil => exact absurd rfl hB
      | cons b0 B' =>
        simp only [List.cons_append, List.head?_cons, Option.mem_def, Option.some.injEq] at hc
        subst hc
        intro hmem
        have : b0 = '/' := by simpa using hmem
        exact hBs (by simp [this])
    · intro c hc
      have hl : (B ++ '/' :: K).getLast? = K.getLast? := by
        rw [List.getLast?_append]
        cases hk : (('/' :: K).getLast?) with
        | none => simp at hk
        | some x =>
          cases K with
          | nil => exact absurd rfl hK
          | cons k0 K' => simp [List.getLast?_cons_cons] at hk ⊢; exact hk.symm
      rw [hl] at hc
      intro hmem
      have : c = '/' := by simpa using hmem
      subst this
      exact hK2 hc
  rw [hraw, parseUrfsURL_of_ok hu,
    locatorOf_found hs (by rw [hh]; exact hE) (by rw [hp]; exact List.cons_ne_nil _ _)
      (by rw [htrim]; exact strings.Cut_append K hBs), hh]


/-- Witness of C1 (amended): `urfs://obs.example.com:443/cache/K1/K2`, the
same locator with the bracketed IPv6 host `[2001:db8::68]:9000`, and with a
host that holds the byte `0xe9`. -/
theorem parseUrfsURL_plain_locator_witness :
    parseUrfsURL ("urfs://".toList ++ "obs.example.com:443".toList ++ "/".toList ++
        "cache".toList ++ "/".toList ++ "K1/K2".toList) =
      ("obs.example.com:443".toList, "cache".toList, "K1/K2".toList, none) ∧
    parseUrfsURL ("urfs://".toList ++ "[2001:db8::68]:9000".toList ++ "/".toList ++
        "cache".toList ++ "/".toList ++ "K1/K2".toList) =
      ("[2001:db8::68]:9000".toList, "cache".toList, "K1/K2".toList, none) ∧
    parseUrfsURL ("urfs://".toList ++ ['c', 'a', 'f', Char.ofNat 0xe9] ++ "/".toList ++
        "cache".toList ++ "/".toList ++ "K1/K2".toList) =
      (['c', 'a', 'f', Char.ofNat 0xe9], "cache".toList, "K1/K2".toList, none) :=
  ⟨parseUrfsURL_plain_locator "obs.example.com:443".toList "cache".toList "K1/K2".toList
      (by decide) (by decide) (by decide) (by decide) (by decide) (by decide) (by decide)
      (by decide) (by decide),
    parseUrfsURL_plain_locator "[2001:db8::68]:9000".toList "cache".toList "K1/K2".toList
      (by decide) (by decide) (by decide) (by decide) (by decide) (by decide) (by decide)
      (by decide) (by decide),
    parseUrfsURL_plain_locator ['c', 'a', 'f', Char.ofNat 0xe9] "cache".toList "K1/K2".toList
      (by decide) (by decide) (by decide) (by decide) (by decide) (by decide) (by decide)
      (by decide) (by decide)⟩

/-- Counterexample to C1: for the host `E`, the bucket `B` and the key `a?b`
(non-empty, no slash at either end), `parseUrfsURL("urfs://E/B/a?b")`
returns the key `a`, not `a?b`; for the key `a%2Fb` it returns `a/b`; and
for the host `e f` it fails. -/
theorem parseUrfsURL_key_cut_at_query :
    parseUrfsURL ("urfs://".toList ++ "E".toList ++ "/".toList ++ "B".toList ++ "/".toList ++
        "a?b".toList) = ("E".toList, "B".toList, "a".toList, none) ∧
    parseUrfsURL ("urfs://".toList ++ "E".toList ++ "/".toList ++ "B".toList ++ "/".toList ++
        "a%2Fb".toList) = ("E".toList, "B".toList, "a/b".toList, none) ∧
    (parseUrfsURL ("urfs://".toList ++ "e f".toList ++ "/".toList ++ "B".toList ++ "/".toList ++
        "K".toList)).2.2.2 ≠ none := by
  decide

namespace url

open encoding

theorem upperhex_mem (n : Nat) : upperhex n ∈ "0123456789ABCDEF".toList := by
  unfold upperhex
  rcases Nat.lt_or_ge n 16 with h | h
  · interval_cases n <;> decide
  · rw [List.getD_eq_default _ _ (by simpa using h)]
    decide

/-- The bytes `escape` writes: bytes it leaves unescaped, `%`, `+`, and
upper-case hexadecimal digits. -/
theorem escape_mem {mode : encoding} {c : Char} :
    ∀ (s : GoString), c ∈ escape s mode →
      shouldEscape c mode = false ∨ c = '%' ∨ c = '+' ∨ c ∈ "0123456789ABCDEF".toList := by
  intro s
  induction s with
  | nil => intro h; simp [escape] at h
  | cons d rest ih =>
    intro h
    unfold escape at h
    split at h
    · rename_i hd
      split at h
      · rcases List.mem_cons.mp h with h | h
        · exact Or.inr (Or.inr (Or.inl h))
        · exact ih h
      · rcases List.mem_cons.mp h with h | h
        · exact Or.inr (Or.inl h)
        · rcases List.mem_cons.mp h with h | h
          · exact Or.inr (Or.inr (Or.inr (h ▸ upperhex_mem _)))
          · rcases List.mem_cons.mp h with h | h
            · exact Or.inr (Or.inr (Or.inr (h ▸ upperhex_mem _)))
            · exact ih h
    · rename_i hd
      rcases List.mem_cons.mp h with h | h
      · left
        rw [h]
        simpa using hd
      · exact ih h

/-- What `escape` writes for a host, a path or a query component holds no
`?`, no `#` and no control byte. -/
theorem escape_safe {mode : encoding} (hm : mode = encodeHost ∨ mode = encodePath ∨
    mode = encodeQueryComponent) {s : GoString} {c : Char} (hc : c ∈ escape s mode) :
    c ≠ '?' ∧ c ≠ '#' ∧ 0x20 < c.toNat ∧ c.toNat < 0x7f := by
  rcases escape_mem s hc with h | h | h | h
  · refine ⟨?_, ?_, (toNat_of_shouldEscape_false h).1, (toNat_of_shouldEscape_false h).2⟩
    · rintro rfl
      rcases hm with rfl | rfl | rfl <;> revert h <;> decide
    · rintro rfl
      rcases hm with rfl | rfl | rfl <;> revert h <;> decide
  · subst h; decide
  · subst h; decide
  · have : ∀ d ∈ "0123456789ABCDEF".toList,
        d ≠ '?' ∧ d ≠ '#' ∧ 0x20 < d.toNat ∧ d.toNat < 0x7f := by decide
    exact this c h

/-- What `escape` writes for a host holds no `/` and no `@`. -/
theorem escape_host_safe {s : GoString} {c : Char} (hc : c ∈ escape s encodeHost) :
    c ≠ '/' ∧ c ≠ '@' := by
  rcases escape_mem s hc with h | h | h | h
  · exact ⟨(ne_of_shouldEscape_host h).1, (ne_of_shouldEscape_host h).2.2.2.1⟩
  · subst h; decide
  · subst h; decide
  · have : ∀ d ∈ "0123456789ABCDEF".toList, d ≠ '/' ∧ d ≠ '@' := by decide
    exact this c h

/-- Escaping changes nothing in a text whose bytes need no escaping. -/
theorem escape_of_plain {mode : encoding} :
    ∀ (s : GoString), (∀ c ∈ s, shouldEscape c mode = false) → escape s mode = s := by
  intro s
  induction s with
  | nil => intro _; rfl
  | cons d rest ih =>
    intro h
    unfold escape
    rw [if_neg (by rw [h d (List.mem_cons_self d rest)]; decide),
      ih (fun c hc => h c (List.mem_cons_of_mem d hc))]

theorem splitQuery_of_query (u : URL) (X q : GoString) (hX : '?' ∉ X) (hq : '?' ∉ q) :
    splitQuery u (X ++ (if q ≠ [] then '?' :: q else [])) = (X, { u with RawQuery := q }) := by
  by_cases hne : q ≠ []
  · rw [if_pos hne]
    have hsuf : strings.HasSuffix (X ++ '?' :: q) "?".toList = false := by
      unfold strings.HasSuffix
      have hrev : (X ++ '?' :: q).reverse = q.reverse ++ '?' :: X.reverse := by simp
      rw [hrev]
      cases hqr : q.reverse with
      | nil => exact absurd (List.reverse_eq_nil_iff.mp hqr) hne
      | cons c r =>
        have hc : c ∈ q := by
          have : c ∈ q.reverse := by rw [hqr]; exact List.mem_cons_self c r
          exact List.mem_reverse.mp this
        have hcq : c ≠ '?' := fun e => hq (e ▸ hc)
        have hcq' : ¬ '?' = c := fun e => hcq e.symm
        simp [List.isPrefixOf, hcq']
    unfold splitQuery
    rw [hsuf, strings.Cut_append q hX]
    rfl
  · rw [if_neg hne, List.append_nil, splitQuery_of_no_query u X hX, not_not.mp hne]

/-- `parse` on `http:R`, by the steps that remain after the scheme. -/
theorem parse_http (R : GoString) :
    parse ("http:".toList ++ R) false =
      if stringContainsCTLByte ("http:".toList ++ R) then
        .error (.New "net/url: invalid control character in URL".toList)
      else
        parseTail false (splitQuery { Scheme := "http".toList } R).2
          (splitQuery { Scheme := "http".toList } R).1 := by
  unfold parse
  by_cases hctl : stringContainsCTLByte ("http:".toList ++ R) = true
  · rw [if_pos hctl, if_pos hctl]
  · rw [if_neg hctl, if_neg hctl, if_neg (by simp), if_neg (by simp), getScheme_http]
    rfl

/-- Parsing `http:X?q` again gives back the raw query `q`. -/
theorem Parse_RawQuery (X q : GoString) (hX1 : '?' ∉ X) (hX2 : '#' ∉ X) (hq1 : '?' ∉ q)
    (hq2 : '#' ∉ q) (u : URL)
    (h : Parse ("http:".toList ++ (X ++ (if q ≠ [] then '?' :: q else []))) = .ok u) :
    u.RawQuery = q := by
  have hfrag : '#' ∉ "http:".toList ++ (X ++ (if q ≠ [] then '?' :: q else [])) := by
    simp only [List.mem_append, not_or]
    refine ⟨by decide, hX2, ?_⟩
    split
    · simp only [List.mem_cons, not_or]
      exact ⟨by decide, hq2⟩
    · simp
  unfold Parse at h
  rw [strings.Cut_of_not_mem hfrag] at h
  dsimp only at h
  cases hp : parse ("http:".toList ++ (X ++ (if q ≠ [] then '?' :: q else []))) false with
  | error e =>
    rw [hp] at h
    cases e <;> cases h
  | ok url =>
    rw [hp] at h
    dsimp only at h
    rw [if_pos rfl] at h
    cases h
    rw [parse_http, splitQuery_of_query _ X q hX1 hq1] at hp
    dsimp only at hp
    by_cases hctl : stringContainsCTLByte
        ("http:".toList ++ (X ++ (if q ≠ [] then '?' :: q else []))) = true
    · rw [if_pos hctl] at hp
      cases hp
    · rw [if_neg hctl] at hp
      exact (parseTail_fields hp).2

end url
theorem setPath_nil (u : url.URL) :
    url.setPath u [] = .ok { u with Path := [], RawPath := [] } := by
  unfold url.setPath
  rfl

theorem peerURL_eq (peer : GoString) :
    peerURL peer = "http:".toList ++
      (if peer ≠ [] then '/' :: '/' :: url.escape peer url.encoding.encodeHost else []) := by
  by_cases hp : peer = []
  · subst hp
    decide
  · rw [if_pos hp]
    unfold peerURL url.URL.String url.URL.EscapedPath
    simp [hp, url.escape]

/-- The URL `url.Parse` makes of the peer URL has the scheme `http`, a host,
and nothing else. -/
theorem Parse_peerURL {peer : GoString} {u : url.URL}
    (h : url.Parse (peerURL peer) = .ok u) :
    u = { Scheme := "http".toList, Host := u.Host } ∧
      (peer ≠ [] → url.parseHost (url.escape peer url.encoding.encodeHost) = .ok u.Host) ∧
      (peer = [] → u.Host = []) := by
  by_cases hp : peer = []
  · subst hp
    have h2 : url.Parse (peerURL []) = .ok { Scheme := "http".toList } := by decide
    rw [h2] at h
    cases h
    exact ⟨rfl, fun hne => absurd rfl hne, fun _ => rfl⟩
  · rw [peerURL_eq, if_pos hp] at h
    have hsafe : ∀ c ∈ url.escape peer url.encoding.encodeHost,
        c ≠ '?' ∧ c ≠ '#' ∧ c ≠ '/' ∧ c ≠ '@' := fun c hc =>
      ⟨(url.escape_safe (Or.inl rfl) hc).1, (url.escape_safe (Or.inl rfl) hc).2.1,
        (url.escape_host_safe hc).1, (url.escape_host_safe hc).2⟩
    have hfrag : '#' ∉ "http:".toList ++
        '/' :: '/' :: url.escape peer url.encoding.encodeHost := by
      simp only [List.mem_append, List.mem_cons, not_or]
      exact ⟨by decide, by decide, by decide, fun hc => (hsafe _ hc).2.1 rfl⟩
    have hq : '?' ∉ '/' :: '/' :: (url.escape peer url.encoding.encodeHost ++ []) := by
      simp only [List.mem_cons, List.append_nil, not_or]
      exact ⟨by decide, by decide, fun hc => (hsafe _ hc).1 rfl⟩
    unfold url.Parse at h
    rw [strings.Cut_of_not_mem hfrag] at h
    dsimp only at h
    have hR : '/' :: '/' :: url.escape peer url.encoding.encodeHost =
        '/' :: '/' :: (url.escape peer url.encoding.encodeHost ++ []) := by simp
    rw [hR, url.parse_http, url.splitQuery_of_no_query _ _ hq] at h
    dsimp only at h
    rw [url.parseTail_authority false _ _ [] (by decide)
        (fun hc => (hsafe _ hc).2.2.1 rfl) (Or.inl rfl),
      url.parseAuthority_of_no_at (fun hc => (hsafe _ hc).2.2.2 rfl)] at h
    by_cases hctl : url.stringContainsCTLByte ("http:".toList ++
        '/' :: '/' :: (url.escape peer url.encoding.encodeHost ++ [])) = true
    · rw [if_pos hctl] at h
      cases h
    · rw [if_neg hctl] at h
      cases hh : url.parseHost (url.escape peer url.encoding.encodeHost) with
      | error e =>
        rw [hh] at h
        cases e <;> cases h
      | ok host =>
        rw [hh] at h
        dsimp only at h
        rw [setPath_nil] at h
        dsimp only at h
        rw [if_pos rfl] at h
        cases h
        exact ⟨rfl, fun _ => rfl, fun he => absurd he hp⟩


/-- The text `(*URL).String` writes for the URL of a request: `http:`, the
host and the path, then the query. -/
theorem String_target (h p q : GoString) :
    url.URL.String { Scheme := "http".toList, Host := h, Path := p, RawQuery := q } =
      "http:".toList ++ (targetText h p ++ (if q ≠ [] then '?' :: q else [])) := by
  have hEP : url.URL.EscapedPath
      { Scheme := "http".toList, Host := h, Path := p, RawQuery := q } =
      (if p = "*".toList then "*".toList else url.escape p url.encoding.encodePath) := by
    unfold url.URL.EscapedPath
    simp
  unfold url.URL.String targetText
  rw [hEP]
  generalize (if p = "*".toList then "*".toList else url.escape p url.encoding.encodePath) = EP
  generalize url.escape h url.encoding.encodeHost = EH
  by_cases hh : h = [] <;> by_cases hp : p = [] <;> by_cases hq : q = [] <;>
    by_cases h1 : EP = [] <;> by_cases h2 : EP.head? = some '/' <;>
    simp [hh, hp, hq, h1, h2]

theorem Query_of_empty (u : url.URL) (h : u.RawQuery = []) : u.Query = [] := by
  unfold url.URL.Query
  rw [h]
  rfl

theorem QueryEscape_filter : url.QueryEscape "filter".toList = "filter".toList := by decide

theorem QueryEscape_overwrite : url.QueryEscape "overwrite".toList = "overwrite".toList := by
  decide

theorem QueryEscape_one : url.QueryEscape "1".toList = "1".toList := by decide

theorem Encode_filter (f : GoString) :
    url.Values.Encode [("filter".toList, [f])] = "filter=".toList ++ url.QueryEscape f := by
  unfold url.Values.Encode
  rw [List.flatMap_cons, List.flatMap_nil, List.append_nil]
  dsimp only [url.encodeKey]
  rw [strings.intercalate_singleton, QueryEscape_filter]
  rfl

theorem Encode_overwrite :
    url.Values.Encode [("overwrite".toList, ["1".toList])] = "overwrite=1".toList := by
  decide

theorem Encode_filter_overwrite (f : GoString) :
    url.Values.Encode [("filter".toList, [f]), ("overwrite".toList, ["1".toList])] =
      "filter=".toList ++ url.QueryEscape f ++ "&".toList ++ "overwrite=1".toList := by
  unfold url.Values.Encode
  rw [List.flatMap_cons, List.flatMap_cons, List.flatMap_nil, List.append_nil]
  dsimp only [url.encodeKey]
  rw [List.singleton_append, strings.intercalate_cons_cons, strings.intercalate_singleton,
    QueryEscape_filter, QueryEscape_overwrite, QueryEscape_one]
  simp

theorem Encode_nil : url.Values.Encode [] = [] := rfl

theorem Encode_fetchQuery (input : dfstore.GetUrfsInput) (isDir : Bool) :
    (fetchQuery input isDir []).Encode =
      expectedQuery input.Filter (!isDir && input.Overwrite) := by
  unfold fetchQuery expectedQuery
  by_cases hf : input.Filter = [] <;> cases hb : (!isDir && input.Overwrite)
  · have h := Encode_nil
    simpa [hf] using h
  · have h := Encode_overwrite
    simpa [hf, url.Values.Set, url.Values.store] using h
  · have h := Encode_filter input.Filter
    simpa [hf, url.Values.Set, url.Values.store] using h
  · have h := Encode_filter_overwrite input.Filter
    simpa [hf, url.Values.Set, url.Values.store] using h

theorem Encode_statusQuery (input : dfstore.GetUrfsInput) :
    (statusQuery input []).Encode = expectedQuery input.Filter false := by
  unfold statusQuery expectedQuery
  by_cases hf : input.Filter = []
  · have h := Encode_nil
    simpa [hf] using h
  · have h := Encode_filter input.Filter
    simpa [hf, url.Values.Set, url.Values.store] using h

theorem mem_of_mem_ite {P : Prop} [Decidable P] {l : GoString} {c : Char}
    (h : c ∈ (if P then l else [])) : c ∈ l := by
  by_cases hP : P
  · rwa [if_pos hP] at h
  · rw [if_neg hP] at h
    cases h

/-- The host and path text of a request URL holds no `?` and no `#`. -/
theorem targetText_safe (h p : GoString) {c : Char} (hc : c ∈ targetText h p) :
    c ≠ '?' ∧ c ≠ '#' := by
  have hE : ∀ d ∈ (if p = "*".toList then "*".toList
      else url.escape p url.encoding.encodePath), d ≠ '?' ∧ d ≠ '#' := by
    intro d hd
    split at hd
    · have : ∀ e ∈ "*".toList, e ≠ '?' ∧ e ≠ '#' := by decide
      exact this d hd
    · exact ⟨(url.escape_safe (Or.inr (Or.inl rfl)) hd).1,
        (url.escape_safe (Or.inr (Or.inl rfl)) hd).2.1⟩
  have hS : ∀ e ∈ "//".toList, e ≠ '?' ∧ e ≠ '#' := by decide
  have hT : ∀ e ∈ "/".toList, e ≠ '?' ∧ e ≠ '#' := by decide
  unfold targetText at hc
  rw [List.mem_append, List.mem_append, List.mem_append] at hc
  rcases hc with ((hc | hc) | hc) | hc
  · exact hS c (mem_of_mem_ite hc)
  · have hc2 := mem_of_mem_ite hc
    exact ⟨(url.escape_safe (Or.inl rfl) hc2).1, (url.escape_safe (Or.inl rfl) hc2).2.1⟩
  · exact hT c (mem_of_mem_ite hc)
  · exact hE c hc

/-- The query text in the words of the specification holds no `?` and no `#`. -/
theorem expectedQuery_safe (filter : GoString) (overwrite : Bool) {c : Char}
    (hc : c ∈ expectedQuery filter overwrite) : c ≠ '?' ∧ c ≠ '#' := by
  have h1 : ∀ e ∈ "filter=".toList, e ≠ '?' ∧ e ≠ '#' := by decide
  have h2 : ∀ e ∈ "&".toList, e ≠ '?' ∧ e ≠ '#' := by decide
  have h3 : ∀ e ∈ "overwrite=1".toList, e ≠ '?' ∧ e ≠ '#' := by decide
  unfold expectedQuery at hc
  rw [List.mem_append, List.mem_append] at hc
  rcases hc with (hc | hc) | hc
  · split at hc
    · rw [List.mem_append] at hc
      rcases hc with hc | hc
      · exact h1 c hc
      · exact ⟨(url.escape_safe (Or.inr (Or.inr rfl)) hc).1,
          (url.escape_safe (Or.inr (Or.inr rfl)) hc).2.1⟩
    · cases hc
  · split at hc
    · exact h2 c hc
    · cases hc
  · split at hc
    · exact h3 c hc
    · cases hc

/-- The request `http.NewRequestWithContext` makes of the text of a URL with
the scheme `http`, a host, a path and the query `q` has the raw query `q`. -/
theorem NewRequestWithContext_RawQuery {method h p q : GoString} {req : http.Request}
    (hm : method ≠ []) (hq : ∀ c ∈ q, c ≠ '?' ∧ c ≠ '#')
    (hreq : http.NewRequestWithContext method
      (url.URL.String { Scheme := "http".toList, Host := h, Path := p, RawQuery := q }) =
        .ok req) :
    req.URL.RawQuery = q := by
  obtain ⟨u, hu, rfl⟩ := NewRequestWithContext_ok_inv hm hreq
  rw [String_target] at hu
  exact url.Parse_RawQuery (targetText h p) q (fun hc => (targetText_safe h p hc).1 rfl)
    (fun hc => (targetText_safe h p hc).2 rfl) (fun hc => (hq _ hc).1 rfl)
    (fun hc => (hq _ hc).2 rfl) u hu

theorem fetchTarget_eq (input : dfstore.GetUrfsInput) (isDir : Bool) (h : GoString) :
    fetchTarget input isDir { Scheme := "http".toList, Host := h } =
      { Scheme := "http".toList, Host := h,
        Path := (path.Join ["buckets".toList, input.BucketName ++ ".".toList ++ input.Endpoint,
          if isDir then "cache_folder".toList else "cache_object".toList, input.ObjectKey]),
        RawQuery := expectedQuery input.Filter (!isDir && input.Overwrite) } := by
  unfold fetchTarget
  rw [Query_of_empty _ rfl, Encode_fetchQuery]

theorem statusTarget_eq (input : dfstore.GetUrfsInput) (isDir : Bool) (h : GoString) :
    statusTarget input isDir { Scheme := "http".toList, Host := h } =
      { Scheme := "http".toList, Host := h,
        Path := (path.Join ["buckets".toList, input.BucketName ++ ".".toList ++ input.Endpoint,
          if isDir then "check_folder".toList else "check_object".toList, input.ObjectKey]),
        RawQuery := expectedQuery input.Filter false } := by
  unfold statusTarget
  rw [Query_of_empty _ rfl, Encode_statusQuery]

/-- What a successful `GetUrfsRequestWithContext` went through. -/
theorem GetUrfsRequestWithContext_ok_inv {input : dfstore.GetUrfsInput} {isDir : Bool}
    {req : http.Request} (h : dfstore.GetUrfsRequestWithContext input isDir = .ok req) :
    ∃ u r, input.Validate = none ∧ url.Parse (peerURL input.DstPeer) = .ok u ∧
      http.NewRequestWithContext http.MethodPost (fetchTarget input isDir u).String = .ok r ∧
      req = withRange input.Range r := by
  rw [GetUrfsRequestWithContext_eq] at h
  cases hv : input.Validate with
  | some err => rw [hv] at h; cases h
  | none =>
    rw [hv] at h
    dsimp only at h
    cases hp : url.Parse (peerURL input.DstPeer) with
    | error err => rw [hp] at h; cases h
    | ok u =>
      rw [hp] at h
      dsimp only at h
      cases hn : http.NewRequestWithContext http.MethodPost (fetchTarget input isDir u).String with
      | error err => rw [hn] at h; cases h
      | ok r =>
        rw [hn] at h
        cases h
        exact ⟨u, r, rfl, rfl, hn, rfl⟩

/-- What a successful `GetUrfsStatusRequestWithContext` went through. -/
theorem GetUrfsStatusRequestWithContext_ok_inv {input : dfstore.GetUrfsInput} {isDir : Bool}
    {req : http.Request} (h : dfstore.GetUrfsStatusRequestWithContext input isDir = .ok req) :
    ∃ u r, input.Validate = none ∧ url.Parse (peerURL input.DstPeer) = .ok u ∧
      http.NewRequestWithContext http.MethodGet (statusTarget input isDir u).String = .ok r ∧
      req = withRange input.Range r := by
  rw [GetUrfsStatusRequestWithContext_eq] at h
  cases hv : input.Validate with
  | some err => rw [hv] at h; cases h
  | none =>
    rw [hv] at h
    dsimp only at h
    cases hp : url.Parse (peerURL input.DstPeer) with
    | error err => rw [hp] at h; cases h
    | ok u =>
      rw [hp] at h
      dsimp only at h
      cases hn : http.NewRequestWithContext http.MethodGet (statusTarget input isDir u).String with
      | error err => rw [hn] at h; cases h
      | ok r =>
        rw [hn] at h
        cases h
        exact ⟨u, r, rfl, rfl, hn, rfl⟩

theorem query_rule_fetch {input : dfstore.GetUrfsInput} {isDir : Bool} {req : http.Request}
    (h : dfstore.GetUrfsRequestWithContext input isDir = .ok req) :
    req.URL.RawQuery = expectedQuery input.Filter (!isDir && input.Overwrite) := by
  obtain ⟨u, r, _, hp, hn, rfl⟩ := GetUrfsRequestWithContext_ok_inv h
  rw [withRange_URL]
  rw [(Parse_peerURL hp).1, fetchTarget_eq] at hn
  exact NewRequestWithContext_RawQuery (by decide) (fun c hc => expectedQuery_safe _ _ hc) hn

theorem query_rule_status {input : dfstore.GetUrfsInput} {isDir : Bool} {req : http.Request}
    (h : dfstore.GetUrfsStatusRequestWithContext input isDir = .ok req) :
    req.URL.RawQuery = expectedQuery input.Filter false := by
  obtain ⟨u, r, _, hp, hn, rfl⟩ := GetUrfsStatusRequestWithContext_ok_inv h
  rw [withRange_URL]
  rw [(Parse_peerURL hp).1, statusTarget_eq] at hn
  exact NewRequestWithContext_RawQuery (by decide) (fun c hc => expectedQuery_safe _ _ hc) hn

namespace url

open encoding

theorem ishex_upperhex (n : Nat) : ishex (upperhex n) = true := by
  have h : ∀ d ∈ "0123456789ABCDEF".toList, ishex d = true := by decide
  exact h _ (upperhex_mem n)

theorem unhex_upperhex {n : Nat} (h : n < 16) : unhex (upperhex n) = n := by
  interval_cases n <;> decide

theorem escape_cons_of_escaped {c : Char} {rest : GoString}
    (h : shouldEscape c encodePath = true) :
    escape (c :: rest) encodePath =
      '%' :: upperhex (c.toNat / 16 % 16) :: upperhex (c.toNat % 16) :: escape rest encodePath := by
  rw [escape, if_pos h, if_neg (by simp)]

theorem escape_cons_of_plain {mode : encoding} {c : Char} {rest : GoString}
    (h : shouldEscape c mode = false) : escape (c :: rest) mode = c :: escape rest mode := by
  rw [escape, if_neg (by simp [h])]

theorem unescapeCheck_escaped (h1 h2 : Char) (rest : GoString) (e1 : ishex h1 = true)
    (e2 : ishex h2 = true) :
    unescapeCheck encodePath ('%' :: h1 :: h2 :: rest) = unescapeCheck encodePath rest := by
  rw [unescapeCheck, e1, e2]
  rw [if_neg (by simp), if_neg (by simp), if_neg (by simp)]

/-- What `escape` writes for a path passes the first loop of `unescape`. -/
theorem unescapeCheck_escape : ∀ (s : GoString),
    unescapeCheck encodePath (escape s encodePath) = .ok ()
  | [] => rfl
  | c :: rest => by
    cases h : shouldEscape c encodePath
    · have hc : c ≠ '%' := by
        rintro rfl
        revert h
        decide
      rw [escape_cons_of_plain h, unescapeCheck_cons hc, if_neg (by simp)]
      exact unescapeCheck_escape rest
    · rw [escape_cons_of_escaped h,
        unescapeCheck_escaped _ _ _ (ishex_upperhex _) (ishex_upperhex _)]
      exact unescapeCheck_escape rest

/-- Decoding what `escape` writes for a path of bytes gives the path back. -/
theorem unescapeDecode_escape : ∀ (s : GoString), (∀ c ∈ s, c.toNat < 256) →
    unescapeDecode encodePath (escape s encodePath) = s
  | [], _ => rfl
  | c :: rest, hs => by
    have ih := unescapeDecode_escape rest (fun d hd => hs d (List.mem_cons_of_mem c hd))
    have hc256 := hs c (List.mem_cons_self c rest)
    cases h : shouldEscape c encodePath
    · have hc : c ≠ '%' := by
        rintro rfl
        revert h
        decide
      rw [escape_cons_of_plain h]
      by_cases hp : c = '+'
      · subst hp
        rw [unescapeDecode_plus (by decide), ih]
      · rw [unescapeDecode_cons hc hp, ih]
    · rw [escape_cons_of_escaped h, unescapeDecode, ih,
        unhex_upperhex (Nat.mod_lt _ (by decide)), unhex_upperhex (Nat.mod_lt _ (by decide))]
      have e : c.toNat / 16 % 16 * 16 + c.toNat % 16 = c.toNat := by omega
      rw [e, Char.ofNat_toNat]

/-- Unescaping an escaped path of bytes gives the path back. -/
theorem unescape_escape (s : GoString) (hs : ∀ c ∈ s, c.toNat < 256) :
    unescape (escape s encodePath) encodePath = .ok s := by
  unfold unescape
  rw [unescapeCheck_escape, unescapeDecode_escape s hs]

/-- Setting the escaped text of a path of bytes stores the path and no raw path. -/
theorem setPath_escape (u : URL) (s : GoString) (hs : ∀ c ∈ s, c.toNat < 256) :
    setPath u (escape s encodePath) = .ok { u with Path := s, RawPath := [] } := by
  unfold setPath
  rw [unescape_escape s hs]
  dsimp only
  rw [if_pos rfl]

end url

namespace url

open encoding

theorem escape_cons_host_escaped {c : Char} {rest : GoString}
    (h : shouldEscape c encodeHost = true) :
    escape (c :: rest) encodeHost =
      '%' :: upperhex (c.toNat / 16 % 16) :: upperhex (c.toNat % 16) :: escape rest encodeHost := by
  rw [escape, if_pos h, if_neg (by simp)]

/-- The bytes `escape` writes are bytes of the text, `%`, `+`, or
upper-case hexadecimal digits. -/
theorem mem_escape {mode : encoding} {c : Char} :
    ∀ (s : GoString), c ∈ escape s mode →
      c ∈ s ∨ c = '%' ∨ c = '+' ∨ c ∈ "0123456789ABCDEF".toList := by
  intro s
  induction s with
  | nil => intro h; simp [escape] at h
  | cons d rest ih =>
    intro h
    have hrest : c ∈ escape rest mode →
        c ∈ d :: rest ∨ c = '%' ∨ c = '+' ∨ c ∈ "0123456789ABCDEF".toList := by
      intro h2
      rcases ih h2 with h3 | h3
      · exact Or.inl (List.mem_cons_of_mem d h3)
      · exact Or.inr h3
    unfold escape at h
    split at h
    · split at h
      · rw [List.mem_cons] at h
        rcases h with h | h
        · exact Or.inr (Or.inr (Or.inl h))
        · exact hrest h
      · simp only [List.mem_cons] at h
        rcases h with h | h | h | h
        · exact Or.inr (Or.inl h)
        · exact Or.inr (Or.inr (Or.inr (h ▸ upperhex_mem _)))
        · exact Or.inr (Or.inr (Or.inr (h ▸ upperhex_mem _)))
        · exact hrest h
    · rw [List.mem_cons] at h
      rcases h with h | h
      · exact Or.inl (h ▸ List.mem_cons_self d rest)
      · exact hrest h

theorem escape_append (mode : encoding) (s t : GoString) :
    escape (s ++ t) mode = escape s mode ++ escape t mode := by
  induction s with
  | nil => rfl
  | cons c rest ih =>
    rw [List.cons_append, escape, escape, ih]
    split
    · split <;> rfl
    · rfl

theorem unescapeCheck_host_escaped (h1 h2 : Char) (rest : GoString) (e1 : ishex h1 = true)
    (e2 : ishex h2 = true) (e3 : 8 ≤ unhex h1) :
    unescapeCheck encodeHost ('%' :: h1 :: h2 :: rest) = unescapeCheck encodeHost rest := by
  rw [unescapeCheck, e1, e2]
  rw [if_neg (by simp), if_neg, if_neg (by simp)]
  simp only [Bool.and_eq_true, decide_eq_true_eq, not_and]
  intro _ hlt
  omega

/-- Unescaping the escaped text of a host of host bytes gives the host back. -/
theorem unescape_escape_host : ∀ (s : GoString), (∀ c ∈ s, hostByte c = true) →
    unescape (escape s encodeHost) encodeHost = .ok s := by
  have hcheck : ∀ (s : GoString), (∀ c ∈ s, hostByte c = true) →
      unescapeCheck encodeHost (escape s encodeHost) = .ok () := by
    intro s
    induction s with
    | nil => intro _; rfl
    | cons c rest ih =>
      intro hs
      have hc := hs c (List.mem_cons_self c rest)
      have ih2 := ih (fun d hd => hs d (List.mem_cons_of_mem c hd))
      cases h : shouldEscape c encodeHost
      · rw [escape_cons_of_plain h, unescapeCheck_hostByte hc]
        exact ih2
      · have hbig : 0x80 ≤ c.toNat ∧ c.toNat < 256 := by
          unfold hostByte at hc
          rw [h] at hc
          simpa using hc
        have h8 : 8 ≤ c.toNat / 16 % 16 := by omega
        rw [escape_cons_host_escaped h,
          unescapeCheck_host_escaped _ _ _ (ishex_upperhex _) (ishex_upperhex _)
            (by rw [unhex_upperhex (Nat.mod_lt _ (by decide))]; exact h8)]
        exact ih2
  have hdecode : ∀ (s : GoString), (∀ c ∈ s, hostByte c = true) →
      unescapeDecode encodeHost (escape s encodeHost) = s := by
    intro s
    induction s with
    | nil => intro _; rfl
    | cons c rest ih =>
      intro hs
      have hc := hs c (List.mem_cons_self c rest)
      have ih2 := ih (fun d hd => hs d (List.mem_cons_of_mem c hd))
      have hp := hostByte_props hc
      cases h : shouldEscape c encodeHost
      · rw [escape_cons_of_plain h]
        by_cases hplus : c = '+'
        · subst hplus
          rw [unescapeDecode_plus (by decide), ih2]
        · rw [unescapeDecode_cons hp.2.2.2.2.1 hplus, ih2]
      · rw [escape_cons_host_escaped h, unescapeDecode, ih2,
          unhex_upperhex (Nat.mod_lt _ (by decide)), unhex_upperhex (Nat.mod_lt _ (by decide))]
        have h256 := hp.2.2.2.2.2.2.2
        have e : c.toNat / 16 % 16 * 16 + c.toNat % 16 = c.toNat := by omega
        rw [e, Char.ofNat_toNat]
  intro s hs
  unfold unescape
  rw [hcheck s hs, hdecode s hs]

/-- `parseHost` gives a plain host back from its escaped text. -/
theorem parseHost_escape_plain {host : GoString} (h : plainHost host = true) :
    parseHost (escape host encodeHost) = .ok host := by
  have hb := plainHost_hostBytes h
  rcases plainHost_cases h with ⟨a, port, rfl, ha, hp⟩ | ⟨n, port, rfl, hn, hp⟩
  · have hplain : ∀ c ∈ '[' :: (a ++ ']' :: port), shouldEscape c encodeHost = false := by
      intro c hc
      simp only [List.mem_cons, List.mem_append] at hc
      rcases hc with rfl | hc | rfl | hc
      · decide
      · exact (ipv6Text_bytes ha c hc).1
      · decide
      · exact (validOptionalPort_bytes hp c hc).1
    rw [escape_of_plain _ hplain]
    exact parseHost_bracket a port ha hp
  · have hpb := validOptionalPort_bytes hp
    have hesc : escape (n ++ port) encodeHost = escape n encodeHost ++ port := by
      rw [escape_append, escape_of_plain port (fun c hc => (hpb c hc).1)]
    have hne : ∀ c ∈ escape n encodeHost, c ≠ '[' ∧ c ≠ ':' := by
      intro c hc
      rcases mem_escape n hc with h1 | rfl | rfl | h1
      · exact (hn c h1).2
      · decide
      · decide
      · have : ∀ d ∈ "0123456789ABCDEF".toList, d ≠ '[' ∧ d ≠ ':' := by decide
        exact this c h1
    have h1 : '[' ∉ escape n encodeHost ++ port := by
      rw [List.mem_append, not_or]
      exact ⟨fun hc => (hne _ hc).1 rfl, fun hc => (hpb _ hc).2.1 rfl⟩
    have hun := unescape_escape_host _ hb
    rw [hesc] at hun ⊢
    rw [parseHost_name _ port h1 (fun hc => (hne _ hc).2 rfl) hp]
    exact hun

/-- Parsing `http://a` followed by a path text `X` and the query `q`, for an
authority text `a` that `parseHost` makes the host `h` of: the host is `h`,
the path what `setPath` makes of `X`, the raw query `q`. -/
theorem Parse_http_authority (a h X q P : GoString)
    (hab : ∀ c ∈ a, c ≠ '/' ∧ c ≠ '?' ∧ c ≠ '#' ∧ c ≠ '@' ∧ 0x20 ≤ c.toNat ∧ c.toNat ≠ 0x7f)
    (hparse : parseHost a = .ok h)
    (hX : X = [] ∨ ∃ p2, X = '/' :: p2)
    (hXb : ∀ c ∈ X, c ≠ '?' ∧ c ≠ '#' ∧ 0x20 ≤ c.toNat ∧ c.toNat ≠ 0x7f)
    (hqb : ∀ c ∈ q, c ≠ '?' ∧ c ≠ '#' ∧ 0x20 ≤ c.toNat ∧ c.toNat ≠ 0x7f)
    (hset : ∀ u : URL, setPath u X = .ok { u with Path := P, RawPath := [] }) :
    Parse ("http:".toList ++ ('/' :: '/' :: (a ++ X) ++ (if q ≠ [] then '?' :: q else []))) =
      .ok { Scheme := "http".toList, Host := h, Path := P, RawQuery := q } := by
  have hYb : ∀ c ∈ '/' :: '/' :: (a ++ X), c ≠ '?' ∧ c ≠ '#' ∧ 0x20 ≤ c.toNat ∧
      c.toNat ≠ 0x7f := by
    intro c hc
    simp only [List.mem_cons, List.mem_append] at hc
    rcases hc with rfl | rfl | hc | hc
    · decide
    · decide
    · exact ⟨(hab c hc).2.1, (hab c hc).2.2.1, (hab c hc).2.2.2.2.1, (hab c hc).2.2.2.2.2⟩
    · exact hXb c hc
  have hQb : ∀ c ∈ (if q ≠ [] then '?' :: q else []), c ≠ '#' ∧ 0x20 ≤ c.toNat ∧
      c.toNat ≠ 0x7f := by
    intro c hc
    have hc2 := mem_of_mem_ite hc
    simp only [List.mem_cons] at hc2
    rcases hc2 with rfl | hc2
    · decide
    · exact ⟨(hqb c hc2).2.1, (hqb c hc2).2.2.1, (hqb c hc2).2.2.2⟩
  have hall : ∀ c ∈ "http:".toList ++
      ('/' :: '/' :: (a ++ X) ++ (if q ≠ [] then '?' :: q else [])),
      c ≠ '#' ∧ 0x20 ≤ c.toNat ∧ c.toNat ≠ 0x7f := by
    intro c hc
    rw [List.mem_append, List.mem_append] at hc
    rcases hc with hc | hc | hc
    · have : ∀ d ∈ "http:".toList, d ≠ '#' ∧ 0x20 ≤ d.toNat ∧ d.toNat ≠ 0x7f := by decide
      exact this c hc
    · exact (hYb c hc).2
    · exact hQb c hc
  have hfrag : '#' ∉ "http:".toList ++
      ('/' :: '/' :: (a ++ X) ++ (if q ≠ [] then '?' :: q else [])) :=
    fun hc => (hall _ hc).1 rfl
  have hctl := stringContainsCTLByte_eq_false (fun c hc => (hall c hc).2)
  unfold Parse
  rw [strings.Cut_of_not_mem hfrag]
  dsimp only
  rw [parse_http, hctl, if_neg (by simp),
    splitQuery_of_query _ _ q (fun hc => (hYb _ hc).1 rfl) (fun hc => (hqb _ hc).1 rfl)]
  dsimp only
  rw [parseTail_authority false _ a X (by simp) (fun hc => (hab _ hc).1 rfl) hX,
    parseAuthority_of_no_at (fun hc => (hab _ hc).2.2.2.1 rfl), hparse]
  dsimp only
  rw [hset]
  rfl

/-- The escaped text of a plain host holds no `/`, `?`, `#`, `@` and no
control byte. -/
theorem escape_host_bytes (h : GoString) :
    ∀ c ∈ escape h encodeHost,
      c ≠ '/' ∧ c ≠ '?' ∧ c ≠ '#' ∧ c ≠ '@' ∧ 0x20 ≤ c.toNat ∧ c.toNat ≠ 0x7f := by
  intro c hc
  have h1 := escape_safe (Or.inl rfl) hc
  have h2 := escape_host_safe hc
  exact ⟨h2.1, h1.1, h1.2.1, h2.2, by omega, by omega⟩

end url

namespace path

theorem cleanLoop_nil (rooted : Bool) (fuel : Nat) (out : GoString) (dotdot : Nat) :
    cleanLoop rooted fuel out dotdot [] = out := by
  cases fuel <;> rfl

theorem cleanLoop_slash (fuel : Nat) (out : GoString) (dotdot : Nat) (rest : GoString) :
    cleanLoop false (fuel + 1) out dotdot ('/' :: rest) = cleanLoop false fuel out dotdot rest := by
  rw [cleanLoop, if_pos rfl]

theorem cleanElem_iff {s : GoString} :
    cleanElem s = true ↔ s ≠ [] ∧ '/' ∉ s ∧ s ≠ ".".toList ∧ s ≠ "..".toList := by
  unfold cleanElem
  simp only [Bool.and_eq_true, decide_eq_true_eq, Bool.not_eq_true', List.elem_eq_mem,
    decide_eq_false_iff_not, and_assoc]

/-- One round of the loop of `Clean` on a clean element: the element is
appended to the output, after a `/` if the output is not empty. -/
theorem cleanLoop_elem (s : GoString) (hs : cleanElem s = true) (out : GoString) (fuel : Nat)
    (rest : GoString) (hrest : rest = [] ∨ ∃ r, rest = '/' :: r) :
    cleanLoop false (fuel + 1) out 0 (s ++ rest) =
      cleanLoop false fuel ((if out.length ≠ 0 then out ++ ['/'] else out) ++ s) 0 rest := by
  obtain ⟨h1, h2, h3, h4⟩ := cleanElem_iff.mp hs
  have hall : ∀ a ∈ s, (fun b => decide (b ≠ '/')) a = true := by
    intro a ha
    have : a ≠ '/' := fun e => h2 (e ▸ ha)
    simpa using this
  have htw : (s ++ rest).takeWhile (fun b => decide (b ≠ '/')) = s := by
    rw [List.takeWhile_append_of_pos hall]
    rcases hrest with rfl | ⟨r, rfl⟩ <;> simp
  have hdw : (s ++ rest).dropWhile (fun b => decide (b ≠ '/')) = rest := by
    rw [List.dropWhile_append_of_pos hall]
    rcases hrest with rfl | ⟨r, rfl⟩ <;> simp
  cases s with
  | nil => exact absurd rfl h1
  | cons c r =>
    have hc : c ≠ '/' := fun e => h2 (e ▸ List.mem_cons_self c r)
    have hc2 : ¬ ((decide (c = '.') && (decide (r ++ rest = []) ||
        decide ((r ++ rest).head? = some '/'))) = true) := by
      cases r with
      | nil =>
        have : c ≠ '.' := fun e => h3 (by rw [e]; rfl)
        simp [this]
      | cons d r2 =>
        have hd : d ≠ '/' := fun e => h2 (by rw [e]; simp)
        simp [hd]
    have hc3 : ¬ ((decide (c = '.') && decide ((r ++ rest).head? = some '.') &&
        (decide ((r ++ rest).tail = []) || decide ((r ++ rest).tail.head? = some '/'))) = true) := by
      cases r with
      | nil =>
        have : c ≠ '.' := fun e => h3 (by rw [e]; rfl)
        simp [this]
      | cons d r2 =>
        cases r2 with
        | nil =>
          have : ¬ (c = '.' ∧ d = '.') := fun e => h4 (by rw [e.1, e.2]; rfl)
          rcases hrest with rfl | ⟨r, rfl⟩ <;> simp <;> tauto
        | cons e r3 =>
          have he : e ≠ '/' := fun e2 => h2 (by rw [e2]; simp)
          simp [he]
    rw [List.cons_append, cleanLoop, if_neg hc, if_neg hc2, if_neg hc3]
    dsimp only
    rw [← List.cons_append, htw, hdw]
    by_cases ho : out.length = 0 <;> simp [ho]

/-- The loop of `Clean` copies a path made of clean elements. -/
theorem cleanLoop_segments : ∀ (segs : List GoString) (out : GoString) (fuel : Nat),
    (∀ s ∈ segs, cleanElem s = true) → segs ≠ [] →
    (['/'].intercalate segs).length ≤ fuel →
    cleanLoop false fuel out 0 (['/'].intercalate segs) =
      (if out.length ≠ 0 then out ++ ['/'] else out) ++ ['/'].intercalate segs
  | [], _, _, _, hne, _ => absurd rfl hne
  | [s], out, fuel, hs, _, hfuel => by
    rw [strings.intercalate_singleton] at hfuel ⊢
    have h1 := (cleanElem_iff.mp (hs s (List.mem_singleton_self s))).1
    have hlen : 0 < s.length := List.length_pos.mpr h1
    obtain ⟨f, rfl⟩ : ∃ f, fuel = f + 1 := ⟨fuel - 1, by omega⟩
    have h := cleanLoop_elem s (hs s (List.mem_singleton_self s)) out f [] (Or.inl rfl)
    rw [List.append_nil] at h
    rw [h, cleanLoop_nil]
  | s :: t :: ts, out, fuel, hs, _, hfuel => by
    rw [strings.intercalate_cons_cons] at hfuel ⊢
    have h1 := (cleanElem_iff.mp (hs s (List.mem_cons_self s _))).1
    have hlen : 0 < s.length := List.length_pos.mpr h1
    rw [List.append_assoc, List.singleton_append] at hfuel ⊢
    rw [List.length_append, List.length_cons] at hfuel
    obtain ⟨f, rfl⟩ : ∃ f, fuel = f + 2 := ⟨fuel - 2, by omega⟩
    rw [cleanLoop_elem s (hs s (List.mem_cons_self s _)) out (f + 1) _ (Or.inr ⟨_, rfl⟩),
      cleanLoop_slash,
      cleanLoop_segments (t :: ts) _ f (fun x hx => hs x (List.mem_cons_of_mem s hx))
        (List.cons_ne_nil t ts) (by omega)]
    have hlen2 : ((if out.length ≠ 0 then out ++ ['/'] else out) ++ s).length ≠ 0 := by
      rw [List.length_append]
      omega
    rw [if_pos hlen2]
    simp

/-- `Clean` returns a path made of clean elements as it is. -/
theorem Clean_segments (segs : List GoString) (hs : ∀ s ∈ segs, cleanElem s = true)
    (hne : segs ≠ []) : Clean (['/'].intercalate segs) = ['/'].intercalate segs := by
  obtain ⟨s, t, rfl⟩ : ∃ s t, segs = s :: t := by
    cases segs with
    | nil => exact absurd rfl hne
    | cons s t => exact ⟨s, t, rfl⟩
  obtain ⟨h1, h2, _, _⟩ := cleanElem_iff.mp (hs s (List.mem_cons_self s t))
  obtain ⟨c, r, rfl⟩ : ∃ c r, s = c :: r := by
    cases s with
    | nil => exact absurd rfl h1
    | cons c r => exact ⟨c, r, rfl⟩
  have hc : c ≠ '/' := fun e => h2 (e ▸ List.mem_cons_self c r)
  obtain ⟨p, hp⟩ : ∃ p, ['/'].intercalate ((c :: r) :: t) = c :: p := by
    cases t with
    | nil => exact ⟨r, by rw [strings.intercalate_singleton]⟩
    | cons t1 t2 => exact ⟨_, by rw [strings.intercalate_cons_cons]; rfl⟩
  have hloop := cleanLoop_segments ((c :: r) :: t) [] ((c :: p).length + 1) hs hne
    (by rw [hp]; omega)
  rw [hp] at hloop ⊢
  have hloop2 : cleanLoop false (p.length + 1 + 1) [] 0 (c :: p) = c :: p := by
    simpa using hloop
  unfold Clean
  rw [if_neg (List.cons_ne_nil c p)]
  simp [hc, hloop2]

end path

namespace path

/-- `Join` of four clean elements, the last a clean key, writes them with `/`
in between. -/
theorem Join_clean (a b c k : GoString) (ha : cleanElem a = true) (hb : cleanElem b = true)
    (hc : cleanElem c = true) (hk : cleanKey k = true) :
    Join [a, b, c, k] = a ++ '/' :: (b ++ '/' :: (c ++ '/' :: k)) := by
  have ha1 := (cleanElem_iff.mp ha).1
  have hlen : 0 < a.length := List.length_pos.mpr ha1
  obtain ⟨s, t, hst⟩ : ∃ s t, k.splitOn '/' = s :: t := by
    cases h : k.splitOn '/' with
    | nil => exact absurd h (List.splitOnP_ne_nil _ _)
    | cons s t => exact ⟨s, t, rfl⟩
  have hseg : ['/'].intercalate (a :: b :: c :: k.splitOn '/') =
      a ++ '/' :: (b ++ '/' :: (c ++ '/' :: k)) := by
    rw [hst, strings.intercalate_cons_cons, strings.intercalate_cons_cons,
      strings.intercalate_cons_cons, ← hst, List.intercalate_splitOn]
    simp
  have hall : ∀ x ∈ a :: b :: c :: k.splitOn '/', cleanElem x = true := by
    intro x hx
    simp only [List.mem_cons] at hx
    rcases hx with rfl | rfl | rfl | hx
    · exact ha
    · exact hb
    · exact hc
    · unfold cleanKey at hk
      rw [List.all_eq_true] at hk
      exact hk x hx
  have hjoin : joinBuf [] [a, b, c, k] = a ++ '/' :: (b ++ '/' :: (c ++ '/' :: k)) := by
    simp [joinBuf, ha1, hlen]
  unfold Join
  rw [if_neg (by simp [ha1]), hjoin, ← hseg]
  exact Clean_segments _ hall (List.cons_ne_nil _ _)

end path

theorem removeEmptyPort_of_no_colon {host : GoString}
    (h : strings.HasSuffix host ":".toList = false) : http.removeEmptyPort host = host := by
  unfold http.removeEmptyPort strings.TrimSuffix
  rw [h]
  simp

theorem isBytes_iff {s : GoString} : isBytes s = true ↔ ∀ c ∈ s, c.toNat < 256 := by
  unfold isBytes
  simp only [List.all_eq_true, decide_eq_true_eq]

/-- The bucket and the endpoint, joined by a dot, make a clean element. -/
theorem cleanElem_bucket {B E : GoString} (hB : B ≠ []) (hE : E ≠ []) (h1 : '/' ∉ B)
    (h2 : '/' ∉ E) : cleanElem (B ++ ".".toList ++ E) = true := by
  have hlB : 0 < B.length := List.length_pos.mpr hB
  have hlE : 0 < E.length := List.length_pos.mpr hE
  have hlen : 3 ≤ (B ++ ".".toList ++ E).length := by
    rw [List.length_append, List.length_append]
    have : ".".toList.length = 1 := rfl
    omega
  rw [path.cleanElem_iff]
  refine ⟨?_, ?_, ?_, ?_⟩
  · intro e
    rw [e] at hlen
    simp at hlen
  · intro hm
    rw [List.mem_append, List.mem_append] at hm
    rcases hm with (hm | hm) | hm
    · exact h1 hm
    · revert hm
      decide
    · exact h2 hm
  · intro e
    rw [e] at hlen
    revert hlen
    decide
  · intro e
    rw [e] at hlen
    revert hlen
    decide

/-- The query text in the words of the specification holds no `?`, no `#`
and no control byte. -/
theorem expectedQuery_bytes (filter : GoString) (overwrite : Bool) {c : Char}
    (hc : c ∈ expectedQuery filter overwrite) :
    c ≠ '?' ∧ c ≠ '#' ∧ 0x20 ≤ c.toNat ∧ c.toNat ≠ 0x7f := by
  have h1 : ∀ e ∈ "filter=".toList, e ≠ '?' ∧ e ≠ '#' ∧ 0x20 ≤ e.toNat ∧ e.toNat ≠ 0x7f := by
    decide
  have h2 : ∀ e ∈ "&".toList, e ≠ '?' ∧ e ≠ '#' ∧ 0x20 ≤ e.toNat ∧ e.toNat ≠ 0x7f := by
    decide
  have h3 : ∀ e ∈ "overwrite=1".toList,
      e ≠ '?' ∧ e ≠ '#' ∧ 0x20 ≤ e.toNat ∧ e.toNat ≠ 0x7f := by decide
  unfold expectedQuery at hc
  rw [List.mem_append, List.mem_append] at hc
  rcases hc with (hc | hc) | hc
  · have hc2 := mem_of_mem_ite hc
    rw [List.mem_append] at hc2
    rcases hc2 with hc2 | hc2
    · exact h1 c hc2
    · have h := url.escape_safe (Or.inr (Or.inr rfl)) hc2
      exact ⟨h.1, h.2.1, by omega, by omega⟩
  · exact h2 c (mem_of_mem_ite hc)
  · exact h3 c (mem_of_mem_ite hc)

/-- The request `http.NewRequestWithContext` makes of the text of a URL with
the scheme `http`, a plain host, a relative path of bytes and a query. -/
theorem NewRequestWithContext_target (method h P q : GoString)
    (hm : http.validMethod method = true) (hh : plainHost h = true) (hne : h ≠ [])
    (hcolon : strings.HasSuffix h ":".toList = false) (hP : ∀ c ∈ P, c.toNat < 256)
    (hP1 : P ≠ []) (hP2 : P.head? ≠ some '/') (hP3 : P ≠ "*".toList)
    (hq : ∀ c ∈ q, c ≠ '?' ∧ c ≠ '#' ∧ 0x20 ≤ c.toNat ∧ c.toNat ≠ 0x7f) :
    http.NewRequestWithContext method
        (url.URL.String { Scheme := "http".toList, Host := h, Path := P, RawQuery := q }) =
      .ok { Method := method,
            URL := { Scheme := "http".toList, Host := h, Path := '/' :: P, RawQuery := q },
            Header := [], Host := h } := by
  have hmne : method ≠ [] := by
    rintro rfl
    revert hm
    decide
  have hslash : url.escape ('/' :: P) url.encoding.encodePath =
      '/' :: url.escape P url.encoding.encodePath := url.escape_cons_of_plain (by decide)
  have hEP : url.escape P url.encoding.encodePath ≠ [] ∧
      (url.escape P url.encoding.encodePath).head? ≠ some '/' := by
    cases P with
    | nil => exact absurd rfl hP1
    | cons c r =>
      cases hc : url.shouldEscape c url.encoding.encodePath
      · rw [url.escape_cons_of_plain hc]
        exact ⟨List.cons_ne_nil _ _, hP2⟩
      · rw [url.escape_cons_of_escaped hc]
        exact ⟨List.cons_ne_nil _ _, by simp⟩
  have htt : targetText h P = '/' :: '/' :: (url.escape h url.encoding.encodeHost ++
      '/' :: url.escape P url.encoding.encodePath) := by
    unfold targetText
    rw [if_neg hP3, if_pos (Or.inl hne), if_pos hne, if_pos ⟨hEP.1, hEP.2, hne⟩]
    simp
  have hXb : ∀ c ∈ '/' :: url.escape P url.encoding.encodePath,
      c ≠ '?' ∧ c ≠ '#' ∧ 0x20 ≤ c.toNat ∧ c.toNat ≠ 0x7f := by
    intro c hc
    rw [List.mem_cons] at hc
    rcases hc with rfl | hc
    · decide
    · have h := url.escape_safe (Or.inr (Or.inl rfl)) hc
      exact ⟨h.1, h.2.1, by omega, by omega⟩
  have hP' : ∀ c ∈ '/' :: P, c.toNat < 256 := by
    intro c hc
    rw [List.mem_cons] at hc
    rcases hc with rfl | hc
    · decide
    · exact hP c hc
  have hset : ∀ u : url.URL, url.setPath u ('/' :: url.escape P url.encoding.encodePath) =
      .ok { u with Path := '/' :: P, RawPath := [] } := by
    intro u
    rw [← hslash]
    exact url.setPath_escape u _ hP'
  have hparse := url.Parse_http_authority _ h _ q _ (url.escape_host_bytes h)
    (url.parseHost_escape_plain hh) (Or.inr ⟨_, rfl⟩) hXb hq hset
  unfold http.NewRequestWithContext
  rw [String_target, htt, hparse]
  dsimp only
  rw [if_neg hmne, hm, removeEmptyPort_of_no_colon hcolon]
  rfl

/-- Parsing the peer URL of a plain peer gives the scheme `http` and the peer as host. -/
theorem Parse_peerURL_plain {peer : GoString} (hh : plainHost peer = true) (hne : peer ≠ []) :
    url.Parse (peerURL peer) = .ok { Scheme := "http".toList, Host := peer } := by
  have h := url.Parse_http_authority _ peer [] [] [] (url.escape_host_bytes peer)
    (url.parseHost_escape_plain hh) (Or.inl rfl)
    (fun c hc => absurd hc (List.not_mem_nil c)) (fun c hc => absurd hc (List.not_mem_nil c))
    setPath_nil
  rw [if_neg (fun hc => hc rfl), List.append_nil, List.append_nil] at h
  rw [peerURL_eq, if_pos hne]
  exact h

/-- The request `http.NewRequestWithContext` makes of the URL the builders
hand to it, for a plain peer, a bucket and an endpoint without `/` and a
clean key: the peer is the host, the path is `routePath`. -/
theorem request_of_route (method op B E K peer q : GoString)
    (hm : http.validMethod method = true) (hopc : cleanElem op = true)
    (hopb : isBytes op = true)
    (hE : E ≠ []) (hB : B ≠ []) (hEs : '/' ∉ E) (hBs : '/' ∉ B) (hK : cleanKey K = true)
    (hEb : isBytes E = true) (hBb : isBytes B = true) (hKb : isBytes K = true)
    (hpeer : peer ≠ []) (hplain : plainHost peer = true)
    (hcolon : strings.HasSuffix peer ":".toList = false)
    (hq : ∀ c ∈ q, c ≠ '?' ∧ c ≠ '#' ∧ 0x20 ≤ c.toNat ∧ c.toNat ≠ 0x7f) :
    http.NewRequestWithContext method
        (url.URL.String
          { Scheme := "http".toList, Host := peer, RawQuery := q,
            Path := (path.Join ["buckets".toList, B ++ ".".toList ++ E, op, K]) }) =
      .ok { Method := method,
            URL := { Scheme := "http".toList, Host := peer, Path := routePath op B E K,
                     RawQuery := q },
            Header := [], Host := peer } := by
  have hjoin := path.Join_clean "buckets".toList (B ++ ".".toList ++ E) op K (by decide)
    (cleanElem_bucket hB hE hBs hEs) hopc hK
  have hroute : routePath op B E K =
      '/' :: ("buckets".toList ++ '/' :: (B ++ ".".toList ++ E ++ '/' :: (op ++ '/' :: K))) := by
    unfold routePath
    simp
  have hbytes : ∀ c ∈ "buckets".toList ++ '/' :: (B ++ ".".toList ++ E ++ '/' :: (op ++ '/' :: K)),
      c.toNat < 256 := by
    have hlit : ∀ c ∈ "buckets".toList, c.toNat < 256 := by decide
    intro c hc
    simp only [List.mem_append, List.mem_cons] at hc
    rcases hc with hc | rfl | ((hc | hc) | hc) | rfl | hc | rfl | hc
    · exact hlit c hc
    · decide
    · exact isBytes_iff.mp hBb c hc
    · have : ∀ d ∈ ".".toList, d.toNat < 256 := by decide
      exact this c hc
    · exact isBytes_iff.mp hEb c hc
    · decide
    · exact isBytes_iff.mp hopb c hc
    · decide
    · exact isBytes_iff.mp hKb c hc
  rw [hjoin, hroute]
  exact NewRequestWithContext_target method peer _ q hm hplain hpeer hcolon hbytes
    (by simp) (by simp) (by simp) hq

/-- The request the metadata builder returns on the plain domain. -/
theorem GetUrfsMetadataRequestWithContext_plain (E B K peer : GoString) (isDir : Bool)
    (hE : E ≠ []) (hB : B ≠ []) (hEs : '/' ∉ E) (hBs : '/' ∉ B) (hK : cleanKey K = true)
    (hEb : isBytes E = true) (hBb : isBytes B = true) (hKb : isBytes K = true)
    (hpeer : peer ≠ []) (hplain : plainHost peer = true)
    (hcolon : strings.HasSuffix peer ":".toList = false) :
    dfstore.GetUrfsMetadataRequestWithContext
        { Endpoint := E, BucketName := B, ObjectKey := K, DstPeer := peer } isDir =
      .ok { Method := "HEAD".toList,
            URL := { Scheme := "http".toList, Host := peer,
                     Path := routePath "objects".toList B E K },
            Header := [], Host := peer } := by
  have hKne : K ≠ [] := by
    rintro rfl
    revert hK
    decide
  rw [GetUrfsMetadataRequestWithContext_eq, GetUrfsMetadataInput_Validate_ok hE hB hKne]
  dsimp only
  rw [Parse_peerURL_plain hplain hpeer]
  exact request_of_route http.MethodHead "objects".toList B E K peer [] (by decide) (by decide)
    (by decide) hE hB hEs hBs hK hEb hBb hKb hpeer hplain hcolon
    (fun c hc => absurd hc (List.not_mem_nil c))

/-- The request the fetch builder returns on the plain domain. -/
theorem GetUrfsRequestWithContext_plain (E B K peer filter range : GoString)
    (overwrite isDir : Bool)
    (hE : E ≠ []) (hB : B ≠ []) (hEs : '/' ∉ E) (hBs : '/' ∉ B) (hK : cleanKey K = true)
    (hEb : isBytes E = true) (hBb : isBytes B = true) (hKb : isBytes K = true)
    (hpeer : peer ≠ []) (hplain : plainHost peer = true)
    (hcolon : strings.HasSuffix peer ":".toList = false) :
    dfstore.GetUrfsRequestWithContext
        { Endpoint := E, BucketName := B, ObjectKey := K, Filter := filter, Range := range,
          DstPeer := peer, Overwrite := overwrite } isDir =
      .ok (withRange range
        { Method := "POST".toList,
          URL := { Scheme := "http".toList, Host := peer,
                   Path := routePath
                     (if isDir then "cache_folder".toList else "cache_object".toList) B E K,
                   RawQuery := expectedQuery filter (!isDir && overwrite) },
          Header := [], Host := peer }) := by
  have hKne : K ≠ [] := by
    rintro rfl
    revert hK
    decide
  rw [GetUrfsRequestWithContext_eq, GetUrfsInput_Validate_ok hE hB hKne]
  dsimp only
  rw [Parse_peerURL_plain hplain hpeer]
  dsimp only
  rw [fetchTarget_eq]
  dsimp only
  rw [request_of_route http.MethodPost
    (if isDir then "cache_folder".toList else "cache_object".toList) B E K peer
    (expectedQuery filter (!isDir && overwrite)) (by decide) (by cases isDir <;> decide)
    (by cases isDir <;> decide) hE hB hEs hBs hK hEb hBb hKb hpeer hplain hcolon
    (fun c hc => expectedQuery_bytes _ _ hc)]
  rfl

/-- The request the status builder returns on the plain domain. -/
theorem GetUrfsStatusRequestWithContext_plain (E B K peer filter range : GoString)
    (overwrite isDir : Bool)
    (hE : E ≠ []) (hB : B ≠ []) (hEs : '/' ∉ E) (hBs : '/' ∉ B) (hK : cleanKey K = true)
    (hEb : isBytes E = true) (hBb : isBytes B = true) (hKb : isBytes K = true)
    (hpeer : peer ≠ []) (hplain : plainHost peer = true)
    (hcolon : strings.HasSuffix peer ":".toList = false) :
    dfstore.GetUrfsStatusRequestWithContext
        { Endpoint := E, BucketName := B, ObjectKey := K, Filter := filter, Range := range,
          DstPeer := peer, Overwrite := overwrite } isDir =
      .ok (withRange range
        { Method := "GET".toList,
          URL := { Scheme := "http".toList, Host := peer,
                   Path := routePath
                     (if isDir then "check_folder".toList else "check_object".toList) B E K,
                   RawQuery := expectedQuery filter false },
          Header := [], Host := peer }) := by
  have hKne : K ≠ [] := by
    rintro rfl
    revert hK
    decide
  rw [GetUrfsStatusRequestWithContext_eq, GetUrfsInput_Validate_ok hE hB hKne]
  dsimp only
  rw [Parse_peerURL_plain hplain hpeer]
  dsimp only
  rw [statusTarget_eq]
  dsimp only
  rw [request_of_route http.MethodGet
    (if isDir then "check_folder".toList else "check_object".toList) B E K peer
    (expectedQuery filter false) (by decide) (by cases isDir <;> decide)
    (by cases isDir <;> decide) hE hB hEs hBs hK hEb hBb hKb hpeer hplain hcolon
    (fun c hc => expectedQuery_bytes _ _ hc)]
  rfl

/-! ## The claim on the method, the host and the path of the requests -/

/-- C6 (amended): for a non-empty endpoint `E` and bucket `B` without `/`, a
clean key `K` (no empty, `.` or `..` element between its slashes), all of
bytes, and a non-empty plain peer (a name of bytes that need no escaping in
a host or are above `0x7f`, without `[` and `:`, or an IPv6 address without
a zone in brackets, with an optional port) that does not end in `:`, each builder
returns a request with the scheme `http`, the peer as host, and the method
and path of its operation: `HEAD /buckets/B.E/objects/K` for the metadata,
`POST /buckets/B.E/cache_object/K` for a file fetch,
`POST /buckets/B.E/cache_folder/K` for a directory fetch,
`GET /buckets/B.E/check_object/K` for a file status and
`GET /buckets/B.E/check_folder/K` for a directory status. -/
theorem request_method_host_path (E B K peer filter range : GoString) (overwrite isDir : Bool)
    (hE : E ≠ []) (hB : B ≠ []) (hEs : '/' ∉ E) (hBs : '/' ∉ B) (hK : cleanKey K = true)
    (hEb : isBytes E = true) (hBb : isBytes B = true) (hKb : isBytes K = true)
    (hpeer : peer ≠ []) (hplain : plainHost peer = true)
    (hcolon : strings.HasSuffix peer ":".toList = false) :
    dfstore.GetUrfsMetadataRequestWithContext
        { Endpoint := E, BucketName := B, ObjectKey := K, DstPeer := peer } isDir =
      .ok { Method := "HEAD".toList,
            URL := { Scheme := "http".toList, Host := peer,
                     Path := routePath "objects".toList B E K },
            Header := [], Host := peer } ∧
    dfstore.GetUrfsRequestWithContext
        { Endpoint := E, BucketName := B, ObjectKey := K, Filter := filter, Range := range,
          DstPeer := peer, Overwrite := overwrite } false =
      .ok (withRange range
        { Method := "POST".toList,
          URL := { Scheme := "http".toList, Host := peer,
                   Path := routePath "cache_object".toList B E K,
                   RawQuery := expectedQuery filter overwrite },
          Header := [], Host := peer }) ∧
    dfstore.GetUrfsRequestWithContext
        { Endpoint := E, BucketName := B, ObjectKey := K, Filter := filter, Range := range,
          DstPeer := peer, Overwrite := overwrite } true =
      .ok (withRange range
        { Method := "POST".toList,
          URL := { Scheme := "http".toList, Host := peer,
                   Path := routePath "cache_folder".toList B E K,
                   RawQuery := expectedQuery filter false },
          Header := [], Host := peer }) ∧
    dfstore.GetUrfsStatusRequestWithContext
        { Endpoint := E, BucketName := B, ObjectKey := K, Filter := filter, Range := range,
          DstPeer := peer, Overwrite := overwrite } false =
      .ok (withRange range
        { Method := "GET".toList,
          URL := { Scheme := "http".toList, Host := peer,
                   Path := routePath "check_object".toList B E K,
                   RawQuery := expectedQuery filter false },
          Header := [], Host := peer }) ∧
    dfstore.GetUrfsStatusRequestWithContext
        { Endpoint := E, BucketName := B, ObjectKey := K, Filter := filter, Range := range,
          DstPeer := peer, Overwrite := overwrite } true =
      .ok (withRange range
        { Method := "GET".toList,
          URL := { Scheme := "http".toList, Host := peer,
                   Path := routePath "check_folder".toList B E K,
                   RawQuery := expectedQuery filter false },
          Header := [], Host := peer }) :=
  ⟨GetUrfsMetadataRequestWithContext_plain E B K peer isDir hE hB hEs hBs hK hEb hBb hKb hpeer
      hplain hcolon,
    GetUrfsRequestWithContext_plain E B K peer filter range overwrite false hE hB hEs hBs hK hEb
      hBb hKb hpeer hplain hcolon,
    GetUrfsRequestWithContext_plain E B K peer filter range overwrite true hE hB hEs hBs hK hEb
      hBb hKb hpeer hplain hcolon,
    GetUrfsStatusRequestWithContext_plain E B K peer filter range overwrite false hE hB hEs hBs
      hK hEb hBb hKb hpeer hplain hcolon,
    GetUrfsStatusRequestWithContext_plain E B K peer filter range overwrite true hE hB hEs hBs
      hK hEb hBb hKb hpeer hplain hcolon⟩

/-- Witness of C6 (amended): the endpoint `obs.example.com`, the bucket
`cache`, the key `a/b.txt` and the peer `10.0.0.1:9000` meet the conditions,
and the metadata request is `HEAD` on
`http://10.0.0.1:9000/buckets/cache.obs.example.com/objects/a/b.txt`; so do
the bracketed IPv6 peer `[2001:db8::68]:9000` and a peer that holds the byte
`0xe9`, and the host of the request is the peer. -/
theorem request_method_host_path_witness :
    dfstore.GetUrfsMetadataRequestWithContext exampleMetadataInput false =
      .ok { Method := "HEAD".toList,
            URL := { Scheme := "http".toList, Host := "10.0.0.1:9000".toList,
                     Path := "/buckets/cache.obs.example.com/objects/a/b.txt".toList },
            Header := [], Host := "10.0.0.1:9000".toList } ∧
    dfstore.GetUrfsMetadataRequestWithContext
        { exampleMetadataInput with DstPeer := "[2001:db8::68]:9000".toList } false =
      .ok { Method := "HEAD".toList,
            URL := { Scheme := "http".toList, Host := "[2001:db8::68]:9000".toList,
                     Path := "/buckets/cache.obs.example.com/objects/a/b.txt".toList },
            Header := [], Host := "[2001:db8::68]:9000".toList } ∧
    dfstore.GetUrfsMetadataRequestWithContext
        { exampleMetadataInput with DstPeer := ['c', 'a', 'f', Char.ofNat 0xe9] } false =
      .ok { Method := "HEAD".toList,
            URL := { Scheme := "http".toList, Host := ['c', 'a', 'f', Char.ofNat 0xe9],
                     Path := "/buckets/cache.obs.example.com/objects/a/b.txt".toList },
            Header := [], Host := ['c', 'a', 'f', Char.ofNat 0xe9] } :=
  ⟨(request_method_host_path "obs.example.com".toList "cache".toList "a/b.txt".toList
      "10.0.0.1:9000".toList [] [] false false (by decide) (by decide) (by decide) (by decide)
      (by decide) (by decide) (by decide) (by decide) (by decide) (by decide) (by decide)).1,
    (request_method_host_path "obs.example.com".toList "cache".toList "a/b.txt".toList
      "[2001:db8::68]:9000".toList [] [] false false (by decide) (by decide) (by decide)
      (by decide) (by decide) (by decide) (by decide) (by decide) (by decide) (by decide)
      (by decide)).1,
    (request_method_host_path "obs.example.com".toList "cache".toList "a/b.txt".toList
      ['c', 'a', 'f', Char.ofNat 0xe9] [] [] false false (by decide) (by decide) (by decide)
      (by decide) (by decide) (by decide) (by decide) (by decide) (by decide) (by decide)
      (by decide)).1⟩

set_option maxRecDepth 100000 in
/-- Counterexample to C6: the key is not substituted verbatim and the host
is not always the peer.  The locator `urfs://obs.example.com/cache/a//b` has
the key `a//b`, and the path of the metadata request is
`/buckets/cache.obs.example.com/objects/a/b`; for the key `../../../x` the
path is `/x`; and for the empty peer the host of the request is `buckets`. -/
theorem key_is_cleaned_by_Join :
    parseUrfsURL "urfs://obs.example.com/cache/a//b".toList =
      ("obs.example.com".toList, "cache".toList, "a//b".toList, none) ∧
    dfstore.GetUrfsMetadataRequestWithContext
        { exampleMetadataInput with ObjectKey := "a//b".toList } false =
      .ok { Method := "HEAD".toList,
            URL := { Scheme := "http".toList, Host := "10.0.0.1:9000".toList,
                     Path := "/buckets/cache.obs.example.com/objects/a/b".toList },
            Header := [], Host := "10.0.0.1:9000".toList } ∧
    "/buckets/cache.obs.example.com/objects/a/b".toList ≠
      routePath "objects".toList "cache".toList "obs.example.com".toList "a//b".toList ∧
    dfstore.GetUrfsRequestWithContext
        { exampleInput with ObjectKey := "../../../x".toList } false =
      .ok { Method := "POST".toList,
            URL := { Scheme := "http".toList, Host := "10.0.0.1:9000".toList,
                     Path := "/x".toList },
            Header := [], Host := "10.0.0.1:9000".toList } ∧
    dfstore.GetUrfsStatusRequestWithContext { exampleInput with DstPeer := [] } false =
      .ok { Method := "GET".toList,
            URL := { Scheme := "http".toList, Host := "buckets".toList,
                     Path := "/cache.obs.example.com/check_object/a/b.txt".toList },
            Header := [], Host := "buckets".toList } := by
  decide

/-! ## The claim on the query string -/

/-- C7: whenever the fetch builder `GetUrfsRequestWithContext` or the status
builder `GetUrfsStatusRequestWithContext` builds a request, its query string
is `filter=` followed by the query-escaped filter exactly when the filter is
non-empty, `overwrite=1` exactly when the request is a file (non-directory)
fetch with the overwrite flag set, the two joined by `&`, and nothing else;
directory fetches and status requests never carry `overwrite`.  Both
builders do build a request for a non-empty endpoint and bucket without `/`,
a clean key, all of bytes, and a non-empty plain peer not ending in `:`. -/
theorem query_string_rule (input : dfstore.GetUrfsInput) (isDir : Bool) :
    (∀ req, dfstore.GetUrfsRequestWithContext input isDir = .ok req →
      req.URL.RawQuery = expectedQuery input.Filter (!isDir && input.Overwrite)) ∧
    (∀ req, dfstore.GetUrfsRequestWithContext input true = .ok req →
      req.URL.RawQuery = expectedQuery input.Filter false) ∧
    (∀ req, dfstore.GetUrfsStatusRequestWithContext input isDir = .ok req →
      req.URL.RawQuery = expectedQuery input.Filter false) ∧
    (input.Endpoint ≠ [] → input.BucketName ≠ [] → '/' ∉ input.Endpoint →
      '/' ∉ input.BucketName → cleanKey input.ObjectKey = true →
      isBytes input.Endpoint = true → isBytes input.BucketName = true →
      isBytes input.ObjectKey = true → input.DstPeer ≠ [] → plainHost input.DstPeer = true →
      strings.HasSuffix input.DstPeer ":".toList = false →
      (∃ req, dfstore.GetUrfsRequestWithContext input isDir = .ok req) ∧
        (∃ req, dfstore.GetUrfsStatusRequestWithContext input isDir = .ok req)) :=
  ⟨fun _ h => query_rule_fetch h, fun _ h => query_rule_fetch h, fun _ h => query_rule_status h,
    fun hE hB hEs hBs hK hEb hBb hKb hpeer hplain hcolon =>
      ⟨⟨_, GetUrfsRequestWithContext_plain input.Endpoint input.BucketName input.ObjectKey
          input.DstPeer input.Filter input.Range input.Overwrite isDir hE hB hEs hBs hK hEb hBb
          hKb hpeer hplain hcolon⟩,
        ⟨_, GetUrfsStatusRequestWithContext_plain input.Endpoint input.BucketName
          input.ObjectKey input.DstPeer input.Filter input.Range input.Overwrite isDir hE hB hEs
          hBs hK hEb hBb hKb hpeer hplain hcolon⟩⟩⟩

set_option maxRecDepth 100000 in
/-- The two examples of the specification: the file fetch with the overwrite
flag is a `POST` on
`http://10.0.0.1:9000/buckets/cache.obs.example.com/cache_object/a/b.txt?overwrite=1`,
and the directory status request with the filter `x=1` (and the overwrite
flag) is a `GET` on `check_folder` with the query `filter=x%3D1`. -/
theorem query_string_rule_witness :
    dfstore.GetUrfsRequestWithContext overwriteInput false = .ok overwriteRequest ∧
    overwriteRequest.URL.String =
      "http://10.0.0.1:9000/buckets/cache.obs.example.com/cache_object/a/b.txt?overwrite=1".toList ∧
    overwriteRequest.URL.RawQuery = expectedQuery overwriteInput.Filter true ∧
    dfstore.GetUrfsStatusRequestWithContext filterInput true = .ok filterRequest ∧
    filterRequest.URL.RawQuery = expectedQuery filterInput.Filter false ∧
    expectedQuery filterInput.Filter false = "filter=x%3D1".toList ∧
    dfstore.GetUrfsRequestWithContext filterInput true =
      .ok { filterRequest with
        Method := "POST".toList,
        URL := { filterRequest.URL with
          Path := "/buckets/cache.obs.example.com/cache_folder/a/b.txt".toList } } ∧
    ((∃ req, dfstore.GetUrfsRequestWithContext overwriteInput false = .ok req) ∧
      (∃ req, dfstore.GetUrfsStatusRequestWithContext overwriteInput false = .ok req)) :=
  ⟨by decide, by decide,
    (query_string_rule overwriteInput false).1 overwriteRequest (by decide),
    by decide,
    (query_string_rule filterInput true).2.2.1 filterRequest (by decide),
    by decide, by decide,
    (query_string_rule overwriteInput false).2.2.2 (by decide) (by decide) (by decide)
      (by decide) (by decide) (by decide) (by decide) (by decide) (by decide) (by decide)
      (by decide)⟩

end Urchin
